import Mathlib

/-!
# Milton: the update cycle and the canvas view of `milton.h`

A shallow embedding of `milton_resize` and `milton_update` (src/src/milton.h) and
theorems about them.

Conventions of the embedding.

* `i32` values are mathematical integers (`Int`); the theorems are about runs
  in which no signed overflow happens. For `milton_resize`, whose pan arithmetic
  can leave the range of `i32`, `milton_resize_i32` is the same function with
  every result reduced into that range.
* A C array is a total function from its index; a cell whose index lies outside
  the declared bounds stands for memory outside the array, which the theorems
  never rely on.
* `assert` is taken as fatal: a function that reaches a failing assertion
  returns `Except.error`.
* The two `while` loops of `milton_resize` run on fuel; a run that does not
  finish within its fuel returns `Fault.out_of_fuel`.
* The headers `canvas.h`, `color.h`, `vector.generated.h` and `rasterizer.h` are
  not among the sources. The record types they declare are modelled with the
  fields that `milton.h` reads and writes, the colour picker and the colour
  conversion are parameters (`Externals`), and `milton_render` is represented by
  the render flags it is called with: `milton_update` returns the state handed
  to `milton_render` together with those flags.
-/

namespace Milton

/-! ## Data model -/

/-- Modelled from the spec: the integer vector `v2i` of `vector.generated.h`
(absent from the sources); `w` and `h` are the other names of `x` and `y`. -/
structure v2i where
  x : Int
  y : Int
deriving DecidableEq, Repr

/-- The width of a size vector: `v2i.w` is `v2i.x`. -/
abbrev v2i.w (v : v2i) : Int := v.x

/-- The height of a size vector: `v2i.h` is `v2i.y`. -/
abbrev v2i.h (v : v2i) : Int := v.y

/-- Modelled from the spec: `add_v2i` of `vector.generated.h`, the componentwise
sum ("adds `pan_delta * scale` to `pan_vector`"). -/
def add_v2i (a b : v2i) : v2i := ⟨a.x + b.x, a.y + b.y⟩

/-- Modelled from the spec: `sub_v2i` of `vector.generated.h`, the componentwise
difference. -/
def sub_v2i (a b : v2i) : v2i := ⟨a.x - b.x, a.y - b.y⟩

/-- Modelled from the spec: `scale_v2i` of `vector.generated.h`, the product of
each component with an integer factor. -/
def scale_v2i (a : v2i) (factor : Int) : v2i := ⟨a.x * factor, a.y * factor⟩

/-- Modelled from the spec: `invscale_v2i` of `vector.generated.h`, the C integer
quotient (rounded toward zero) of each component by an integer factor;
`screen_center` is the screen size divided by two. -/
def invscale_v2i (a : v2i) (factor : Int) : v2i := ⟨Int.tdiv a.x factor, Int.tdiv a.y factor⟩

/-- The parts of the program that live in headers outside the sources: the float
types, the colour picker with its operations, the colour conversion and the bound
on the points of one stroke. Float points handed to the picker are given as the
integer point they are converted from (`v2i_to_v2f`). -/
structure Externals where
  /-- the type `f32` -/
  f32 : Type
  /-- the type `v3f` of colours -/
  v3f : Type
  /-- the type `ColorPicker` -/
  ColorPicker : Type
  /-- the constant `LIMIT_STROKE_POINTS` -/
  LIMIT_STROKE_POINTS : Int
  /-- the bit `ColorPickResult_change_color` -/
  ColorPickResult_change_color : Nat
  /-- the function `hsv_to_rgb` of `color.h` -/
  hsv_to_rgb : v3f → v3f
  /-- the field `hsv` of a picker -/
  picker_hsv : ColorPicker → v3f
  /-- the call `is_inside_picker(&picker, point)` -/
  is_inside_picker : ColorPicker → v2i → Bool
  /-- the call `picker_update(&picker, point)`: the picker afterwards and the result bits -/
  picker_update : ColorPicker → v2i → ColorPicker × Nat
  /-- the call `picker_wheel_active(picker)` -/
  picker_wheel_active : ColorPicker → Bool
  /-- the call `picker_wheel_deactivate(picker)`: the picker afterwards -/
  picker_wheel_deactivate : ColorPicker → ColorPicker
  /-- the call `picker_update_wheel(&picker, fpoint)`: the picker afterwards -/
  picker_update_wheel : ColorPicker → v2i → ColorPicker
  /-- the call `is_inside_triangle(fpoint, picker->a, picker->b, picker->c)` -/
  is_inside_triangle : ColorPicker → v2i → Bool

/-- Modelled from the spec: `Brush` of `canvas.h` (absent from the sources): a
radius in canvas units, a colour and an opacity. -/
structure Brush (E : Externals) where
  radius : Int
  color : E.v3f
  alpha : E.f32

/-- Modelled from the spec: `Stroke` of `canvas.h` (absent from the sources): the
brush the stroke is drawn with, the array of its points and the count of the
points in use. -/
structure Stroke (E : Externals) where
  brush : Brush E
  points : Int → v2i
  num_points : Int

/-- Modelled from the spec: `CanvasView` of `canvas.h` (absent from the sources),
with the fields `milton.h` uses. -/
structure CanvasView where
  screen_size : v2i
  screen_center : v2i
  pan_vector : v2i
  canvas_tile_focus : v2i
  scale : Int
  downsampling_factor : Int
  canvas_tile_radius : Int
deriving DecidableEq, Repr

/-- The constant `MiltonMode_NONE` -/
def MiltonMode_NONE : Nat := 0
/-- The constant `MiltonMode_ERASER = 1 << 0` -/
def MiltonMode_ERASER : Nat := 1
/-- The constant `MiltonMode_BRUSH = 1 << 1` -/
def MiltonMode_BRUSH : Nat := 2
/-- The constant `MiltonMode_REQUEST_QUALITY_REDRAW = 1 << 2` -/
def MiltonMode_REQUEST_QUALITY_REDRAW : Nat := 4

/-- The constant `MiltonInputFlags_NONE` -/
def MiltonInputFlags_NONE : Nat := 0
/-- The constant `MiltonInputFlags_FULL_REFRESH = 1 << 0` -/
def MiltonInputFlags_FULL_REFRESH : Nat := 1
/-- The constant `MiltonInputFlags_RESET = 1 << 1` -/
def MiltonInputFlags_RESET : Nat := 2
/-- The constant `MiltonInputFlags_END_STROKE = 1 << 2` -/
def MiltonInputFlags_END_STROKE : Nat := 4
/-- The constant `MiltonInputFlags_UNDO = 1 << 3` -/
def MiltonInputFlags_UNDO : Nat := 8
/-- The constant `MiltonInputFlags_REDO = 1 << 4` -/
def MiltonInputFlags_REDO : Nat := 16
/-- The constant `MiltonInputFlags_SET_MODE_ERASER = 1 << 5` -/
def MiltonInputFlags_SET_MODE_ERASER : Nat := 32
/-- The constant `MiltonInputFlags_SET_MODE_BRUSH = 1 << 6` -/
def MiltonInputFlags_SET_MODE_BRUSH : Nat := 64
/-- The constant `MiltonInputFlags_FAST_DRAW = 1 << 7` -/
def MiltonInputFlags_FAST_DRAW : Nat := 128

/-- The struct `MiltonInput`; an absent point (`point == NULL`) is `none`. -/
structure MiltonInput where
  flags : Nat
  point : Option v2i
  scale : Int
  pan_delta : v2i
deriving DecidableEq, Repr

/-- Modelled from the spec: `MiltonRenderFlags` of `rasterizer.h` (absent from the
sources), one boolean for each bit that `milton_update` sets. -/
structure MiltonRenderFlags where
  full_redraw : Bool
  picker_updated : Bool
deriving DecidableEq, Repr

/-- The constant `MiltonRenderFlags_none` -/
def MiltonRenderFlags_none : MiltonRenderFlags := ⟨false, false⟩

/-- The fields of `MiltonState` that `milton_resize` and `milton_update` read or
write, and `debug_scale_lock`, the function-local `static` of `milton_update`,
which lives as long as the state. The raster buffers, the GL state, the arenas
and the render queue are used by neither function. -/
structure MiltonState (E : Externals) where
  max_width : Int
  max_height : Int
  picker : E.ColorPicker
  brush : Brush E
  eraser_brush : Brush E
  brush_size : Int
  canvas_blocked : Bool
  view : CanvasView
  last_raster_input : v2i
  working_stroke : Stroke E
  strokes : Int → Stroke E
  num_strokes : Int
  num_redos : Int
  current_mode : Nat
  debug_scale_lock : Bool

/-- The ways a run of the model ends without a result: the failing assertion of
`milton_resize`, the failing assertion of `milton_update`, and a loop that did
not finish within its fuel. -/
inductive Fault where
  | assert_screen_size
  | assert_NPE
  | out_of_fuel
deriving DecidableEq, Repr

/-! ## `milton_resize` -/

/-- The loop `while (pan > radius) { focus++; pan -= radius; }` of
`milton_resize`, on one axis: the focus and pan it ends with. -/
def pan_loop_above (radius : Int) : Nat → Int → Int → Option (Int × Int)
  | 0, focus, pan => if radius < pan then none else some (focus, pan)
  | fuel + 1, focus, pan =>
    if radius < pan then pan_loop_above radius fuel (focus + 1) (pan - radius)
    else some (focus, pan)

/-- The loop `while (pan <= -radius) { focus--; pan += radius; }` of
`milton_resize`, on one axis: the focus and pan it ends with. -/
def pan_loop_below (radius : Int) : Nat → Int → Int → Option (Int × Int)
  | 0, focus, pan => if pan ≤ -radius then none else some (focus, pan)
  | fuel + 1, focus, pan =>
    if pan ≤ -radius then pan_loop_below radius fuel (focus - 1) (pan + radius)
    else some (focus, pan)

/-- The two loops of one axis, one after the other. -/
def pan_normalize (radius : Int) (fuel : Nat) (focus pan : Int) : Option (Int × Int) :=
  match pan_loop_above radius fuel focus pan with
  | none => none
  | some p => pan_loop_below radius fuel p.1 p.2

/-- The function `milton_resize`. The x loops run before the y loops; they touch
disjoint variables. -/
def milton_resize {E : Externals} (fuel : Nat) (s : MiltonState E)
    (pan_delta new_screen_size : v2i) : Except Fault (MiltonState E) :=
  if new_screen_size.w < s.max_width ∧ new_screen_size.h < s.max_height then
    let pan_vector := add_v2i s.view.pan_vector (scale_v2i pan_delta s.view.scale)
    match pan_normalize s.view.canvas_tile_radius fuel s.view.canvas_tile_focus.x pan_vector.x with
    | none => .error Fault.out_of_fuel
    | some px =>
      match pan_normalize s.view.canvas_tile_radius fuel s.view.canvas_tile_focus.y
          pan_vector.y with
      | none => .error Fault.out_of_fuel
      | some py =>
        .ok { s with view := { s.view with
                screen_size := new_screen_size
                screen_center := invscale_v2i new_screen_size 2
                canvas_tile_focus := ⟨px.1, py.1⟩
                pan_vector := ⟨px.2, py.2⟩ } }
  else
    .error Fault.assert_screen_size

/-! ## The float arithmetic of the zoom step

`view->scale / scale_factor` and `view->scale * scale_factor` are computed in
`f32` (IEEE 754 binary32, round to nearest, ties to even) and cast back to
`i32` (rounded toward zero). `scale_factor` is `1.3f`, the binary32 number
`10905190 / 2^23`. The functions below compute these casts exactly, on integers. -/

/-- The quotient `a / b` rounded to the nearest integer, a tie going to the even
one. -/
def round_half_even (a b : Nat) : Nat :=
  if 2 * (a % b) < b then a / b
  else if b < 2 * (a % b) then a / b + 1
  else if (a / b) % 2 = 0 then a / b else a / b + 1

/-- The position of the leading bit of `n` (0 for `n < 2`), on fuel. -/
def leading_bit : Nat → Nat → Nat
  | 0, _ => 0
  | fuel + 1, n => if 2 ≤ n then leading_bit fuel (n / 2) + 1 else 0

/-- The cast `(f32)n` of a natural number: `n` rounded to 24 significant bits. -/
def f32_of_nat (n : Nat) : Nat :=
  if leading_bit n n ≤ 23 then n
  else round_half_even n (2 ^ (leading_bit n n - 23)) * 2 ^ (leading_bit n n - 23)

/-- The cast `(i32)q` of the binary32 number nearest to the fraction `a / b`, for
`a = 0` or `b ≤ a` (the only fractions the zoom step forms): the fraction is
rounded to 24 significant bits and the result is cut to its integer part. -/
def f32_quot_trunc (a b : Nat) : Nat :=
  if 23 ≤ leading_bit (a / b) (a / b) then
    round_half_even a (b * 2 ^ (leading_bit (a / b) (a / b) - 23))
      * 2 ^ (leading_bit (a / b) (a / b) - 23)
  else
    round_half_even (a * 2 ^ (23 - leading_bit (a / b) (a / b))) b
      / 2 ^ (23 - leading_bit (a / b) (a / b))

/-- The numerator of `scale_factor = 1.3f` over `2^23`. -/
def scale_factor_num : Nat := 10905190

/-- The denominator `2^23` of `scale_factor = 1.3f`. -/
def scale_factor_den : Nat := 8388608

/-- The value of `(i32)(scale / scale_factor)`. -/
def scale_div_factor (scale : Int) : Int :=
  Int.sign scale *
    (f32_quot_trunc (f32_of_nat scale.natAbs * scale_factor_den) scale_factor_num : Nat)

/-- The value of `(i32)(scale * scale_factor)`. -/
def scale_mul_factor (scale : Int) : Int :=
  Int.sign scale *
    (f32_quot_trunc (f32_of_nat scale.natAbs * scale_factor_num) scale_factor_den : Nat)

/-- The constant `view_scale_limit`. -/
def view_scale_limit : Int := 10000

/-! ## `milton_update` -/

/-- The function `is_user_drawing`. -/
def is_user_drawing {E : Externals} (s : MiltonState E) : Bool :=
  decide (0 < s.working_stroke.num_points)

/-- Modelled from the spec: `raster_to_canvas` of `canvas.h` (absent from the
sources): `(screen_point - screen_center) * scale + pan_vector`. -/
def raster_to_canvas (view : CanvasView) (raster_point : v2i) : v2i :=
  add_v2i (scale_v2i (sub_v2i raster_point view.screen_center) view.scale) view.pan_vector

/-- Lines 445-458: the fast-draw flag and the pending quality redraw. -/
def update_fast_draw {E : Externals} (input : MiltonInput)
    (p : MiltonState E × MiltonRenderFlags) : MiltonState E × MiltonRenderFlags :=
  if input.flags &&& MiltonInputFlags_FAST_DRAW ≠ 0 then
    ({ p.1 with
        view := { p.1.view with downsampling_factor := 2 }
        current_mode := p.1.current_mode ||| MiltonMode_REQUEST_QUALITY_REDRAW }, p.2)
  else if p.1.current_mode &&& MiltonMode_REQUEST_QUALITY_REDRAW ≠ 0 then
    ({ p.1 with
        view := { p.1.view with downsampling_factor := 1 }
        current_mode := p.1.current_mode ^^^ MiltonMode_REQUEST_QUALITY_REDRAW },
      { p.2 with full_redraw := true })
  else
    ({ p.1 with view := { p.1.view with downsampling_factor := 1 } }, p.2)

/-- Lines 460-463: the full-refresh flag. -/
def update_full_refresh {E : Externals} (input : MiltonInput)
    (p : MiltonState E × MiltonRenderFlags) : MiltonState E × MiltonRenderFlags :=
  if input.flags &&& MiltonInputFlags_FULL_REFRESH ≠ 0 then
    (p.1, { p.2 with full_redraw := true })
  else p

/-- Lines 480-492: the new `view->scale` and `debug_scale_lock` of a zoom step. -/
def zoom_scale (input_scale : Int) (scale : Int) (lock : Bool) : Int × Bool :=
  if lock = false ∧ 0 < input_scale ∧ 2 ≤ scale then
    (scale_div_factor scale, if scale_div_factor scale = 1 then true else lock)
  else if input_scale < 0 ∧ scale < view_scale_limit then
    (scale_mul_factor scale + 1, false)
  else
    (scale, lock)

/-- Lines 465-495: the zoom step and the brush radii that follow the scale. -/
def update_zoom {E : Externals} (input : MiltonInput)
    (p : MiltonState E × MiltonRenderFlags) : MiltonState E × MiltonRenderFlags :=
  if input.scale ≠ 0 then
    let z := zoom_scale input.scale p.1.view.scale p.1.debug_scale_lock
    ({ p.1 with
        view := { p.1.view with scale := z.1 }
        debug_scale_lock := z.2
        brush := { p.1.brush with radius := p.1.brush_size * z.1 }
        eraser_brush := { p.1.eraser_brush with radius := p.1.brush_size * z.1 } },
      { p.2 with full_redraw := true })
  else p

/-- Lines 497-504: the mode flags; the eraser flag is tested last and wins. -/
def update_mode {E : Externals} (input : MiltonInput)
    (p : MiltonState E × MiltonRenderFlags) : MiltonState E × MiltonRenderFlags :=
  let s1 : MiltonState E :=
    if input.flags &&& MiltonInputFlags_SET_MODE_BRUSH ≠ 0 then
      { p.1 with current_mode := MiltonMode_BRUSH }
    else p.1
  if input.flags &&& MiltonInputFlags_SET_MODE_ERASER ≠ 0 then
    ({ s1 with current_mode := MiltonMode_ERASER }, p.2)
  else (s1, p.2)

/-- Lines 506-526: undo and redo; undo with a stroke in progress reaches
`assert(!"NPE")`. -/
def update_undo_redo {E : Externals} (input : MiltonInput)
    (p : MiltonState E × MiltonRenderFlags) :
    Except Fault (MiltonState E × MiltonRenderFlags) :=
  if input.flags &&& MiltonInputFlags_UNDO ≠ 0 then
    if p.1.working_stroke.num_points = 0 ∧ 0 < p.1.num_strokes then
      .ok ({ p.1 with num_strokes := p.1.num_strokes - 1, num_redos := p.1.num_redos + 1 }, p.2)
    else if 0 < p.1.working_stroke.num_points then
      .error Fault.assert_NPE
    else .ok p
  else if input.flags &&& MiltonInputFlags_REDO ≠ 0 then
    if 0 < p.1.num_redos then
      .ok ({ p.1 with num_strokes := p.1.num_strokes + 1, num_redos := p.1.num_redos - 1 }, p.2)
    else .ok p
  else .ok p

/-- Lines 528-534: reset. -/
def update_reset {E : Externals} (input : MiltonInput)
    (p : MiltonState E × MiltonRenderFlags) : MiltonState E × MiltonRenderFlags :=
  if input.flags &&& MiltonInputFlags_RESET ≠ 0 then
    ({ p.1 with
        num_strokes := 0
        strokes := Function.update p.1.strokes 0 { p.1.strokes 0 with num_points := 0 }
        working_stroke := { p.1.working_stroke with num_points := 0 } },
      { p.2 with full_redraw := true })
  else p

/-- Lines 570-595: a point drawn on the canvas joins the working stroke. -/
def draw_point {E : Externals} (in_point : v2i) (s : MiltonState E) : MiltonState E :=
  let ws_brush : Brush E :=
    if s.current_mode = MiltonMode_BRUSH then s.brush
    else if s.current_mode = MiltonMode_ERASER then s.eraser_brush
    else s.working_stroke.brush
  let ws : Stroke E :=
    if s.working_stroke.num_points < E.LIMIT_STROKE_POINTS then
      { brush := ws_brush
        points := Function.update s.working_stroke.points s.working_stroke.num_points
          (raster_to_canvas s.view in_point)
        num_points := s.working_stroke.num_points + 1 }
    else { s.working_stroke with brush := ws_brush }
  { s with working_stroke := ws, last_raster_input := in_point }

/-- Lines 556-596: a point goes to the colour picker, which blocks the canvas, or
is drawn if the canvas is not blocked. -/
def pick_or_draw {E : Externals} (point : v2i)
    (p : MiltonState E × MiltonRenderFlags) : MiltonState E × MiltonRenderFlags :=
  if is_user_drawing p.1 = false ∧ E.is_inside_picker p.1.picker point = true then
    let r := E.picker_update p.1.picker point
    let brush : Brush E :=
      if r.2 &&& E.ColorPickResult_change_color ≠ 0 ∧ p.1.current_mode = MiltonMode_BRUSH then
        { p.1.brush with color := E.hsv_to_rgb (E.picker_hsv r.1) }
      else p.1.brush
    ({ p.1 with picker := r.1, brush := brush, canvas_blocked := true },
      { p.2 with picker_updated := true })
  else if p.1.canvas_blocked = false then
    (draw_point point p.1, p.2)
  else p

/-- Lines 597-616: with the canvas blocked, the point drives the picker wheel. -/
def update_wheel {E : Externals} (point : v2i)
    (p : MiltonState E × MiltonRenderFlags) : MiltonState E × MiltonRenderFlags :=
  if p.1.canvas_blocked = true ∧ E.picker_wheel_active p.1.picker = true then
    if E.is_inside_triangle p.1.picker point = true then
      ({ p.1 with picker := E.picker_wheel_deactivate p.1.picker },
        { p.2 with picker_updated := true })
    else if p.1.current_mode = MiltonMode_BRUSH then
      ({ p.1 with
          picker := E.picker_update_wheel p.1.picker point
          brush := { p.1.brush with
            color := E.hsv_to_rgb (E.picker_hsv (E.picker_update_wheel p.1.picker point)) } },
        { p.2 with picker_updated := true })
    else (p.1, { p.2 with picker_updated := true })
  else p

/-- Lines 553-620: the input point, if there is one; it clears the redo count. -/
def update_point {E : Externals} (input : MiltonInput)
    (p : MiltonState E × MiltonRenderFlags) : MiltonState E × MiltonRenderFlags :=
  match input.point with
  | none => p
  | some point =>
    let q := update_wheel point (pick_or_draw point p)
    ({ q.1 with num_redos := 0 }, q.2)

/-- Lines 622-642: the end of a stroke unblocks the canvas or commits the working
stroke to the store. -/
def update_end_stroke {E : Externals} (input : MiltonInput)
    (p : MiltonState E × MiltonRenderFlags) : MiltonState E × MiltonRenderFlags :=
  if input.flags &&& MiltonInputFlags_END_STROKE ≠ 0 then
    if p.1.canvas_blocked = true then
      ({ p.1 with
          picker := E.picker_wheel_deactivate p.1.picker
          canvas_blocked := false }, p.2)
    else if p.1.num_strokes < 4096 then
      ({ p.1 with
          strokes := Function.update p.1.strokes p.1.num_strokes p.1.working_stroke
          num_strokes := p.1.num_strokes + 1
          working_stroke := { p.1.working_stroke with num_points := 0 } }, p.2)
    else p
  else p

/-- The function `milton_update`: the state handed to `milton_render` and the
render flags of the call, or the fault of the failing assertion. -/
def milton_update {E : Externals} (s : MiltonState E) (input : MiltonInput) :
    Except Fault (MiltonState E × MiltonRenderFlags) :=
  match update_undo_redo input
      (update_mode input (update_zoom input (update_full_refresh input
        (update_fast_draw input (s, MiltonRenderFlags_none))))) with
  | .error e => .error e
  | .ok p => .ok (update_end_stroke input (update_point input (update_reset input p)))

/-- A run of `milton_update` over a list of inputs, from the first to the last;
it stops at the first fault. -/
def milton_run {E : Externals} (s : MiltonState E) :
    List MiltonInput → Except Fault (MiltonState E)
  | [] => .ok s
  | input :: rest =>
    match milton_update s input with
    | .error e => .error e
    | .ok p => milton_run p.1 rest

/-- One zoom-in step on the pair of `view->scale` and `debug_scale_lock`: the zoom
step of an input with a positive `scale`. -/
def zoom_in_step (a : Int × Bool) : Int × Bool := zoom_scale 1 a.1 a.2

/-! ## Sequences of calls -/

/-- A call of one of the two entry points of the core: `milton_update` with an
input, or `milton_resize` with a pan delta and a new screen size (and the fuel of
its loops). -/
inductive Call where
  | update (input : MiltonInput)
  | resize (fuel : Nat) (pan_delta new_screen_size : v2i)

/-- One call on a state: the state it leaves, or the fault it ends with. -/
def milton_call {E : Externals} (s : MiltonState E) : Call → Except Fault (MiltonState E)
  | .update input =>
    match milton_update s input with
    | .error e => .error e
    | .ok p => .ok p.1
  | .resize fuel pan_delta new_screen_size => milton_resize fuel s pan_delta new_screen_size

/-- A sequence of calls, from the first to the last; it stops at the first fault.
A state `s` is reachable from `s0` when `milton_calls s0 calls = .ok s` for some
calls. -/
def milton_calls {E : Externals} (s : MiltonState E) :
    List Call → Except Fault (MiltonState E)
  | [] => .ok s
  | c :: rest =>
    match milton_call s c with
    | .error e => .error e
    | .ok s1 => milton_calls s1 rest

/-- The state a sequence of calls leaves (the starting state if a call fails). -/
def state_after {E : Externals} (s : MiltonState E) (calls : List Call) : MiltonState E :=
  match milton_calls s calls with
  | .ok s1 => s1
  | .error _ => s

/-! ## `milton_init` -/

/-- The parts of `milton_init` that depend on declarations outside the sources:
the assignments to the fields of the picker (lines 346-360) and the float
constants of the two brushes. -/
structure InitExternals (E : Externals) where
  /-- the picker after the field assignments of lines 346-360 -/
  picker_fields : E.ColorPicker → E.ColorPicker
  /-- the opacity `0.5f` of the drawing brush -/
  brush_alpha : E.f32
  /-- the opacity `1.0f` of the eraser brush -/
  eraser_alpha : E.f32
  /-- the colour `(v3f) { 1, 1, 1 }` of the eraser brush -/
  eraser_color : E.v3f

/-- The function `milton_init`, on the fields of the model: `m` is the memory
before the call, and the fields that `milton_init` does not write (the working
stroke, the strokes, `num_redos`, `canvas_blocked`, the other fields of the
view) are the ones of `m`. The point handed to `picker_update` is
`{ center.x + (int)wheel_radius, center.y }` with center (120, 120) and wheel
radius `100 - 5 - 12 = 83`. -/
def milton_init {E : Externals} (I : InitExternals E) (m : MiltonState E)
    (max_width max_height : Int) : MiltonState E :=
  let view : CanvasView :=
    { m.view with scale := 1024, downsampling_factor := 1, canvas_tile_radius := 1024 * 1024 * 512 }
  let picker : E.ColorPicker := (E.picker_update (I.picker_fields m.picker) ⟨120 + 83, 120⟩).1
  let brush_size : Int := 10
  let brush : Brush E :=
    { radius := brush_size * view.scale
      alpha := I.brush_alpha
      color := E.hsv_to_rgb (E.picker_hsv picker) }
  { m with
    max_width := max_width
    max_height := max_height
    num_strokes := 0
    current_mode := MiltonMode_BRUSH
    view := view
    picker := picker
    brush_size := brush_size
    brush := brush
    eraser_brush := { radius := brush.radius, alpha := I.eraser_alpha, color := I.eraser_color } }

/-! ## `milton_resize` on `i32`

The arithmetic of `milton_resize` is on `i32`. The definitions below follow the
same lines of the source as `milton_resize`, with the result of every `i32`
operation reduced into the range of `i32`: two's complement wrap-around, which
is what the targets of the program compute (the C standard leaves signed
overflow undefined). `milton_resize_i32_eq` relates the two: they agree whenever
no operation overflows. -/

/-- The values of `i32`: from `-2^31` to `2^31 - 1`. -/
abbrev in_i32 (x : Int) : Prop := -2147483648 ≤ x ∧ x ≤ 2147483647

/-- The `i32` that an integer result is stored as: the value congruent to it
modulo `2^32` in the range of `i32`. -/
def wrap_i32 (x : Int) : Int := (x + 2147483648) % 4294967296 - 2147483648

/-- The loop `while (pan > radius) { focus++; pan -= radius; }` on `i32`. -/
def pan_loop_above_i32 (radius : Int) : Nat → Int → Int → Option (Int × Int)
  | 0, focus, pan => if radius < pan then none else some (focus, pan)
  | fuel + 1, focus, pan =>
    if radius < pan then
      pan_loop_above_i32 radius fuel (wrap_i32 (focus + 1)) (wrap_i32 (pan - radius))
    else some (focus, pan)

/-- The loop `while (pan <= -radius) { focus--; pan += radius; }` on `i32`. -/
def pan_loop_below_i32 (radius : Int) : Nat → Int → Int → Option (Int × Int)
  | 0, focus, pan => if pan ≤ wrap_i32 (-radius) then none else some (focus, pan)
  | fuel + 1, focus, pan =>
    if pan ≤ wrap_i32 (-radius) then
      pan_loop_below_i32 radius fuel (wrap_i32 (focus - 1)) (wrap_i32 (pan + radius))
    else some (focus, pan)

/-- The two loops of one axis on `i32`, one after the other. -/
def pan_normalize_i32 (radius : Int) (fuel : Nat) (focus pan : Int) : Option (Int × Int) :=
  match pan_loop_above_i32 radius fuel focus pan with
  | none => none
  | some p => pan_loop_below_i32 radius fuel p.1 p.2

/-- The function `milton_resize` on `i32`: the pan vector is formed by an `i32`
product and an `i32` sum on each axis, and the loops count on `i32`. -/
def milton_resize_i32 {E : Externals} (fuel : Nat) (s : MiltonState E)
    (pan_delta new_screen_size : v2i) : Except Fault (MiltonState E) :=
  if new_screen_size.w < s.max_width ∧ new_screen_size.h < s.max_height then
    let pan_vector : v2i :=
      ⟨wrap_i32 (s.view.pan_vector.x + wrap_i32 (pan_delta.x * s.view.scale)),
        wrap_i32 (s.view.pan_vector.y + wrap_i32 (pan_delta.y * s.view.scale))⟩
    match pan_normalize_i32 s.view.canvas_tile_radius fuel s.view.canvas_tile_focus.x
        pan_vector.x with
    | none => .error Fault.out_of_fuel
    | some px =>
      match pan_normalize_i32 s.view.canvas_tile_radius fuel s.view.canvas_tile_focus.y
          pan_vector.y with
      | none => .error Fault.out_of_fuel
      | some py =>
        .ok { s with view := { s.view with
                screen_size := new_screen_size
                screen_center := invscale_v2i new_screen_size 2
                canvas_tile_focus := ⟨px.1, py.1⟩
                pan_vector := ⟨px.2, py.2⟩ } }
  else
    .error Fault.assert_screen_size

/-! ## A concrete instance

One choice of the external parts and one state, on which the statements below
are evaluated. -/

/-- A small colour picker: the picker is its `wheel active` bit, its hit region is
the square of half-width 100 about (120, 120), a point in the region starts the
wheel and asks for a colour change, and the triangle is the inner square of
half-width 40. Floats and colours carry no data. -/
def sample_externals : Externals where
  f32 := Unit
  v3f := Unit
  ColorPicker := Bool
  LIMIT_STROKE_POINTS := 1024
  ColorPickResult_change_color := 1
  hsv_to_rgb := fun c => c
  picker_hsv := fun _ => ()
  is_inside_picker := fun _ pt =>
    decide (20 ≤ pt.x ∧ pt.x ≤ 220 ∧ 20 ≤ pt.y ∧ pt.y ≤ 220)
  picker_update := fun _ _ => (true, 1)
  picker_wheel_active := fun p => p
  picker_wheel_deactivate := fun _ => false
  picker_update_wheel := fun p _ => p
  is_inside_triangle := fun _ pt =>
    decide (80 ≤ pt.x ∧ pt.x ≤ 160 ∧ 80 ≤ pt.y ∧ pt.y ≤ 160)

/-- A stroke without points. -/
def empty_stroke : Stroke sample_externals where
  brush := ⟨10240, (), ()⟩
  points := fun _ => ⟨0, 0⟩
  num_points := 0

/-- A state as `milton_init` leaves it for a 4096 x 2160 raster on zeroed memory,
with a 640 x 480 screen set by the platform layer and the picker wheel idle:
scale `1 << 10`, tile radius `1024 * 1024 * 512`, brush size 10, brush mode, no
stroke. -/
def sample_state : MiltonState sample_externals where
  max_width := 4096
  max_height := 2160
  picker := false
  brush := ⟨10240, (), ()⟩
  eraser_brush := ⟨10240, (), ()⟩
  brush_size := 10
  canvas_blocked := false
  view :=
    { screen_size := ⟨640, 480⟩
      screen_center := ⟨320, 240⟩
      pan_vector := ⟨0, 0⟩
      canvas_tile_focus := ⟨0, 0⟩
      scale := 1024
      downsampling_factor := 1
      canvas_tile_radius := 536870912 }
  last_raster_input := ⟨0, 0⟩
  working_stroke := empty_stroke
  strokes := fun _ => empty_stroke
  num_strokes := 0
  num_redos := 0
  current_mode := MiltonMode_BRUSH
  debug_scale_lock := false

/-- The sample state with two committed strokes. -/
def two_strokes_state : MiltonState sample_externals :=
  { sample_state with num_strokes := 2 }

/-- An input with the given flags, no point and no zoom. -/
def flags_input (flags : Nat) : MiltonInput := ⟨flags, none, 0, ⟨0, 0⟩⟩

/-- An input with the given flags and point and no zoom. -/
def point_input (flags : Nat) (x y : Int) : MiltonInput := ⟨flags, some ⟨x, y⟩, 0, ⟨0, 0⟩⟩

/-- An input that only zooms in by one step. -/
def zoom_in_input : MiltonInput := ⟨MiltonInputFlags_NONE, none, 1, ⟨0, 0⟩⟩

/-- An input that only zooms out by one step. -/
def zoom_out_input : MiltonInput := ⟨MiltonInputFlags_NONE, none, -1, ⟨0, 0⟩⟩

/-- The initialisation parts that go with the sample picker. -/
def sample_init : InitExternals sample_externals where
  picker_fields := fun _ => false
  brush_alpha := ()
  eraser_alpha := ()
  eraser_color := ()

/-- Zeroed memory, as the arena hands it to `milton_init`. -/
def zeroed_state : MiltonState sample_externals where
  max_width := 0
  max_height := 0
  picker := false
  brush := ⟨0, (), ()⟩
  eraser_brush := ⟨0, (), ()⟩
  brush_size := 0
  canvas_blocked := false
  view := ⟨⟨0, 0⟩, ⟨0, 0⟩, ⟨0, 0⟩, ⟨0, 0⟩, 0, 0, 0⟩
  last_raster_input := ⟨0, 0⟩
  working_stroke := ⟨⟨0, (), ()⟩, fun _ => ⟨0, 0⟩, 0⟩
  strokes := fun _ => ⟨⟨0, (), ()⟩, fun _ => ⟨0, 0⟩, 0⟩
  num_strokes := 0
  num_redos := 0
  current_mode := 0
  debug_scale_lock := false

/-- The sample state with a full stroke store and a working stroke of one
point. -/
def full_store_state : MiltonState sample_externals :=
  { sample_state with
    num_strokes := 4096
    working_stroke := { empty_stroke with num_points := 1 } }

/-- The sample state with a full working stroke (`LIMIT_STROKE_POINTS` points). -/
def full_stroke_state : MiltonState sample_externals :=
  { sample_state with working_stroke := { empty_stroke with num_points := 1024 } }

/-- The sample state after one update with a point inside the picker: the picker
has taken the point and the canvas is blocked. -/
def blocked_state : MiltonState sample_externals :=
  match milton_run sample_state [point_input 0 120 30] with
  | .ok s => s
  | .error _ => sample_state

/-- The sample state after one drawn point: a stroke of one point is in
progress. -/
def one_point_state : MiltonState sample_externals :=
  match milton_run sample_state [point_input 0 300 300] with
  | .ok s => s
  | .error _ => sample_state

/-- The sample state after nine zoom-out updates: its scale, 10878, is above the
limit of 10000. -/
def zoomed_out_state : MiltonState sample_externals :=
  match milton_run sample_state (List.replicate 9 zoom_out_input) with
  | .ok s => s
  | .error _ => sample_state

/-! ## `milton_resize`: the pan vector and the tile focus -/

/-- The first loop of an axis ends, given fuel for every radius-width above the
radius; it leaves the pan at most the radius, keeps `pan + radius * focus`, does
nothing to a pan that is at most the radius, and leaves a positive pan if it
ran. -/
theorem pan_loop_above_spec (r : Int) (hr : 0 < r) :
    ∀ (fuel : Nat) (focus pan : Int), pan - r ≤ fuel →
      ∃ f p, pan_loop_above r fuel focus pan = some (f, p) ∧ p ≤ r ∧
        p + r * f = pan + r * focus ∧ (pan ≤ r → f = focus ∧ p = pan) ∧
        (r < pan → 0 < p) := by
  intro fuel
  induction fuel with
  | zero =>
    intro focus pan h
    have hle : ¬ r < pan := by simp at h; omega
    exact ⟨focus, pan, by simp [pan_loop_above, hle], by omega, rfl, fun _ => ⟨rfl, rfl⟩,
      fun h1 => absurd h1 hle⟩
  | succ n ih =>
    intro focus pan h
    by_cases hlt : r < pan
    · obtain ⟨f, p, h1, h2, h3, h4, h5⟩ := ih (focus + 1) (pan - r) (by push_cast at h; omega)
      refine ⟨f, p, by simp [pan_loop_above, hlt, h1], h2, ?_, fun h6 => by omega, fun _ => ?_⟩
      · rw [h3]; ring
      · by_cases h7 : pan - r ≤ r
        · rw [(h4 h7).2]; omega
        · exact h5 (by omega)
    · exact ⟨focus, pan, by simp [pan_loop_above, hlt], by omega, rfl, fun _ => ⟨rfl, rfl⟩,
        fun h1 => absurd h1 hlt⟩

/-- The second loop of an axis ends, given fuel for every radius-width below
minus the radius; it leaves the pan above minus the radius, keeps
`pan + radius * focus`, does nothing to a pan above minus the radius, and leaves
a pan that is not positive if it ran. -/
theorem pan_loop_below_spec (r : Int) (hr : 0 < r) :
    ∀ (fuel : Nat) (focus pan : Int), 1 - r - pan ≤ fuel →
      ∃ f p, pan_loop_below r fuel focus pan = some (f, p) ∧ -r < p ∧
        p + r * f = pan + r * focus ∧ (-r < pan → f = focus ∧ p = pan) ∧
        (pan ≤ -r → p ≤ 0) := by
  intro fuel
  induction fuel with
  | zero =>
    intro focus pan h
    have hle : ¬ pan ≤ -r := by simp at h; omega
    exact ⟨focus, pan, by simp [pan_loop_below, hle], by omega, rfl, fun _ => ⟨rfl, rfl⟩,
      fun h1 => absurd h1 hle⟩
  | succ n ih =>
    intro focus pan h
    by_cases hlt : pan ≤ -r
    · obtain ⟨f, p, h1, h2, h3, h4, h5⟩ := ih (focus - 1) (pan + r) (by push_cast at h; omega)
      refine ⟨f, p, by simp [pan_loop_below, hlt, h1], h2, ?_, fun h6 => by omega, fun _ => ?_⟩
      · rw [h3]; ring
      · by_cases h7 : -r < pan + r
        · rw [(h4 h7).2]; omega
        · exact h5 (by omega)
    · exact ⟨focus, pan, by simp [pan_loop_below, hlt], by omega, rfl, fun _ => ⟨rfl, rfl⟩,
        fun h1 => absurd h1 hlt⟩

/-- The two loops of an axis, with fuel at least the absolute value of the pan:
they end with the pan in `(-r, r]`, keep `pan + r * focus`, and change nothing
when the pan is in that range at the start. -/
theorem pan_normalize_spec (r : Int) (hr : 0 < r) (fuel : Nat) (focus pan : Int)
    (hfuel : pan.natAbs ≤ fuel) :
    ∃ f p, pan_normalize r fuel focus pan = some (f, p) ∧ -r < p ∧ p ≤ r ∧
      p + r * f = pan + r * focus ∧ (-r < pan → pan ≤ r → f = focus ∧ p = pan) := by
  obtain ⟨f1, p1, h1, h2, h3, h4, h5⟩ := pan_loop_above_spec r hr fuel focus pan (by omega)
  have hb : 1 - r - p1 ≤ fuel := by
    by_cases h6 : pan ≤ r
    · rw [(h4 h6).2]; omega
    · have := h5 (by omega); omega
  obtain ⟨f2, p2, g1, g2, g3, g4, g5⟩ := pan_loop_below_spec r hr fuel f1 p1 hb
  refine ⟨f2, p2, by simp [pan_normalize, h1, g1], g2, ?_, by rw [g3, h3], ?_⟩
  · by_cases h6 : p1 ≤ -r
    · have := g5 h6; omega
    · rw [(g4 (by omega)).2]; exact h2
  · intro ha hb
    obtain ⟨e1, e2⟩ := h4 hb
    obtain ⟨e3, e4⟩ := g4 (by omega)
    exact ⟨by rw [e3, e1], by rw [e4, e2]⟩

/-- An accepted `milton_resize` with a positive tile radius, given fuel for the
pan it forms: it returns, and on each axis the pan ends in `(-r, r]`,
`pan + r * focus` is kept, and a pan that starts in the range keeps its focus. -/
theorem milton_resize_spec {E : Externals} (s : MiltonState E) (pan_delta new_screen_size : v2i)
    (hr : 0 < s.view.canvas_tile_radius)
    (hacc : new_screen_size.w < s.max_width ∧ new_screen_size.h < s.max_height)
    (fuel : Nat)
    (hx : (s.view.pan_vector.x + pan_delta.x * s.view.scale).natAbs ≤ fuel)
    (hy : (s.view.pan_vector.y + pan_delta.y * s.view.scale).natAbs ≤ fuel) :
    ∃ fx px fy py,
      milton_resize fuel s pan_delta new_screen_size =
        .ok { s with view := { s.view with
                screen_size := new_screen_size
                screen_center := invscale_v2i new_screen_size 2
                canvas_tile_focus := ⟨fx, fy⟩
                pan_vector := ⟨px, py⟩ } } ∧
      (-s.view.canvas_tile_radius < px ∧ px ≤ s.view.canvas_tile_radius) ∧
      (-s.view.canvas_tile_radius < py ∧ py ≤ s.view.canvas_tile_radius) ∧
      px + s.view.canvas_tile_radius * fx =
        s.view.pan_vector.x + pan_delta.x * s.view.scale +
          s.view.canvas_tile_radius * s.view.canvas_tile_focus.x ∧
      py + s.view.canvas_tile_radius * fy =
        s.view.pan_vector.y + pan_delta.y * s.view.scale +
          s.view.canvas_tile_radius * s.view.canvas_tile_focus.y ∧
      (-s.view.canvas_tile_radius < s.view.pan_vector.x + pan_delta.x * s.view.scale →
        s.view.pan_vector.x + pan_delta.x * s.view.scale ≤ s.view.canvas_tile_radius →
        fx = s.view.canvas_tile_focus.x ∧
          px = s.view.pan_vector.x + pan_delta.x * s.view.scale) ∧
      (-s.view.canvas_tile_radius < s.view.pan_vector.y + pan_delta.y * s.view.scale →
        s.view.pan_vector.y + pan_delta.y * s.view.scale ≤ s.view.canvas_tile_radius →
        fy = s.view.canvas_tile_focus.y ∧
          py = s.view.pan_vector.y + pan_delta.y * s.view.scale) := by
  obtain ⟨fx, px, a1, a2, a3, a4, a5⟩ :=
    pan_normalize_spec s.view.canvas_tile_radius hr fuel s.view.canvas_tile_focus.x _ hx
  obtain ⟨fy, py, b1, b2, b3, b4, b5⟩ :=
    pan_normalize_spec s.view.canvas_tile_radius hr fuel s.view.canvas_tile_focus.y _ hy
  refine ⟨fx, px, fy, py, ?_, ⟨a2, a3⟩, ⟨b2, b3⟩, a4, b4, a5, b5⟩
  simp only [milton_resize, if_pos hacc, add_v2i, scale_v2i, a1, b1]

/-- The assertion of `milton_resize` fails exactly when the guard
`w < max_width && h < max_height` is false, whatever the fuel. -/
theorem milton_resize_assert_iff {E : Externals} (fuel : Nat) (s : MiltonState E)
    (pan_delta new_screen_size : v2i) :
    milton_resize fuel s pan_delta new_screen_size = .error Fault.assert_screen_size ↔
      ¬ (new_screen_size.w < s.max_width ∧ new_screen_size.h < s.max_height) := by
  unfold milton_resize
  split
  · rename_i h
    simp only [h, not_true_eq_false, iff_false]
    split
    · simp
    · split <;> simp
  · rename_i h
    simp [h]

/-- C1: for a view with a positive `canvas_tile_radius` and an accepted new screen
size, the normalization loops of `milton_resize` end (every fuel from some bound on
gives a result), and the resulting `pan_vector.x` and `pan_vector.y` are each
strictly greater than `-canvas_tile_radius` and at most `canvas_tile_radius`. -/
theorem milton_resize_pan_in_range {E : Externals} (s : MiltonState E)
    (pan_delta new_screen_size : v2i)
    (hr : 0 < s.view.canvas_tile_radius)
    (hacc : new_screen_size.w < s.max_width ∧ new_screen_size.h < s.max_height) :
    ∃ fuel0 : Nat, ∀ fuel : Nat, fuel0 ≤ fuel →
      ∃ s1, milton_resize fuel s pan_delta new_screen_size = .ok s1 ∧
        s1.view.canvas_tile_radius = s.view.canvas_tile_radius ∧
        -s1.view.canvas_tile_radius < s1.view.pan_vector.x ∧
        s1.view.pan_vector.x ≤ s1.view.canvas_tile_radius ∧
        -s1.view.canvas_tile_radius < s1.view.pan_vector.y ∧
        s1.view.pan_vector.y ≤ s1.view.canvas_tile_radius := by
  refine ⟨(s.view.pan_vector.x + pan_delta.x * s.view.scale).natAbs +
    (s.view.pan_vector.y + pan_delta.y * s.view.scale).natAbs, fun fuel hfuel => ?_⟩
  obtain ⟨fx, px, fy, py, h, hx, hy, -⟩ :=
    milton_resize_spec s pan_delta new_screen_size hr hacc fuel (by omega) (by omega)
  exact ⟨_, h, rfl, hx.1, hx.2, hy.1, hy.2⟩

/-- C1, evaluated: the initial view panned by (2000000, -3000000) screen pixels
at scale 1024, far beyond the tile radius, on a resize to 800 x 600. -/
theorem milton_resize_pan_in_range_witness :
    ∃ fuel0 : Nat, ∀ fuel : Nat, fuel0 ≤ fuel →
      ∃ s1, milton_resize fuel sample_state ⟨2000000, -3000000⟩ ⟨800, 600⟩ = .ok s1 ∧
        s1.view.canvas_tile_radius = sample_state.view.canvas_tile_radius ∧
        -s1.view.canvas_tile_radius < s1.view.pan_vector.x ∧
        s1.view.pan_vector.x ≤ s1.view.canvas_tile_radius ∧
        -s1.view.canvas_tile_radius < s1.view.pan_vector.y ∧
        s1.view.pan_vector.y ≤ s1.view.canvas_tile_radius :=
  milton_resize_pan_in_range sample_state ⟨2000000, -3000000⟩ ⟨800, 600⟩
    (by decide) (by decide)

/-! ## `milton_resize`: the exact result and the `i32` arithmetic -/

/-- An `i32` value is stored as it is. -/
theorem wrap_i32_of_in (x : Int) (h : in_i32 x) : wrap_i32 x = x := by
  unfold wrap_i32
  obtain ⟨h1, h2⟩ := h
  omega

/-- The two loops of an axis, with fuel at least the absolute value of the pan:
they end with the pan in `(-r, r]`, keep `pan + r * focus`, change nothing when
the pan is in that range at the start, leave a positive pan when it started
above `r` and a pan that is not positive when it started at `-r` or below. -/
theorem pan_normalize_exact (r : Int) (hr : 0 < r) (fuel : Nat) (focus pan : Int)
    (hfuel : pan.natAbs ≤ fuel) :
    ∃ f p, pan_normalize r fuel focus pan = some (f, p) ∧ (-r < p ∧ p ≤ r) ∧
      p + r * f = pan + r * focus ∧ (-r < pan → pan ≤ r → f = focus ∧ p = pan) ∧
      (r < pan → 0 < p) ∧ (pan ≤ -r → p ≤ 0) := by
  obtain ⟨f1, p1, h1, h2, h3, h4, h5⟩ := pan_loop_above_spec r hr fuel focus pan (by omega)
  have hb : 1 - r - p1 ≤ fuel := by
    by_cases h6 : pan ≤ r
    · rw [(h4 h6).2]; omega
    · have := h5 (by omega); omega
  obtain ⟨f2, p2, g1, g2, g3, g4, g5⟩ := pan_loop_below_spec r hr fuel f1 p1 hb
  refine ⟨f2, p2, by simp [pan_normalize, h1, g1], ⟨g2, ?_⟩, by rw [g3, h3], ?_, ?_, ?_⟩
  · by_cases h6 : p1 ≤ -r
    · have := g5 h6; omega
    · rw [(g4 (by omega)).2]; exact h2
  · intro ha hb
    obtain ⟨e1, e2⟩ := h4 hb
    obtain ⟨e3, e4⟩ := g4 (by omega)
    exact ⟨by rw [e3, e1], by rw [e4, e2]⟩
  · intro ha
    have h7 := h5 ha
    rw [(g4 (by omega)).2]
    exact h7
  · intro ha
    have h7 := (h4 (by omega)).2
    exact g5 (by omega)

/-- The first loop never lowers the focus, and leaves the pan as it is or
positive and below its start. -/
theorem pan_loop_above_bounds (r : Int) (hr : 0 < r) :
    ∀ (fuel : Nat) (focus pan f p : Int), pan_loop_above r fuel focus pan = some (f, p) →
      focus ≤ f ∧ p ≤ pan ∧ (p = pan ∨ 0 < p) := by
  intro fuel
  induction fuel with
  | zero =>
    intro focus pan f p h
    unfold pan_loop_above at h
    split_ifs at h
    injection h with h
    injection h with h1 h2
    subst h1 h2
    exact ⟨le_refl _, le_refl _, Or.inl rfl⟩
  | succ n ih =>
    intro focus pan f p h
    unfold pan_loop_above at h
    split_ifs at h with hlt
    · obtain ⟨a1, a2, a3⟩ := ih _ _ _ _ h
      exact ⟨by omega, by omega, Or.inr (by omega)⟩
    · injection h with h
      injection h with h1 h2
      subst h1 h2
      exact ⟨le_refl _, le_refl _, Or.inl rfl⟩

/-- The second loop never raises the focus, and leaves the pan as it is or not
positive and above its start. -/
theorem pan_loop_below_bounds (r : Int) (hr : 0 < r) :
    ∀ (fuel : Nat) (focus pan f p : Int), pan_loop_below r fuel focus pan = some (f, p) →
      f ≤ focus ∧ pan ≤ p ∧ (p = pan ∨ p ≤ 0) := by
  intro fuel
  induction fuel with
  | zero =>
    intro focus pan f p h
    unfold pan_loop_below at h
    split_ifs at h
    injection h with h
    injection h with h1 h2
    subst h1 h2
    exact ⟨le_refl _, le_refl _, Or.inl rfl⟩
  | succ n ih =>
    intro focus pan f p h
    unfold pan_loop_below at h
    split_ifs at h with hlt
    · obtain ⟨a1, a2, a3⟩ := ih _ _ _ _ h
      exact ⟨by omega, by omega, Or.inr (by omega)⟩
    · injection h with h
      injection h with h1 h2
      subst h1 h2
      exact ⟨le_refl _, le_refl _, Or.inl rfl⟩

/-- The first loop on `i32` gives the result of the loop on integers when the pan
and the focus it starts with and the focus it ends with are `i32` values. -/
theorem pan_loop_above_i32_eq (r : Int) (hr : 0 < r) :
    ∀ (fuel : Nat) (focus pan f p : Int), pan_loop_above r fuel focus pan = some (f, p) →
      in_i32 pan → in_i32 focus → in_i32 f →
      pan_loop_above_i32 r fuel focus pan = some (f, p) := by
  intro fuel
  induction fuel with
  | zero =>
    intro focus pan f p h _ _ _
    unfold pan_loop_above at h
    unfold pan_loop_above_i32
    exact h
  | succ n ih =>
    intro focus pan f p h hp hf hf2
    unfold pan_loop_above at h
    unfold pan_loop_above_i32
    split_ifs at h ⊢ with hlt
    · obtain ⟨a1, -, -⟩ := pan_loop_above_bounds r hr n _ _ _ _ h
      have h1 : in_i32 (focus + 1) := ⟨by have := hf.1; omega, by have := hf2.2; omega⟩
      have h2 : in_i32 (pan - r) := ⟨by have := hp.1; omega, by have := hp.2; omega⟩
      rw [wrap_i32_of_in _ h1, wrap_i32_of_in _ h2]
      exact ih _ _ _ _ h h2 h1 hf2
    · exact h

/-- The second loop on `i32` gives the result of the loop on integers when the
radius, the pan and the focus it starts with and the focus it ends with are
`i32` values. -/
theorem pan_loop_below_i32_eq (r : Int) (hr : 0 < r) (hri : in_i32 r) :
    ∀ (fuel : Nat) (focus pan f p : Int), pan_loop_below r fuel focus pan = some (f, p) →
      in_i32 pan → in_i32 focus → in_i32 f →
      pan_loop_below_i32 r fuel focus pan = some (f, p) := by
  have hneg : wrap_i32 (-r) = -r :=
    wrap_i32_of_in _ ⟨by have := hri.2; omega, by omega⟩
  intro fuel
  induction fuel with
  | zero =>
    intro focus pan f p h _ _ _
    unfold pan_loop_below at h
    unfold pan_loop_below_i32
    rw [hneg]
    exact h
  | succ n ih =>
    intro focus pan f p h hp hf hf2
    unfold pan_loop_below at h
    unfold pan_loop_below_i32
    rw [hneg]
    split_ifs at h ⊢ with hlt
    · obtain ⟨a1, -, -⟩ := pan_loop_below_bounds r hr n _ _ _ _ h
      have h1 : in_i32 (focus - 1) := ⟨by have := hf2.1; omega, by have := hf.2; omega⟩
      have h2 : in_i32 (pan + r) := ⟨by have := hp.1; omega, by have := hp.2; omega⟩
      rw [wrap_i32_of_in _ h1, wrap_i32_of_in _ h2]
      exact ih _ _ _ _ h h2 h1 hf2
    · exact h

/-- The two loops of an axis on `i32` give the result of the loops on integers
when the radius, the pan and the focus they start with and the focus they end
with are `i32` values. -/
theorem pan_normalize_i32_eq (r : Int) (hr : 0 < r) (hri : in_i32 r) (fuel : Nat)
    (focus pan f p : Int) (h : pan_normalize r fuel focus pan = some (f, p))
    (hp : in_i32 pan) (hf : in_i32 focus) (hf2 : in_i32 f) :
    pan_normalize_i32 r fuel focus pan = some (f, p) := by
  unfold pan_normalize at h
  unfold pan_normalize_i32
  cases h1 : pan_loop_above r fuel focus pan with
  | none => rw [h1] at h; exact Option.noConfusion h
  | some q =>
    obtain ⟨f1, p1⟩ := q
    rw [h1] at h
    simp only at h
    obtain ⟨a1, a2, a3⟩ := pan_loop_above_bounds r hr fuel _ _ _ _ h1
    obtain ⟨b1, b2, b3⟩ := pan_loop_below_bounds r hr fuel _ _ _ _ h
    have hp1 : in_i32 p1 := by
      rcases a3 with a3 | a3
      · rw [a3]; exact hp
      · exact ⟨by omega, by have := hp.2; omega⟩
    have hf1 : in_i32 f1 := by
      rcases a3 with a3 | a3
      · by_cases hc : r < pan
        · -- the first loop ran, so the pan is positive and the second does not run
          have h4 : 0 < p1 := by
            cases fuel with
            | zero => simp [pan_loop_above, hc] at h1
            | succ n =>
              unfold pan_loop_above at h1
              rw [if_pos hc] at h1
              obtain ⟨-, c2, c3⟩ := pan_loop_above_bounds r hr n _ _ _ _ h1
              omega
          have h5 : f = f1 := by
            cases fuel with
            | zero =>
              unfold pan_loop_below at h
              split_ifs at h
              injection h with h
              injection h with h6 h7
              exact h6.symm
            | succ n =>
              unfold pan_loop_below at h
              split_ifs at h with hlt
              · omega
              · injection h with h
                injection h with h6 h7
                exact h6.symm
          rw [← h5]; exact hf2
        · have h5 : f1 = focus := by
            cases fuel with
            | zero =>
              unfold pan_loop_above at h1
              rw [if_neg hc] at h1
              injection h1 with h1
              injection h1 with h6 h7
              exact h6.symm
            | succ n =>
              unfold pan_loop_above at h1
              rw [if_neg hc] at h1
              injection h1 with h1
              injection h1 with h6 h7
              exact h6.symm
          rw [h5]; exact hf
      · have h5 : f = f1 := by
          cases fuel with
          | zero =>
            unfold pan_loop_below at h
            split_ifs at h
            injection h with h
            injection h with h6 h7
            exact h6.symm
          | succ n =>
            unfold pan_loop_below at h
            split_ifs at h with hlt
            · omega
            · injection h with h
              injection h with h6 h7
              exact h6.symm
        rw [← h5]; exact hf2
    rw [pan_loop_above_i32_eq r hr fuel _ _ _ _ h1 hp hf hf1]
    exact pan_loop_below_i32_eq r hr hri fuel _ _ _ _ h hp1 hf1 hf2

/-- The `i32` program returns what `milton_resize` on integers returns whenever no
`i32` operation overflows: the radius and the focus of the view are `i32`
values, the product `pan_delta * scale` and the sum `pan + pan_delta * scale`
are `i32` values on each axis, and so is the focus of the result. -/
theorem milton_resize_i32_eq {E : Externals} (fuel : Nat) (s s1 : MiltonState E)
    (pan_delta new_screen_size : v2i)
    (hr : 0 < s.view.canvas_tile_radius) (hri : in_i32 s.view.canvas_tile_radius)
    (hfx : in_i32 s.view.canvas_tile_focus.x) (hfy : in_i32 s.view.canvas_tile_focus.y)
    (hx : in_i32 (pan_delta.x * s.view.scale) ∧
      in_i32 (s.view.pan_vector.x + pan_delta.x * s.view.scale))
    (hy : in_i32 (pan_delta.y * s.view.scale) ∧
      in_i32 (s.view.pan_vector.y + pan_delta.y * s.view.scale))
    (h : milton_resize fuel s pan_delta new_screen_size = .ok s1)
    (h1x : in_i32 s1.view.canvas_tile_focus.x) (h1y : in_i32 s1.view.canvas_tile_focus.y) :
    milton_resize_i32 fuel s pan_delta new_screen_size = .ok s1 := by
  simp only [milton_resize, add_v2i, scale_v2i] at h
  simp only [milton_resize_i32]
  split_ifs at h ⊢ with hacc
  rw [wrap_i32_of_in _ hx.1, wrap_i32_of_in _ hx.2, wrap_i32_of_in _ hy.1,
    wrap_i32_of_in _ hy.2]
  cases hpx : pan_normalize s.view.canvas_tile_radius fuel s.view.canvas_tile_focus.x
      (s.view.pan_vector.x + pan_delta.x * s.view.scale) with
  | none => rw [hpx] at h; exact Except.noConfusion h
  | some px =>
    rw [hpx] at h
    simp only at h
    cases hpy : pan_normalize s.view.canvas_tile_radius fuel s.view.canvas_tile_focus.y
        (s.view.pan_vector.y + pan_delta.y * s.view.scale) with
    | none => rw [hpy] at h; exact Except.noConfusion h
    | some py =>
      rw [hpy] at h
      simp only at h
      injection h with h
      subst h
      obtain ⟨fx, px⟩ := px
      obtain ⟨fy, py⟩ := py
      rw [pan_normalize_i32_eq _ hr hri fuel _ _ _ _ hpx hx.2 hfx h1x,
        pan_normalize_i32_eq _ hr hri fuel _ _ _ _ hpy hy.2 hfy h1y]

/-- C2 as stated fails when the `i32` product overflows. On the sample state
(scale 1024, tile radius 2^29, pan and focus 0) the resize to 800 x 600 with
`pan_delta.x = 4194304` is accepted; `pan_delta.x * scale` is 2^32, which an
`i32` holds as 0, so whatever the fuel the call returns with pan 0 and focus 0
on the x axis, and `new_pan + radius * new_focus` is 0, not
`old_pan + pan_delta * scale + radius * old_focus`, which is 2^32. -/
theorem milton_resize_product_overflows :
    0 < sample_state.view.canvas_tile_radius ∧
    ((⟨800, 600⟩ : v2i).w < sample_state.max_width ∧
      (⟨800, 600⟩ : v2i).h < sample_state.max_height) ∧
    ∀ fuel : Nat, ∃ s1,
      milton_resize_i32 fuel sample_state ⟨4194304, 0⟩ ⟨800, 600⟩ = .ok s1 ∧
      s1.view.pan_vector.x = 0 ∧ s1.view.canvas_tile_focus.x = 0 ∧
      s1.view.pan_vector.x +
          sample_state.view.canvas_tile_radius * s1.view.canvas_tile_focus.x ≠
        sample_state.view.pan_vector.x + (4194304 : Int) * sample_state.view.scale +
          sample_state.view.canvas_tile_radius * sample_state.view.canvas_tile_focus.x := by
  refine ⟨by decide, by decide, fun fuel => ?_⟩
  cases fuel with
  | zero => exact ⟨_, rfl, by decide, by decide, by decide⟩
  | succ n => exact ⟨_, rfl, by decide, by decide, by decide⟩

/-- An accepted `milton_resize` with a positive tile radius, given fuel for the
pan it forms: it returns, and on each axis the pan ends in `(-r, r]`,
`pan + r * focus` is kept, a pan that starts in the range keeps its focus and
its value, a pan that starts above `r` ends positive and a pan that starts at
`-r` or below ends at 0 or below. -/
theorem milton_resize_exact {E : Externals} (s : MiltonState E) (pan_delta new_screen_size : v2i)
    (hr : 0 < s.view.canvas_tile_radius)
    (hacc : new_screen_size.w < s.max_width ∧ new_screen_size.h < s.max_height)
    (fuel : Nat)
    (hx : (s.view.pan_vector.x + pan_delta.x * s.view.scale).natAbs ≤ fuel)
    (hy : (s.view.pan_vector.y + pan_delta.y * s.view.scale).natAbs ≤ fuel) :
    ∃ s1, milton_resize fuel s pan_delta new_screen_size = .ok s1 ∧
      ((-s.view.canvas_tile_radius < s1.view.pan_vector.x ∧
          s1.view.pan_vector.x ≤ s.view.canvas_tile_radius) ∧
        s1.view.pan_vector.x + s.view.canvas_tile_radius * s1.view.canvas_tile_focus.x =
          s.view.pan_vector.x + pan_delta.x * s.view.scale +
            s.view.canvas_tile_radius * s.view.canvas_tile_focus.x ∧
        (-s.view.canvas_tile_radius < s.view.pan_vector.x + pan_delta.x * s.view.scale →
          s.view.pan_vector.x + pan_delta.x * s.view.scale ≤ s.view.canvas_tile_radius →
          s1.view.canvas_tile_focus.x = s.view.canvas_tile_focus.x ∧
            s1.view.pan_vector.x = s.view.pan_vector.x + pan_delta.x * s.view.scale) ∧
        (s.view.canvas_tile_radius < s.view.pan_vector.x + pan_delta.x * s.view.scale →
          0 < s1.view.pan_vector.x) ∧
        (s.view.pan_vector.x + pan_delta.x * s.view.scale ≤ -s.view.canvas_tile_radius →
          s1.view.pan_vector.x ≤ 0)) ∧
      ((-s.view.canvas_tile_radius < s1.view.pan_vector.y ∧
          s1.view.pan_vector.y ≤ s.view.canvas_tile_radius) ∧
        s1.view.pan_vector.y + s.view.canvas_tile_radius * s1.view.canvas_tile_focus.y =
          s.view.pan_vector.y + pan_delta.y * s.view.scale +
            s.view.canvas_tile_radius * s.view.canvas_tile_focus.y ∧
        (-s.view.canvas_tile_radius < s.view.pan_vector.y + pan_delta.y * s.view.scale →
          s.view.pan_vector.y + pan_delta.y * s.view.scale ≤ s.view.canvas_tile_radius →
          s1.view.canvas_tile_focus.y = s.view.canvas_tile_focus.y ∧
            s1.view.pan_vector.y = s.view.pan_vector.y + pan_delta.y * s.view.scale) ∧
        (s.view.canvas_tile_radius < s.view.pan_vector.y + pan_delta.y * s.view.scale →
          0 < s1.view.pan_vector.y) ∧
        (s.view.pan_vector.y + pan_delta.y * s.view.scale ≤ -s.view.canvas_tile_radius →
          s1.view.pan_vector.y ≤ 0)) := by
  obtain ⟨fx, px, a1, a2, a3, a4, a5, a6⟩ :=
    pan_normalize_exact s.view.canvas_tile_radius hr fuel s.view.canvas_tile_focus.x _ hx
  obtain ⟨fy, py, b1, b2, b3, b4, b5, b6⟩ :=
    pan_normalize_exact s.view.canvas_tile_radius hr fuel s.view.canvas_tile_focus.y _ hy
  refine ⟨{ s with view := { s.view with
      screen_size := new_screen_size
      screen_center := invscale_v2i new_screen_size 2
      canvas_tile_focus := ⟨fx, fy⟩
      pan_vector := ⟨px, py⟩ } }, ?_, ⟨a2, a3, a4, a5, a6⟩, ⟨b2, b3, b4, b5, b6⟩⟩
  simp only [milton_resize, if_pos hacc, add_v2i, scale_v2i, a1, b1]

/-- C2, amended: for every accepted `milton_resize` call with
`canvas_tile_radius > 0` in which no `i32` operation overflows, on each axis the
`canvas_tile_focus` changes by exactly the number of radius-widths crossed. The
radius and the focus of the view are `i32` values and on each axis
`pan_delta * scale` and `old_pan + pan_delta * scale` are `i32` values. Then
for every fuel from some bound on the call on integers returns a state, which
is also what the call on `i32` returns when its focus is an `i32` value, and in
that state on each axis: `new_pan` lies in `(-radius, radius]`;
`new_pan + radius * new_focus = old_pan + pan_delta * scale + radius * old_focus`;
when `old_pan + pan_delta * scale` already lies in `(-radius, radius]` the focus
is unchanged and `new_pan` is that sum; when the sum is above `radius`,
`new_pan` is positive, and when it is at `-radius` or below, `new_pan` is at
most 0, so that the focus has moved by the radius-widths crossed and no more. -/
theorem milton_resize_focus_exact {E : Externals} (s : MiltonState E)
    (pan_delta new_screen_size : v2i)
    (hr : 0 < s.view.canvas_tile_radius)
    (hacc : new_screen_size.w < s.max_width ∧ new_screen_size.h < s.max_height)
    (hi : in_i32 s.view.canvas_tile_radius ∧ in_i32 s.view.canvas_tile_focus.x ∧
      in_i32 s.view.canvas_tile_focus.y)
    (hx : in_i32 (pan_delta.x * s.view.scale) ∧
      in_i32 (s.view.pan_vector.x + pan_delta.x * s.view.scale))
    (hy : in_i32 (pan_delta.y * s.view.scale) ∧
      in_i32 (s.view.pan_vector.y + pan_delta.y * s.view.scale)) :
    ∃ fuel0 : Nat, ∀ fuel : Nat, fuel0 ≤ fuel →
      ∃ s1, milton_resize fuel s pan_delta new_screen_size = .ok s1 ∧
        (in_i32 s1.view.canvas_tile_focus.x → in_i32 s1.view.canvas_tile_focus.y →
          milton_resize_i32 fuel s pan_delta new_screen_size = .ok s1) ∧
        ((-s.view.canvas_tile_radius < s1.view.pan_vector.x ∧
            s1.view.pan_vector.x ≤ s.view.canvas_tile_radius) ∧
          s1.view.pan_vector.x + s.view.canvas_tile_radius * s1.view.canvas_tile_focus.x =
            s.view.pan_vector.x + pan_delta.x * s.view.scale +
              s.view.canvas_tile_radius * s.view.canvas_tile_focus.x ∧
          (-s.view.canvas_tile_radius < s.view.pan_vector.x + pan_delta.x * s.view.scale →
            s.view.pan_vector.x + pan_delta.x * s.view.scale ≤ s.view.canvas_tile_radius →
            s1.view.canvas_tile_focus.x = s.view.canvas_tile_focus.x ∧
              s1.view.pan_vector.x = s.view.pan_vector.x + pan_delta.x * s.view.scale) ∧
          (s.view.canvas_tile_radius < s.view.pan_vector.x + pan_delta.x * s.view.scale →
            0 < s1.view.pan_vector.x) ∧
          (s.view.pan_vector.x + pan_delta.x * s.view.scale ≤ -s.view.canvas_tile_radius →
            s1.view.pan_vector.x ≤ 0)) ∧
        ((-s.view.canvas_tile_radius < s1.view.pan_vector.y ∧
            s1.view.pan_vector.y ≤ s.view.canvas_tile_radius) ∧
          s1.view.pan_vector.y + s.view.canvas_tile_radius * s1.view.canvas_tile_focus.y =
            s.view.pan_vector.y + pan_delta.y * s.view.scale +
              s.view.canvas_tile_radius * s.view.canvas_tile_focus.y ∧
          (-s.view.canvas_tile_radius < s.view.pan_vector.y + pan_delta.y * s.view.scale →
            s.view.pan_vector.y + pan_delta.y * s.view.scale ≤ s.view.canvas_tile_radius →
            s1.view.canvas_tile_focus.y = s.view.canvas_tile_focus.y ∧
              s1.view.pan_vector.y = s.view.pan_vector.y + pan_delta.y * s.view.scale) ∧
          (s.view.canvas_tile_radius < s.view.pan_vector.y + pan_delta.y * s.view.scale →
            0 < s1.view.pan_vector.y) ∧
          (s.view.pan_vector.y + pan_delta.y * s.view.scale ≤ -s.view.canvas_tile_radius →
            s1.view.pan_vector.y ≤ 0)) := by
  refine ⟨(s.view.pan_vector.x + pan_delta.x * s.view.scale).natAbs +
    (s.view.pan_vector.y + pan_delta.y * s.view.scale).natAbs, fun fuel hfuel => ?_⟩
  obtain ⟨s1, h, ax, ay⟩ :=
    milton_resize_exact s pan_delta new_screen_size hr hacc fuel (by omega) (by omega)
  exact ⟨s1, h, fun h1x h1y => milton_resize_i32_eq fuel s s1 pan_delta new_screen_size hr
    hi.1 hi.2.1 hi.2.2 hx hy h h1x h1y, ax, ay⟩

/-- C2 amended, evaluated: the sample state (scale 1024, tile radius 2^29, pan and
focus 0) panned by (2000000, 100) screen pixels on a resize to 800 x 600. No
operation overflows; the x axis crosses three radius-widths, the y axis stays in
range, and the call on `i32` returns with focus (3, 0) and pan
(437387264, 102400). -/
theorem milton_resize_focus_exact_witness :
    ∃ fuel0 : Nat, ∀ fuel : Nat, fuel0 ≤ fuel →
      ∃ s1, milton_resize_i32 fuel sample_state ⟨2000000, 100⟩ ⟨800, 600⟩ = .ok s1 ∧
        s1.view.canvas_tile_focus.x = 3 ∧ s1.view.pan_vector.x = 437387264 ∧
        s1.view.canvas_tile_focus.y = 0 ∧ s1.view.pan_vector.y = 102400 := by
  obtain ⟨fuel0, H⟩ := milton_resize_focus_exact sample_state ⟨2000000, 100⟩ ⟨800, 600⟩
    (by decide) (by decide) (by decide) (by decide) (by decide)
  refine ⟨fuel0, fun fuel hfuel => ?_⟩
  obtain ⟨s1, -, hi32, ⟨⟨x1, x2⟩, x3, -, x5, -⟩, ⟨-, -, y3, -, -⟩⟩ := H fuel hfuel
  have er : sample_state.view.canvas_tile_radius = 536870912 := rfl
  have es : sample_state.view.scale = 1024 := rfl
  have epx : sample_state.view.pan_vector.x = 0 := rfl
  have epy : sample_state.view.pan_vector.y = 0 := rfl
  have efx : sample_state.view.canvas_tile_focus.x = 0 := rfl
  have efy : sample_state.view.canvas_tile_focus.y = 0 := rfl
  simp only [er, es, epx, epy, efx, efy] at x1 x2 x3 x5 y3
  have hx5 := x5 (by omega)
  obtain ⟨y4, y5⟩ := y3 (by omega) (by omega)
  have hfx : s1.view.canvas_tile_focus.x = 3 := by omega
  have hpx : s1.view.pan_vector.x = 437387264 := by omega
  refine ⟨s1, hi32 ?_ ?_, hfx, hpx, y4, by omega⟩
  · rw [hfx]; decide
  · rw [y4]; decide

/-- C3: `milton_resize` rejects a new screen size equal to the maximum raster
dimensions: on the sample state, whose raster is 4096 x 2160, a resize to
4096 x 2160 (which does not exceed the raster) reaches the failing assertion,
whatever the fuel, and so does a resize to 4096 x 480. -/
theorem milton_resize_rejects_full_raster :
    (4096 : Int) ≤ sample_state.max_width ∧ (2160 : Int) ≤ sample_state.max_height ∧
    (∀ fuel : Nat, milton_resize fuel sample_state ⟨0, 0⟩ ⟨4096, 2160⟩ =
      .error Fault.assert_screen_size) ∧
    (∀ fuel : Nat, milton_resize fuel sample_state ⟨0, 0⟩ ⟨4096, 480⟩ =
      .error Fault.assert_screen_size) := by
  refine ⟨by decide, by decide, fun fuel => ?_, fun fuel => ?_⟩
  · rw [milton_resize_assert_iff]; decide
  · rw [milton_resize_assert_iff]; decide

/-! ## `milton_update`: the state after each block -/

/-- The state after the fast-draw block. -/
theorem update_fast_draw_fst {E : Externals} (input : MiltonInput)
    (p : MiltonState E × MiltonRenderFlags) :
    (update_fast_draw input p).1 =
      { p.1 with
        view := { p.1.view with
          downsampling_factor :=
            if input.flags &&& MiltonInputFlags_FAST_DRAW ≠ 0 then 2 else 1 }
        current_mode :=
          if input.flags &&& MiltonInputFlags_FAST_DRAW ≠ 0 then
            p.1.current_mode ||| MiltonMode_REQUEST_QUALITY_REDRAW
          else if p.1.current_mode &&& MiltonMode_REQUEST_QUALITY_REDRAW ≠ 0 then
            p.1.current_mode ^^^ MiltonMode_REQUEST_QUALITY_REDRAW
          else p.1.current_mode } := by
  unfold update_fast_draw
  split_ifs <;> rfl

/-- The full-refresh block leaves the state as it is. -/
theorem update_full_refresh_fst {E : Externals} (input : MiltonInput)
    (p : MiltonState E × MiltonRenderFlags) : (update_full_refresh input p).1 = p.1 := by
  unfold update_full_refresh
  split_ifs <;> rfl

/-- The state after the zoom block. -/
theorem update_zoom_fst {E : Externals} (input : MiltonInput)
    (p : MiltonState E × MiltonRenderFlags) :
    (update_zoom input p).1 =
      { p.1 with
        view := { p.1.view with
          scale :=
            if input.scale ≠ 0 then
              (zoom_scale input.scale p.1.view.scale p.1.debug_scale_lock).1
            else p.1.view.scale }
        debug_scale_lock :=
          if input.scale ≠ 0 then
            (zoom_scale input.scale p.1.view.scale p.1.debug_scale_lock).2
          else p.1.debug_scale_lock
        brush := { p.1.brush with radius :=
          if input.scale ≠ 0 then
            p.1.brush_size * (zoom_scale input.scale p.1.view.scale p.1.debug_scale_lock).1
          else p.1.brush.radius }
        eraser_brush := { p.1.eraser_brush with radius :=
          if input.scale ≠ 0 then
            p.1.brush_size * (zoom_scale input.scale p.1.view.scale p.1.debug_scale_lock).1
          else p.1.eraser_brush.radius } } := by
  unfold update_zoom
  split_ifs <;> rfl

/-- The state after the mode block. -/
theorem update_mode_fst {E : Externals} (input : MiltonInput)
    (p : MiltonState E × MiltonRenderFlags) :
    (update_mode input p).1 =
      { p.1 with current_mode :=
          if input.flags &&& MiltonInputFlags_SET_MODE_ERASER ≠ 0 then MiltonMode_ERASER
          else if input.flags &&& MiltonInputFlags_SET_MODE_BRUSH ≠ 0 then MiltonMode_BRUSH
          else p.1.current_mode } := by
  unfold update_mode
  split_ifs <;> rfl

/-- The state after the reset block. -/
theorem update_reset_fst {E : Externals} (input : MiltonInput)
    (p : MiltonState E × MiltonRenderFlags) :
    (update_reset input p).1 =
      { p.1 with
        num_strokes := if input.flags &&& MiltonInputFlags_RESET ≠ 0 then 0 else p.1.num_strokes
        strokes :=
          if input.flags &&& MiltonInputFlags_RESET ≠ 0 then
            Function.update p.1.strokes 0 { p.1.strokes 0 with num_points := 0 }
          else p.1.strokes
        working_stroke := { p.1.working_stroke with
          num_points :=
            if input.flags &&& MiltonInputFlags_RESET ≠ 0 then 0
            else p.1.working_stroke.num_points } } := by
  unfold update_reset
  split_ifs <;> rfl

/-- Without a point the point block does nothing. -/
theorem update_point_none {E : Externals} (input : MiltonInput)
    (p : MiltonState E × MiltonRenderFlags) (h : input.point = none) :
    update_point input p = p := by
  unfold update_point
  rw [h]

/-- The state after the end-of-stroke block. -/
theorem update_end_stroke_fst {E : Externals} (input : MiltonInput)
    (p : MiltonState E × MiltonRenderFlags) :
    (update_end_stroke input p).1 =
      { p.1 with
        picker :=
          if input.flags &&& MiltonInputFlags_END_STROKE ≠ 0 ∧ p.1.canvas_blocked = true then
            E.picker_wheel_deactivate p.1.picker
          else p.1.picker
        canvas_blocked :=
          if input.flags &&& MiltonInputFlags_END_STROKE ≠ 0 ∧ p.1.canvas_blocked = true then
            false
          else p.1.canvas_blocked
        strokes :=
          if input.flags &&& MiltonInputFlags_END_STROKE ≠ 0 ∧ p.1.canvas_blocked = false ∧
              p.1.num_strokes < 4096 then
            Function.update p.1.strokes p.1.num_strokes p.1.working_stroke
          else p.1.strokes
        num_strokes :=
          if input.flags &&& MiltonInputFlags_END_STROKE ≠ 0 ∧ p.1.canvas_blocked = false ∧
              p.1.num_strokes < 4096 then
            p.1.num_strokes + 1
          else p.1.num_strokes
        working_stroke := { p.1.working_stroke with
          num_points :=
            if input.flags &&& MiltonInputFlags_END_STROKE ≠ 0 ∧ p.1.canvas_blocked = false ∧
                p.1.num_strokes < 4096 then
              0
            else p.1.working_stroke.num_points } } := by
  unfold update_end_stroke
  rcases p with ⟨⟨mw, mh, pk, br, er, bs, cb, vw, lri, ⟨wb, wp, wn⟩, st, n, r, cm, lk⟩, rf⟩
  by_cases h1 : input.flags &&& MiltonInputFlags_END_STROKE ≠ 0
  · cases cb
    · by_cases h3 : n < 4096
      · simp [h1, h3]
      · simp [h1, h3]
    · simp [h1]
  · simp [h1]

/-! ## Undo and redo -/

/-- One update that carries only the undo flag or only the redo flag, on a state
with an empty working stroke and counts that are not negative: it returns, the
working stroke stays empty, the sum of the two counts is kept and neither count
becomes negative. -/
theorem undo_redo_step {E : Externals} (s : MiltonState E) (input : MiltonInput)
    (hn : 0 ≤ s.num_strokes) (hr : 0 ≤ s.num_redos) (hw : s.working_stroke.num_points = 0)
    (hin : (input.flags = MiltonInputFlags_UNDO ∨ input.flags = MiltonInputFlags_REDO) ∧
      input.point = none ∧ input.scale = 0) :
    ∃ p, milton_update s input = .ok p ∧ p.1.working_stroke.num_points = 0 ∧
      p.1.num_strokes + p.1.num_redos = s.num_strokes + s.num_redos ∧
      0 ≤ p.1.num_strokes ∧ 0 ≤ p.1.num_redos := by
  obtain ⟨flags, point, scale, pd⟩ := input
  obtain ⟨hf, hp, hs⟩ := hin
  simp only at hf hp hs
  subst hp hs
  unfold milton_update
  simp only [update_undo_redo, update_fast_draw_fst, update_full_refresh_fst, update_zoom_fst,
    update_mode_fst]
  rcases hf with hf | hf
  · subst hf
    by_cases h0 : 0 < s.num_strokes
    · simp +decide [MiltonInputFlags_UNDO, hw, h0, update_end_stroke_fst, update_reset_fst,
        update_point_none, update_fast_draw_fst, update_full_refresh_fst, update_zoom_fst,
        update_mode_fst]
      omega
    · simp +decide [MiltonInputFlags_UNDO, hw, h0, update_end_stroke_fst, update_reset_fst,
        update_point_none, update_fast_draw_fst, update_full_refresh_fst, update_zoom_fst,
        update_mode_fst]
      omega
  · subst hf
    by_cases h0 : 0 < s.num_redos
    · simp +decide [MiltonInputFlags_REDO, hw, h0, update_end_stroke_fst, update_reset_fst,
        update_point_none, update_fast_draw_fst, update_full_refresh_fst, update_zoom_fst,
        update_mode_fst]
      omega
    · simp +decide [MiltonInputFlags_REDO, hw, h0, update_end_stroke_fst, update_reset_fst,
        update_point_none, update_fast_draw_fst, update_full_refresh_fst, update_zoom_fst,
        update_mode_fst]
      omega

/-- A run of updates that each carry only the undo flag or only the redo flag:
it returns, and the final counts add up to the starting sum and are not
negative. -/
theorem undo_redo_run {E : Externals} (inputs : List MiltonInput) :
    ∀ s : MiltonState E, 0 ≤ s.num_strokes → 0 ≤ s.num_redos →
      s.working_stroke.num_points = 0 →
      (∀ input ∈ inputs,
        (input.flags = MiltonInputFlags_UNDO ∨ input.flags = MiltonInputFlags_REDO) ∧
          input.point = none ∧ input.scale = 0) →
      ∃ s1, milton_run s inputs = .ok s1 ∧
        s1.num_strokes + s1.num_redos = s.num_strokes + s.num_redos ∧
        0 ≤ s1.num_strokes ∧ 0 ≤ s1.num_redos := by
  induction inputs with
  | nil => intro s hn hr _ _; exact ⟨s, rfl, rfl, hn, hr⟩
  | cons input rest ih =>
    intro s hn hr hw hin
    obtain ⟨p, h1, h2, h3, h4, h5⟩ :=
      undo_redo_step s input hn hr hw (hin input (List.mem_cons_self _ _))
    obtain ⟨s1, g1, g2, g3, g4⟩ :=
      ih p.1 h4 h5 h2 (fun i hi => hin i (List.mem_cons_of_mem _ hi))
    refine ⟨s1, ?_, by omega, g3, g4⟩
    simp only [milton_run, h1, g1]

/-- C4: from a state with `num_strokes >= 0`, `num_redos >= 0` and an empty working
stroke, along any finite sequence of `milton_update` calls whose input carries
only the UNDO flag or only the REDO flag (no point, zero scale), after every
step (every prefix of the sequence) the run has returned,
`num_strokes + num_redos` equals its starting value, both counts are
non-negative, and so the visible count does not exceed the total. -/
theorem undo_redo_counts_invariant {E : Externals} (s : MiltonState E)
    (inputs : List MiltonInput)
    (hn : 0 ≤ s.num_strokes) (hr : 0 ≤ s.num_redos) (hw : s.working_stroke.num_points = 0)
    (hin : ∀ input ∈ inputs,
      (input.flags = MiltonInputFlags_UNDO ∨ input.flags = MiltonInputFlags_REDO) ∧
        input.point = none ∧ input.scale = 0) :
    ∀ k : Nat, ∃ s1, milton_run s (inputs.take k) = .ok s1 ∧
      s1.num_strokes + s1.num_redos = s.num_strokes + s.num_redos ∧
      0 ≤ s1.num_strokes ∧ 0 ≤ s1.num_redos ∧
      s1.num_strokes ≤ s.num_strokes + s.num_redos := by
  intro k
  obtain ⟨s1, h1, h2, h3, h4⟩ :=
    undo_redo_run (inputs.take k) s hn hr hw (fun i hi => hin i (List.mem_of_mem_take hi))
  exact ⟨s1, h1, h2, h3, h4, by omega⟩

/-- C4, evaluated: two committed strokes, then undo, undo, undo, redo, redo, redo,
redo, undo; the state after the first five of them. -/
theorem undo_redo_counts_invariant_witness :
    ∃ s1,
      milton_run two_strokes_state
        (([8, 8, 8, 16, 16, 16, 16, 8].map flags_input).take 5) = .ok s1 ∧
      s1.num_strokes + s1.num_redos =
        two_strokes_state.num_strokes + two_strokes_state.num_redos ∧
      0 ≤ s1.num_strokes ∧ 0 ≤ s1.num_redos ∧
      s1.num_strokes ≤ two_strokes_state.num_strokes + two_strokes_state.num_redos :=
  undo_redo_counts_invariant two_strokes_state ([8, 8, 8, 16, 16, 16, 16, 8].map flags_input)
    (by decide) (by decide) (by decide) (by decide) 5

/-- A run of two updates that both return. -/
theorem milton_run_two {E : Externals} (s : MiltonState E) (a b : MiltonInput)
    (p1 p2 : MiltonState E × MiltonRenderFlags)
    (h1 : milton_update s a = .ok p1) (h2 : milton_update p1.1 b = .ok p2) :
    milton_run s [a, b] = .ok p2.1 := by
  simp only [milton_run, h1, h2]

/-- Toggling a set quality-redraw bit clears it. -/
theorem quality_bit_cleared (m : Nat) (h : m &&& MiltonMode_REQUEST_QUALITY_REDRAW ≠ 0) :
    (m ^^^ MiltonMode_REQUEST_QUALITY_REDRAW) &&& MiltonMode_REQUEST_QUALITY_REDRAW = 0 := by
  unfold MiltonMode_REQUEST_QUALITY_REDRAW at h ⊢
  have h4 : m &&& 4 = 4 := by
    have h2 := Nat.and_two_pow m 2
    simp at h2
    rw [h2] at h ⊢
    cases hb : m.testBit 2 <;> simp_all
  rw [Nat.and_xor_distrib_right, h4]
  decide

/-- An update with only the undo flag, on an empty working stroke and a visible
stroke: the state it returns. -/
theorem undo_only_update {E : Externals} (s : MiltonState E) (input : MiltonInput)
    (hw : s.working_stroke.num_points = 0) (hn : 0 < s.num_strokes)
    (hin : input.flags = MiltonInputFlags_UNDO ∧ input.point = none ∧ input.scale = 0) :
    ∃ rf, milton_update s input = .ok
      ({ s with
          view := { s.view with downsampling_factor := 1 }
          current_mode :=
            if s.current_mode &&& MiltonMode_REQUEST_QUALITY_REDRAW ≠ 0 then
              s.current_mode ^^^ MiltonMode_REQUEST_QUALITY_REDRAW
            else s.current_mode
          num_strokes := s.num_strokes - 1
          num_redos := s.num_redos + 1 }, rf) := by
  obtain ⟨flags, point, scale, pd⟩ := input
  obtain ⟨hf, hp, hs⟩ := hin
  simp only at hf hp hs
  subst hf hp hs
  unfold milton_update
  simp only [update_undo_redo, update_fast_draw_fst, update_full_refresh_fst, update_zoom_fst,
    update_mode_fst]
  simp +decide only [MiltonInputFlags_UNDO, hw, hn, MiltonInputFlags_FAST_DRAW,
    MiltonInputFlags_SET_MODE_BRUSH, MiltonInputFlags_SET_MODE_ERASER, ne_eq,
    not_true_eq_false, not_false_eq_true, if_true, if_false, and_self, Except.ok.injEq]
  refine ⟨_, Prod.ext ?_ rfl⟩
  simp +decide [update_end_stroke_fst, update_reset_fst, update_point_none,
    MiltonInputFlags_END_STROKE, MiltonInputFlags_RESET]

/-- An update with only the redo flag, with a stroke to redo: the state it
returns. -/
theorem redo_only_update {E : Externals} (s : MiltonState E) (input : MiltonInput)
    (hr : 0 < s.num_redos)
    (hin : input.flags = MiltonInputFlags_REDO ∧ input.point = none ∧ input.scale = 0) :
    ∃ rf, milton_update s input = .ok
      ({ s with
          view := { s.view with downsampling_factor := 1 }
          current_mode :=
            if s.current_mode &&& MiltonMode_REQUEST_QUALITY_REDRAW ≠ 0 then
              s.current_mode ^^^ MiltonMode_REQUEST_QUALITY_REDRAW
            else s.current_mode
          num_strokes := s.num_strokes + 1
          num_redos := s.num_redos - 1 }, rf) := by
  obtain ⟨flags, point, scale, pd⟩ := input
  obtain ⟨hf, hp, hs⟩ := hin
  simp only at hf hp hs
  subst hf hp hs
  unfold milton_update
  simp only [update_undo_redo, update_fast_draw_fst, update_full_refresh_fst, update_zoom_fst,
    update_mode_fst]
  simp +decide only [MiltonInputFlags_UNDO, MiltonInputFlags_REDO, hr,
    MiltonInputFlags_FAST_DRAW, MiltonInputFlags_SET_MODE_BRUSH,
    MiltonInputFlags_SET_MODE_ERASER, ne_eq, not_true_eq_false, not_false_eq_true, if_true,
    if_false, and_self, Except.ok.injEq]
  refine ⟨_, Prod.ext ?_ rfl⟩
  simp +decide [update_end_stroke_fst, update_reset_fst, update_point_none,
    MiltonInputFlags_END_STROKE, MiltonInputFlags_RESET]

/-- C5 as stated fails. First, from the sample state: draw a point, end the
stroke, then an update with FAST_DRAW; the state has an empty working stroke and
one visible stroke, and the undo update followed by the redo update leaves
`current_mode` and the view different from their values before the two updates
(the pending quality redraw is consumed and `downsampling_factor` goes back to
1). Second, on two visible strokes with `num_redos = -1`, after undo followed by
redo `num_strokes` is different from 2. -/
theorem undo_redo_not_identity :
    (∃ s1 s2,
      milton_run sample_state [point_input 0 300 300, flags_input 4, flags_input 128] =
        .ok s1 ∧
      s1.working_stroke.num_points = 0 ∧ 0 < s1.num_strokes ∧
      milton_run s1 [flags_input 8, flags_input 16] = .ok s2 ∧
      s2.current_mode ≠ s1.current_mode ∧ s2.view ≠ s1.view) ∧
    (∃ s2,
      milton_run { two_strokes_state with num_redos := -1 } [flags_input 8, flags_input 16] =
        .ok s2 ∧
      s2.num_strokes ≠ 2) := by
  refine ⟨⟨_, _, rfl, by decide, by decide, rfl, by decide, by decide⟩, ⟨_, rfl, by decide⟩⟩

/-- C5, amended: for every state with an empty working stroke, `num_strokes > 0`
and `num_redos >= 0`, an update with only UNDO followed by an update with only
REDO returns and leaves `num_strokes`, `num_redos`, every entry of `strokes` and
the working stroke equal to their values before the two updates; the view is
the one before with `downsampling_factor` set to 1, and `current_mode` is the
one before with a set REQUEST_QUALITY_REDRAW bit cleared. -/
theorem undo_then_redo_restores {E : Externals} (s : MiltonState E) (undo redo : MiltonInput)
    (hw : s.working_stroke.num_points = 0) (hn : 0 < s.num_strokes) (hr : 0 ≤ s.num_redos)
    (hu : undo.flags = MiltonInputFlags_UNDO ∧ undo.point = none ∧ undo.scale = 0)
    (hre : redo.flags = MiltonInputFlags_REDO ∧ redo.point = none ∧ redo.scale = 0) :
    ∃ s2, milton_run s [undo, redo] = .ok s2 ∧
      s2.num_strokes = s.num_strokes ∧ s2.num_redos = s.num_redos ∧
      s2.strokes = s.strokes ∧ s2.working_stroke = s.working_stroke ∧
      s2.view = { s.view with downsampling_factor := 1 } ∧
      s2.current_mode =
        (if s.current_mode &&& MiltonMode_REQUEST_QUALITY_REDRAW ≠ 0 then
          s.current_mode ^^^ MiltonMode_REQUEST_QUALITY_REDRAW
        else s.current_mode) := by
  obtain ⟨rf1, h1⟩ := undo_only_update s undo hw hn hu
  obtain ⟨rf2, h2⟩ := redo_only_update
    { s with
        view := { s.view with downsampling_factor := 1 }
        current_mode :=
          if s.current_mode &&& MiltonMode_REQUEST_QUALITY_REDRAW ≠ 0 then
            s.current_mode ^^^ MiltonMode_REQUEST_QUALITY_REDRAW
          else s.current_mode
        num_strokes := s.num_strokes - 1
        num_redos := s.num_redos + 1 } redo (by simp only; omega) hre
  refine ⟨_, milton_run_two s undo redo _ _ h1 h2, ?_, ?_, ?_, ?_, ?_, ?_⟩
  · simp
  · simp
  · rfl
  · rfl
  · rfl
  · by_cases hq : s.current_mode &&& MiltonMode_REQUEST_QUALITY_REDRAW ≠ 0
    · simp [hq, quality_bit_cleared s.current_mode hq]
    · simp [hq]

/-- C5 amended, evaluated on the sample state with two strokes. -/
theorem undo_then_redo_restores_witness :
    ∃ s2, milton_run two_strokes_state [flags_input 8, flags_input 16] = .ok s2 ∧
      s2.num_strokes = two_strokes_state.num_strokes ∧
      s2.num_redos = two_strokes_state.num_redos ∧
      s2.strokes = two_strokes_state.strokes ∧
      s2.working_stroke = two_strokes_state.working_stroke ∧
      s2.view = { two_strokes_state.view with downsampling_factor := 1 } ∧
      s2.current_mode =
        (if two_strokes_state.current_mode &&& MiltonMode_REQUEST_QUALITY_REDRAW ≠ 0 then
          two_strokes_state.current_mode ^^^ MiltonMode_REQUEST_QUALITY_REDRAW
        else two_strokes_state.current_mode) :=
  undo_then_redo_restores two_strokes_state (flags_input 8) (flags_input 16)
    (by decide) (by decide) (by decide) (by decide) (by decide)

/-! ## The result of an update -/

/-- The undo and redo block fails on undo with a stroke in progress. -/
theorem update_undo_redo_error {E : Externals} (input : MiltonInput)
    (p : MiltonState E × MiltonRenderFlags)
    (h : input.flags &&& MiltonInputFlags_UNDO ≠ 0 ∧ 0 < p.1.working_stroke.num_points) :
    update_undo_redo input p = .error Fault.assert_NPE := by
  unfold update_undo_redo
  have h0 : ¬ p.1.working_stroke.num_points = 0 := by omega
  simp [h.1, h.2, h0]

/-- The state after the undo and redo block, when it does not fail. -/
theorem update_undo_redo_ok {E : Externals} (input : MiltonInput)
    (p : MiltonState E × MiltonRenderFlags)
    (h : ¬ (input.flags &&& MiltonInputFlags_UNDO ≠ 0 ∧ 0 < p.1.working_stroke.num_points)) :
    update_undo_redo input p = .ok
      ({ p.1 with
          num_strokes :=
            if input.flags &&& MiltonInputFlags_UNDO ≠ 0 then
              if p.1.working_stroke.num_points = 0 ∧ 0 < p.1.num_strokes then p.1.num_strokes - 1
              else p.1.num_strokes
            else if input.flags &&& MiltonInputFlags_REDO ≠ 0 ∧ 0 < p.1.num_redos then
              p.1.num_strokes + 1
            else p.1.num_strokes
          num_redos :=
            if input.flags &&& MiltonInputFlags_UNDO ≠ 0 then
              if p.1.working_stroke.num_points = 0 ∧ 0 < p.1.num_strokes then p.1.num_redos + 1
              else p.1.num_redos
            else if input.flags &&& MiltonInputFlags_REDO ≠ 0 ∧ 0 < p.1.num_redos then
              p.1.num_redos - 1
            else p.1.num_redos }, p.2) := by
  unfold update_undo_redo
  by_cases hu : input.flags &&& MiltonInputFlags_UNDO ≠ 0
  · have hw : ¬ 0 < p.1.working_stroke.num_points := fun hw => h ⟨hu, hw⟩
    by_cases hc : p.1.working_stroke.num_points = 0 ∧ 0 < p.1.num_strokes
    · simp only [if_pos hu, if_pos hc]
    · simp only [if_pos hu, if_neg hc, if_neg hw]
  · by_cases hr : input.flags &&& MiltonInputFlags_REDO ≠ 0
    · by_cases hc : 0 < p.1.num_redos
      · simp only [if_neg hu, if_pos hr, if_pos hc, hr, hc, and_self, if_true, ne_eq,
          not_false_eq_true]
      · simp only [if_neg hu, if_pos hr, if_neg hc, hr, hc, and_false, if_false]
    · simp only [if_neg hu, if_neg hr, hr, false_and, if_false]

/-- An update fails on undo with a stroke in progress. -/
theorem milton_update_error {E : Externals} (s : MiltonState E) (input : MiltonInput)
    (h : input.flags &&& MiltonInputFlags_UNDO ≠ 0 ∧ 0 < s.working_stroke.num_points) :
    milton_update s input = .error Fault.assert_NPE := by
  unfold milton_update
  rw [update_undo_redo_error input _ (by
    simpa only [update_fast_draw_fst, update_full_refresh_fst, update_zoom_fst,
      update_mode_fst] using h)]

/-- An update that is not an undo with a stroke in progress returns; `q` is the
state and the render flags after the first four blocks. -/
theorem milton_update_eq {E : Externals} (s : MiltonState E) (input : MiltonInput)
    (q : MiltonState E × MiltonRenderFlags)
    (hq : q = update_mode input (update_zoom input (update_full_refresh input
      (update_fast_draw input (s, MiltonRenderFlags_none)))))
    (h : ¬ (input.flags &&& MiltonInputFlags_UNDO ≠ 0 ∧ 0 < s.working_stroke.num_points)) :
    milton_update s input = .ok (update_end_stroke input (update_point input
      (update_reset input
        ({ q.1 with
            num_strokes :=
              if input.flags &&& MiltonInputFlags_UNDO ≠ 0 then
                if q.1.working_stroke.num_points = 0 ∧ 0 < q.1.num_strokes then
                  q.1.num_strokes - 1
                else q.1.num_strokes
              else if input.flags &&& MiltonInputFlags_REDO ≠ 0 ∧ 0 < q.1.num_redos then
                q.1.num_strokes + 1
              else q.1.num_strokes
            num_redos :=
              if input.flags &&& MiltonInputFlags_UNDO ≠ 0 then
                if q.1.working_stroke.num_points = 0 ∧ 0 < q.1.num_strokes then
                  q.1.num_redos + 1
                else q.1.num_redos
              else if input.flags &&& MiltonInputFlags_REDO ≠ 0 ∧ 0 < q.1.num_redos then
                q.1.num_redos - 1
              else q.1.num_redos }, q.2)))) := by
  subst hq
  unfold milton_update
  rw [update_undo_redo_ok input _ (by
    simpa only [update_fast_draw_fst, update_full_refresh_fst, update_zoom_fst,
      update_mode_fst] using h)]

/-- An update that is not an undo with a stroke in progress returns. -/
theorem milton_update_ok {E : Externals} (s : MiltonState E) (input : MiltonInput)
    (h : ¬ (input.flags &&& MiltonInputFlags_UNDO ≠ 0 ∧ 0 < s.working_stroke.num_points)) :
    ∃ p, milton_update s input = .ok p :=
  ⟨_, milton_update_eq s input _ rfl h⟩

/-- An update that is not an undo with a stroke in progress returns the result of
the reset, point and end-of-stroke blocks on the state after the first blocks,
with the stroke count `n` and the redo count `r` that the undo and redo block
leaves. -/
theorem milton_update_blocks {E : Externals} (s : MiltonState E) (input : MiltonInput)
    (h : ¬ (input.flags &&& MiltonInputFlags_UNDO ≠ 0 ∧ 0 < s.working_stroke.num_points)) :
    ∃ (n r : Int) (rf : MiltonRenderFlags),
      milton_update s input = .ok (update_end_stroke input (update_point input
        (update_reset input
          ({ (update_mode input (update_zoom input (update_full_refresh input
                (update_fast_draw input (s, MiltonRenderFlags_none))))).1 with
              num_strokes := n, num_redos := r }, rf)))) ∧
      n = (if input.flags &&& MiltonInputFlags_UNDO ≠ 0 then
            if s.working_stroke.num_points = 0 ∧ 0 < s.num_strokes then s.num_strokes - 1
            else s.num_strokes
          else if input.flags &&& MiltonInputFlags_REDO ≠ 0 ∧ 0 < s.num_redos then
            s.num_strokes + 1
          else s.num_strokes) := by
  refine ⟨_, _, _, milton_update_eq s input _ rfl h, ?_⟩
  simp only [update_fast_draw_fst, update_full_refresh_fst, update_zoom_fst, update_mode_fst]

/-- The first blocks of an update, up to the reset block, leave the picker and
`canvas_blocked` as they are, and the working stroke too except that RESET sets
its point count to 0. -/
theorem update_reset_blocked {E : Externals} (s : MiltonState E) (input : MiltonInput)
    (n r : Int) (rf : MiltonRenderFlags) :
    (update_reset input
        ({ (update_mode input (update_zoom input (update_full_refresh input
              (update_fast_draw input (s, MiltonRenderFlags_none))))).1 with
            num_strokes := n, num_redos := r }, rf)).1.canvas_blocked = s.canvas_blocked ∧
      (update_reset input
        ({ (update_mode input (update_zoom input (update_full_refresh input
              (update_fast_draw input (s, MiltonRenderFlags_none))))).1 with
            num_strokes := n, num_redos := r }, rf)).1.picker = s.picker ∧
      (update_reset input
        ({ (update_mode input (update_zoom input (update_full_refresh input
              (update_fast_draw input (s, MiltonRenderFlags_none))))).1 with
            num_strokes := n, num_redos := r }, rf)).1.working_stroke =
        { s.working_stroke with
          num_points :=
            if input.flags &&& MiltonInputFlags_RESET ≠ 0 then 0
            else s.working_stroke.num_points } := by
  simp only [update_reset_fst, update_fast_draw_fst, update_full_refresh_fst, update_zoom_fst,
    update_mode_fst, and_self]

/-- The counts, the strokes, `canvas_blocked` and the working stroke after the
reset block of an update, in terms of the counts `n` and `r` that the undo and
redo block leaves. -/
theorem update_reset_store {E : Externals} (s : MiltonState E) (input : MiltonInput)
    (n r : Int) (rf : MiltonRenderFlags) :
    (update_reset input
        ({ (update_mode input (update_zoom input (update_full_refresh input
              (update_fast_draw input (s, MiltonRenderFlags_none))))).1 with
            num_strokes := n, num_redos := r }, rf)).1.num_strokes =
        (if input.flags &&& MiltonInputFlags_RESET ≠ 0 then 0 else n) ∧
      (update_reset input
        ({ (update_mode input (update_zoom input (update_full_refresh input
              (update_fast_draw input (s, MiltonRenderFlags_none))))).1 with
            num_strokes := n, num_redos := r }, rf)).1.strokes =
        (if input.flags &&& MiltonInputFlags_RESET ≠ 0 then
          Function.update s.strokes 0 { s.strokes 0 with num_points := 0 }
        else s.strokes) := by
  simp only [update_reset_fst, update_fast_draw_fst, update_full_refresh_fst, update_zoom_fst,
    update_mode_fst, and_self]

/-- C6 as stated fails on the sample state with two strokes (empty working
stroke, UNDO set in each input): with UNDO and RESET the update ends with
`num_strokes = 0`, not 1; with UNDO and END_STROKE it ends with
`num_strokes = 2`, the working stroke being committed after the undo; with UNDO
and a point it ends with `num_redos = 0`, not 1. And on a working stroke whose
point count is -1, which is not "at least one point", an update with only UNDO
does not decrement `num_strokes`. -/
theorem undo_with_other_input :
    two_strokes_state.working_stroke.num_points = 0 ∧ 0 < two_strokes_state.num_strokes ∧
    (∃ p, milton_update two_strokes_state (flags_input 10) = .ok p ∧
      p.1.num_strokes ≠ two_strokes_state.num_strokes - 1) ∧
    (∃ p, milton_update two_strokes_state (flags_input 12) = .ok p ∧
      p.1.num_strokes ≠ two_strokes_state.num_strokes - 1) ∧
    (∃ p, milton_update two_strokes_state (point_input 8 300 300) = .ok p ∧
      p.1.num_redos ≠ two_strokes_state.num_redos + 1) ∧
    (∃ p,
      milton_update
        { two_strokes_state with working_stroke := { empty_stroke with num_points := -1 } }
        (flags_input 8) = .ok p ∧
      p.1.num_strokes ≠ two_strokes_state.num_strokes - 1) := by
  refine ⟨by decide, by decide, ⟨_, rfl, by decide⟩, ⟨_, rfl, by decide⟩, ⟨_, rfl, by decide⟩,
    ⟨_, rfl, by decide⟩⟩

/-- C6, amended: for every state, a `milton_update` whose input has the UNDO flag
fails (fatal assertion) if and only if the working stroke has at least one point
when the update starts; otherwise it returns, and when the working stroke is
empty and the input carries neither the RESET flag, nor the END_STROKE flag, nor
a point: if `num_strokes > 0` it decrements `num_strokes` by one and increments
`num_redos` by one, and if `num_strokes = 0` it leaves both counts unchanged. -/
theorem undo_update {E : Externals} (s : MiltonState E) (input : MiltonInput)
    (hundo : input.flags &&& MiltonInputFlags_UNDO ≠ 0) :
    (milton_update s input = .error Fault.assert_NPE ↔ 0 < s.working_stroke.num_points) ∧
    (¬ 0 < s.working_stroke.num_points →
      ∃ p, milton_update s input = .ok p ∧
        (s.working_stroke.num_points = 0 →
          input.flags &&& MiltonInputFlags_RESET = 0 →
          input.flags &&& MiltonInputFlags_END_STROKE = 0 →
          input.point = none →
          (0 < s.num_strokes →
            p.1.num_strokes = s.num_strokes - 1 ∧ p.1.num_redos = s.num_redos + 1) ∧
          (s.num_strokes = 0 →
            p.1.num_strokes = s.num_strokes ∧ p.1.num_redos = s.num_redos))) := by
  constructor
  · constructor
    · intro herr
      by_contra hw
      obtain ⟨p, hp⟩ := milton_update_ok s input (fun h => hw h.2)
      rw [hp] at herr
      exact Except.noConfusion herr
    · exact fun hw => milton_update_error s input ⟨hundo, hw⟩
  · intro hw
    refine ⟨_, milton_update_eq s input _ rfl (fun h => hw h.2), fun h0 hr he hp => ?_⟩
    simp only [update_end_stroke_fst, update_point_none _ _ hp, update_reset_fst,
      update_fast_draw_fst, update_full_refresh_fst, update_zoom_fst, update_mode_fst]
    constructor
    · intro hn
      simp [hundo, h0, hr, he, hn]
    · intro hn
      simp [hundo, h0, hr, he, hn]

/-- C6 amended, evaluated: an undo with a mode flag on two strokes. -/
theorem undo_update_witness :
    (milton_update two_strokes_state (flags_input 40) = .error Fault.assert_NPE ↔
      0 < two_strokes_state.working_stroke.num_points) ∧
    (¬ 0 < two_strokes_state.working_stroke.num_points →
      ∃ p, milton_update two_strokes_state (flags_input 40) = .ok p ∧
        (two_strokes_state.working_stroke.num_points = 0 →
          (flags_input 40).flags &&& MiltonInputFlags_RESET = 0 →
          (flags_input 40).flags &&& MiltonInputFlags_END_STROKE = 0 →
          (flags_input 40).point = none →
          (0 < two_strokes_state.num_strokes →
            p.1.num_strokes = two_strokes_state.num_strokes - 1 ∧
              p.1.num_redos = two_strokes_state.num_redos + 1) ∧
          (two_strokes_state.num_strokes = 0 →
            p.1.num_strokes = two_strokes_state.num_strokes ∧
              p.1.num_redos = two_strokes_state.num_redos))) :=
  undo_update two_strokes_state (flags_input 40) (by decide)

/-! ## The end of a stroke -/

/-- C7 as stated fails. On the sample state (empty working stroke, canvas not
blocked, no stroke) an update with only END_STROKE and no point commits the
empty working stroke: `num_strokes` goes from 0 to 1 and the committed stroke has
zero points. After one undo on the state with two strokes, an update with only
REDO and no point raises `num_strokes`. On a state with `num_strokes = -1`, an
update with only RESET raises `num_strokes` to 0. -/
theorem empty_stroke_is_committed :
    (sample_state.working_stroke.num_points = 0 ∧ sample_state.canvas_blocked = false ∧
      ∃ p, milton_update sample_state (flags_input 4) = .ok p ∧
        sample_state.num_strokes < p.1.num_strokes ∧ p.1.num_strokes = 1 ∧
        (p.1.strokes 0).num_points = 0) ∧
    (∃ s1 p, milton_run two_strokes_state [flags_input 8] = .ok s1 ∧
      s1.working_stroke.num_points = 0 ∧
      milton_update s1 (flags_input 16) = .ok p ∧ s1.num_strokes < p.1.num_strokes) ∧
    (∃ p, milton_update { sample_state with num_strokes := -1 } (flags_input 2) = .ok p ∧
      -1 < p.1.num_strokes) := by
  refine ⟨⟨by decide, by decide, _, rfl, by decide, by decide, by decide⟩,
    ⟨_, _, rfl, by decide, rfl, by decide⟩, ⟨_, rfl, by decide⟩⟩

/-- C7, amended: for every state whose working stroke has zero points and whose
`num_strokes` is not negative, and every input that carries no point, the update
returns; `num_strokes` afterwards is not greater than before when the input has
no REDO flag and either has no END_STROKE flag or `canvas_blocked` is true; and
when the input has only the END_STROKE flag, `canvas_blocked` is false and
`num_strokes < 4096`, the empty working stroke is committed: `num_strokes`
increases by one and the new entry has zero points. -/
theorem empty_stroke_commit {E : Externals} (s : MiltonState E) (input : MiltonInput)
    (hw : s.working_stroke.num_points = 0) (hn : 0 ≤ s.num_strokes)
    (hp : input.point = none) :
    ∃ p, milton_update s input = .ok p ∧
      (input.flags &&& MiltonInputFlags_REDO = 0 →
        (input.flags &&& MiltonInputFlags_END_STROKE = 0 ∨ s.canvas_blocked = true) →
        p.1.num_strokes ≤ s.num_strokes) ∧
      (input.flags = MiltonInputFlags_END_STROKE → s.canvas_blocked = false →
        s.num_strokes < 4096 →
        p.1.num_strokes = s.num_strokes + 1 ∧ (p.1.strokes s.num_strokes).num_points = 0) := by
  refine ⟨_, milton_update_eq s input _ rfl (fun h => by omega), ?_, ?_⟩
  · intro hr he
    simp only [update_end_stroke_fst, update_point_none _ _ hp, update_reset_fst,
      update_fast_draw_fst, update_full_refresh_fst, update_zoom_fst, update_mode_fst]
    have hcommit : ¬ (input.flags &&& MiltonInputFlags_END_STROKE ≠ 0 ∧
        s.canvas_blocked = false ∧
        (if input.flags &&& MiltonInputFlags_RESET ≠ 0 then (0 : Int)
          else if input.flags &&& MiltonInputFlags_UNDO ≠ 0 then
            if s.working_stroke.num_points = 0 ∧ 0 < s.num_strokes then s.num_strokes - 1
            else s.num_strokes
          else if input.flags &&& MiltonInputFlags_REDO ≠ 0 ∧ 0 < s.num_redos then
            s.num_strokes + 1
          else s.num_strokes) < 4096) := by
      rintro ⟨h1, h2, -⟩
      rcases he with he | he
      · exact h1 he
      · rw [he] at h2; exact Bool.noConfusion h2
    rw [if_neg hcommit]
    simp only [hr, ne_eq, not_true_eq_false, false_and, if_false]
    split_ifs <;> omega
  · intro hf hb hlt
    simp only [update_end_stroke_fst, update_point_none _ _ hp, update_reset_fst,
      update_fast_draw_fst, update_full_refresh_fst, update_zoom_fst, update_mode_fst]
    rw [hf]
    simp +decide [MiltonInputFlags_END_STROKE, MiltonInputFlags_RESET, MiltonInputFlags_UNDO,
      MiltonInputFlags_REDO, hb, hlt, hw]

/-- C7 amended, evaluated on the sample state and an update with only
END_STROKE. -/
theorem empty_stroke_commit_witness :
    ∃ p, milton_update sample_state (flags_input 4) = .ok p ∧
      ((flags_input 4).flags &&& MiltonInputFlags_REDO = 0 →
        ((flags_input 4).flags &&& MiltonInputFlags_END_STROKE = 0 ∨
          sample_state.canvas_blocked = true) →
        p.1.num_strokes ≤ sample_state.num_strokes) ∧
      ((flags_input 4).flags = MiltonInputFlags_END_STROKE →
        sample_state.canvas_blocked = false →
        sample_state.num_strokes < 4096 →
        p.1.num_strokes = sample_state.num_strokes + 1 ∧
          (p.1.strokes sample_state.num_strokes).num_points = 0) :=
  empty_stroke_commit sample_state (flags_input 4) (by decide) (by decide) (by decide)

/-- C9 as stated fails. From the sample state with two strokes, a point inside
the picker blocks the canvas (the working stroke stays empty). On that state an
update with END_STROKE and UNDO and no point ends with `num_strokes = 1`, and one
with END_STROKE and RESET and no point ends with `num_strokes = 0`; after one
undo on the blocked canvas, an update with END_STROKE and REDO and no point
raises `num_strokes`. -/
theorem end_stroke_blocked_with_other_flags :
    ∃ s1, milton_run two_strokes_state [point_input 0 120 30] = .ok s1 ∧
      s1.canvas_blocked = true ∧ s1.num_strokes = 2 ∧
      (∃ p, milton_update s1 (flags_input 12) = .ok p ∧ p.1.num_strokes ≠ s1.num_strokes) ∧
      (∃ p, milton_update s1 (flags_input 6) = .ok p ∧ p.1.num_strokes ≠ s1.num_strokes) ∧
      (∃ s2 p, milton_run s1 [flags_input 8] = .ok s2 ∧ s2.canvas_blocked = true ∧
        milton_update s2 (flags_input 20) = .ok p ∧ p.1.num_strokes ≠ s2.num_strokes) := by
  refine ⟨_, rfl, by decide, by decide, ⟨_, rfl, by decide⟩, ⟨_, rfl, by decide⟩,
    ⟨_, _, rfl, by decide, rfl, by decide⟩⟩

/-- C9, amended: for every state with `canvas_blocked` true, a `milton_update`
with the END_STROKE flag, no point and none of the UNDO, REDO and RESET flags
returns, clears `canvas_blocked`, deactivates the picker wheel, and does not
commit: `num_strokes`, every entry of `strokes` and the working stroke are
unchanged. -/
theorem end_stroke_unblocks {E : Externals} (s : MiltonState E) (input : MiltonInput)
    (hb : s.canvas_blocked = true)
    (he : input.flags &&& MiltonInputFlags_END_STROKE ≠ 0) (hp : input.point = none)
    (hu : input.flags &&& MiltonInputFlags_UNDO = 0)
    (hr : input.flags &&& MiltonInputFlags_REDO = 0)
    (hreset : input.flags &&& MiltonInputFlags_RESET = 0) :
    ∃ p, milton_update s input = .ok p ∧
      p.1.canvas_blocked = false ∧
      p.1.picker = E.picker_wheel_deactivate s.picker ∧
      p.1.num_strokes = s.num_strokes ∧
      p.1.strokes = s.strokes ∧
      p.1.working_stroke = s.working_stroke := by
  refine ⟨_, milton_update_eq s input _ rfl (fun h => h.1 hu), ?_⟩
  simp only [update_end_stroke_fst, update_point_none _ _ hp, update_reset_fst,
    update_fast_draw_fst, update_full_refresh_fst, update_zoom_fst, update_mode_fst]
  simp [he, hu, hr, hreset, hb]

/-- C9 amended, evaluated: the sample state with the canvas blocked by an active
picker wheel, and an update with only END_STROKE. -/
theorem end_stroke_unblocks_witness :
    ∃ p, milton_update { two_strokes_state with canvas_blocked := true, picker := true }
        (flags_input 4) = .ok p ∧
      p.1.canvas_blocked = false ∧
      p.1.picker = sample_externals.picker_wheel_deactivate true ∧
      p.1.num_strokes = two_strokes_state.num_strokes ∧
      p.1.strokes = two_strokes_state.strokes ∧
      p.1.working_stroke = two_strokes_state.working_stroke :=
  end_stroke_unblocks { two_strokes_state with canvas_blocked := true, picker := true }
    (flags_input 4) rfl (by decide) (by decide) (by decide) (by decide) (by decide)

/-! ## Zoom -/

/-- Rounding to nearest does not go below the quotient rounded down. -/
theorem le_round_half_even (a b : Nat) : a / b ≤ round_half_even a b := by
  unfold round_half_even
  split_ifs <;> omega

/-- The leading bit of a positive number is one of its bits, whatever the fuel. -/
theorem two_pow_leading_bit_le : ∀ (fuel n : Nat), 1 ≤ n → 2 ^ leading_bit fuel n ≤ n := by
  intro fuel
  induction fuel with
  | zero => intro n h; simpa [leading_bit] using h
  | succ f ih =>
    intro n h
    unfold leading_bit
    split_ifs with h2
    · have := ih (n / 2) (by omega)
      rw [pow_succ]
      omega
    · simpa using h

/-- The float nearest to a fraction that is at least 1 casts to at least 1. -/
theorem one_le_f32_quot_trunc (a b : Nat) (hb : 0 < b) (hab : b ≤ a) :
    1 ≤ f32_quot_trunc a b := by
  have hq : 1 ≤ a / b := Nat.div_pos hab hb
  have hpow := two_pow_leading_bit_le (a / b) (a / b) hq
  unfold f32_quot_trunc
  split_ifs with he
  · have hu : 0 < 2 ^ (leading_bit (a / b) (a / b) - 23) := by positivity
    have hule : 2 ^ (leading_bit (a / b) (a / b) - 23) ≤ a / b :=
      le_trans (Nat.pow_le_pow_right (by norm_num) (Nat.sub_le _ _)) hpow
    have h1 : 1 ≤ a / (b * 2 ^ (leading_bit (a / b) (a / b) - 23)) := by
      rw [← Nat.div_div_eq_div_mul]
      exact Nat.div_pos hule hu
    have h2 := le_round_half_even a (b * 2 ^ (leading_bit (a / b) (a / b) - 23))
    exact Nat.mul_le_mul (le_trans h1 h2) hu
  · have hs : 0 < 2 ^ (23 - leading_bit (a / b) (a / b)) := by positivity
    have h1 : 2 ^ (23 - leading_bit (a / b) (a / b)) ≤
        a * 2 ^ (23 - leading_bit (a / b) (a / b)) / b := by
      rw [Nat.le_div_iff_mul_le hb]
      rw [Nat.mul_comm]
      exact Nat.mul_le_mul_right _ hab
    have h2 := le_round_half_even (a * 2 ^ (23 - leading_bit (a / b) (a / b))) b
    exact Nat.div_pos (le_trans h1 h2) hs

/-- The float cast of a number that is at least 2 is at least 2. -/
theorem two_le_f32_of_nat (n : Nat) (h : 2 ≤ n) : 2 ≤ f32_of_nat n := by
  have hpow := two_pow_leading_bit_le n n (by omega)
  unfold f32_of_nat
  split_ifs with he
  · exact h
  · have hu : 2 ≤ 2 ^ (leading_bit n n - 23) := by
      have h21 : 2 ^ 1 ≤ 2 ^ (leading_bit n n - 23) :=
        Nat.pow_le_pow_right (by norm_num) (by omega)
      simpa using h21
    have hule : 2 ^ (leading_bit n n - 23) ≤ n :=
      le_trans (Nat.pow_le_pow_right (by norm_num) (Nat.sub_le _ _)) hpow
    have h1 : 1 ≤ n / 2 ^ (leading_bit n n - 23) := Nat.div_pos hule (by omega)
    have h2 := le_round_half_even n (2 ^ (leading_bit n n - 23))
    calc 2 = 1 * 2 := rfl
      _ ≤ round_half_even n (2 ^ (leading_bit n n - 23)) * 2 ^ (leading_bit n n - 23) :=
        Nat.mul_le_mul (le_trans h1 h2) hu

/-- Dividing a scale of at least 2 by the scale factor leaves at least 1. -/
theorem one_le_scale_div_factor (scale : Int) (h : 2 ≤ scale) :
    1 ≤ scale_div_factor scale := by
  unfold scale_div_factor
  rw [Int.sign_eq_one_of_pos (by omega), one_mul]
  have hn : 2 ≤ scale.natAbs := by omega
  have h2 := two_le_f32_of_nat scale.natAbs hn
  have h3 := one_le_f32_quot_trunc (f32_of_nat scale.natAbs * scale_factor_den)
    scale_factor_num (by decide) (by unfold scale_factor_den scale_factor_num; omega)
  exact_mod_cast h3

/-- The zoom step of an input with a positive scale is the zoom-in step. -/
theorem zoom_scale_of_pos (input_scale scale : Int) (lock : Bool) (h : 0 < input_scale) :
    zoom_scale input_scale scale lock = zoom_in_step (scale, lock) := by
  have hneg : ¬ input_scale < 0 := by omega
  simp [zoom_in_step, zoom_scale, h, hneg]

/-- A zoom-in step keeps a scale of at least 1 at least 1, and keeps a scale of 1. -/
theorem zoom_in_step_ge_one (a : Int × Bool) (h : 1 ≤ a.1) :
    1 ≤ (zoom_in_step a).1 ∧ (a.1 = 1 → (zoom_in_step a).1 = 1) := by
  unfold zoom_in_step zoom_scale
  by_cases hc : a.2 = false ∧ (0 : Int) < 1 ∧ 2 ≤ a.1
  · rw [if_pos hc]
    exact ⟨one_le_scale_div_factor a.1 hc.2.2, fun h1 => by omega⟩
  · rw [if_neg hc, if_neg (by omega)]
    exact ⟨h, fun h1 => h1⟩

/-- Zoom-in steps keep a scale of at least 1 at least 1. -/
theorem zoom_in_iterate_ge_one (k : Nat) : ∀ a : Int × Bool, 1 ≤ a.1 →
    1 ≤ (zoom_in_step^[k] a).1 := by
  induction k with
  | zero => intro a h; exact h
  | succ n ih =>
    intro a h
    rw [Function.iterate_succ_apply]
    exact ih _ (zoom_in_step_ge_one a h).1

set_option maxRecDepth 100000 in
/-- Fifty zoom-in steps from scale 1024 end at scale 1, with the lock set. -/
theorem zoom_in_fifty : zoom_in_step^[50] (1024, false) = (1, true) := by decide

/-- The point block leaves the view and the zoom lock as they are. -/
theorem update_point_view {E : Externals} (input : MiltonInput)
    (p : MiltonState E × MiltonRenderFlags) :
    (update_point input p).1.view = p.1.view ∧
      (update_point input p).1.debug_scale_lock = p.1.debug_scale_lock := by
  unfold update_point
  cases input.point with
  | none => exact ⟨rfl, rfl⟩
  | some point =>
    simp only [update_wheel, pick_or_draw, draw_point]
    split_ifs <;> exact ⟨rfl, rfl⟩

/-- The scale and the zoom lock after an update that returns. -/
theorem milton_update_scale {E : Externals} (s : MiltonState E) (input : MiltonInput)
    (p : MiltonState E × MiltonRenderFlags) (h : milton_update s input = .ok p) :
    p.1.view.scale =
        (if input.scale ≠ 0 then (zoom_scale input.scale s.view.scale s.debug_scale_lock).1
          else s.view.scale) ∧
      p.1.debug_scale_lock =
        (if input.scale ≠ 0 then (zoom_scale input.scale s.view.scale s.debug_scale_lock).2
          else s.debug_scale_lock) := by
  by_cases hne : input.flags &&& MiltonInputFlags_UNDO ≠ 0 ∧ 0 < s.working_stroke.num_points
  · rw [milton_update_error s input hne] at h
    exact Except.noConfusion h
  · rw [milton_update_eq s input _ rfl hne] at h
    injection h with h
    subst h
    simp only [update_end_stroke_fst, (update_point_view _ _).1, (update_point_view _ _).2,
      update_reset_fst, update_fast_draw_fst, update_full_refresh_fst, update_zoom_fst,
      update_mode_fst, and_self]

/-- A run of updates that each zoom in and carry no undo flag returns, and its
scale and zoom lock are those of as many zoom-in steps. -/
theorem zoom_in_run {E : Externals} (inputs : List MiltonInput) :
    ∀ s : MiltonState E,
      (∀ input ∈ inputs, 0 < input.scale ∧ input.flags &&& MiltonInputFlags_UNDO = 0) →
      ∃ s1, milton_run s inputs = .ok s1 ∧
        (s1.view.scale, s1.debug_scale_lock) =
          zoom_in_step^[inputs.length] (s.view.scale, s.debug_scale_lock) := by
  induction inputs with
  | nil => intro s _; exact ⟨s, rfl, rfl⟩
  | cons input rest ih =>
    intro s hin
    obtain ⟨hpos, hu⟩ := hin input (List.mem_cons_self _ _)
    obtain ⟨p, hp⟩ := milton_update_ok s input (fun h => h.1 hu)
    obtain ⟨h1, h2⟩ := milton_update_scale s input p hp
    have hne : input.scale ≠ 0 := by omega
    rw [if_pos hne, zoom_scale_of_pos _ _ _ hpos] at h1 h2
    obtain ⟨s1, g1, g2⟩ := ih p.1 (fun i hi => hin i (List.mem_cons_of_mem _ hi))
    refine ⟨s1, by simp only [milton_run, hp, g1], ?_⟩
    rw [g2, List.length_cons, Function.iterate_succ_apply, h1, h2]

/-- C10: zoom-in never drives the scale below 1. For every state `s` with
`view->scale >= 1` and every input with `scale > 0`, the update returns unless
it is an undo with a stroke in progress, and whenever it returns `view->scale`
is at least 1 and equal to 1 if it was 1. Starting from scale 1024 with
`debug_scale_lock` false (its value at program start), along fifty consecutive
zoom-in updates (inputs with `scale > 0`, no UNDO flag) every update returns,
every intermediate scale is at least 1, and the final scale is 1. -/
theorem zoom_in_clamps_at_one {E : Externals} (s s0 : MiltonState E) (input : MiltonInput)
    (inputs : List MiltonInput)
    (hs : 1 ≤ s.view.scale) (hi : 0 < input.scale)
    (h0 : s0.view.scale = 1024) (hlock : s0.debug_scale_lock = false)
    (hlen : inputs.length = 50)
    (hin : ∀ i ∈ inputs, 0 < i.scale ∧ i.flags &&& MiltonInputFlags_UNDO = 0) :
    ((¬ (input.flags &&& MiltonInputFlags_UNDO ≠ 0 ∧ 0 < s.working_stroke.num_points) →
        ∃ p, milton_update s input = .ok p) ∧
      ∀ p, milton_update s input = .ok p →
        1 ≤ p.1.view.scale ∧ (s.view.scale = 1 → p.1.view.scale = 1)) ∧
    (∀ k : Nat, ∃ s1, milton_run s0 (inputs.take k) = .ok s1 ∧ 1 ≤ s1.view.scale) ∧
    ∃ s1, milton_run s0 inputs = .ok s1 ∧ s1.view.scale = 1 := by
  refine ⟨⟨milton_update_ok s input, fun p hp => ?_⟩, fun k => ?_, ?_⟩
  · obtain ⟨h1, -⟩ := milton_update_scale s input p hp
    have hne : input.scale ≠ 0 := by omega
    rw [if_pos hne, zoom_scale_of_pos _ _ _ hi] at h1
    rw [h1]
    exact zoom_in_step_ge_one (s.view.scale, s.debug_scale_lock) hs
  · obtain ⟨s1, g1, g2⟩ := zoom_in_run (inputs.take k) s0
      (fun i hi => hin i (List.mem_of_mem_take hi))
    refine ⟨s1, g1, ?_⟩
    have h3 := zoom_in_iterate_ge_one (inputs.take k).length (s0.view.scale, s0.debug_scale_lock)
      (by simp only [h0]; decide)
    rw [← g2] at h3
    exact h3
  · obtain ⟨s1, g1, g2⟩ := zoom_in_run inputs s0 hin
    refine ⟨s1, g1, ?_⟩
    rw [hlen, h0, hlock, zoom_in_fifty] at g2
    exact congrArg Prod.fst g2

/-- C10, evaluated: the sample state (scale 1024) and fifty zoom-in inputs. -/
theorem zoom_in_clamps_at_one_witness :
    ((¬ (zoom_in_input.flags &&& MiltonInputFlags_UNDO ≠ 0 ∧
          0 < sample_state.working_stroke.num_points) →
        ∃ p, milton_update sample_state zoom_in_input = .ok p) ∧
      ∀ p, milton_update sample_state zoom_in_input = .ok p →
        1 ≤ p.1.view.scale ∧ (sample_state.view.scale = 1 → p.1.view.scale = 1)) ∧
    (∀ k : Nat, ∃ s1,
      milton_run sample_state ((List.replicate 50 zoom_in_input).take k) = .ok s1 ∧
        1 ≤ s1.view.scale) ∧
    ∃ s1, milton_run sample_state (List.replicate 50 zoom_in_input) = .ok s1 ∧
      s1.view.scale = 1 :=
  zoom_in_clamps_at_one sample_state sample_state zoom_in_input
    (List.replicate 50 zoom_in_input) (by decide) (by decide) (by decide) (by decide)
    (List.length_replicate 50 zoom_in_input)
    (fun i hi => by rw [List.eq_of_mem_replicate hi]; decide)

/-! ## The upper end of the zoom range -/

/-- Rounding to nearest goes at most one above the quotient rounded down. -/
theorem round_half_even_le (a b : Nat) : round_half_even a b ≤ a / b + 1 := by
  unfold round_half_even
  split_ifs <;> omega

/-- The leading bit of a number below `2 ^ (k + 1)` is at most `k`. -/
theorem leading_bit_le : ∀ (fuel n k : Nat), n < 2 ^ (k + 1) → leading_bit fuel n ≤ k := by
  intro fuel
  induction fuel with
  | zero => intro n k _; simp [leading_bit]
  | succ f ih =>
    intro n k h
    unfold leading_bit
    split_ifs with h2
    · cases k with
      | zero => simp at h; omega
      | succ j =>
        have h3 : n / 2 < 2 ^ (j + 1) := by
          rw [pow_succ] at h
          omega
        have h4 := ih (n / 2) j h3
        omega
    · omega

/-- A number below `2 ^ 24` is its own float cast. -/
theorem f32_of_nat_small (n : Nat) (h : n < 2 ^ 24) : f32_of_nat n = n := by
  unfold f32_of_nat
  rw [if_pos (leading_bit_le n n 23 h)]

/-- An upper bound for the cast of the float nearest to a fraction below
`2 ^ (k + 1)`, `k <= 22`: the float has at least `23 - k` fraction bits, and the
cast stays below `m` if the fraction is more than one unit of the last place
below `m`. -/
theorem f32_quot_trunc_lt (a b m k : Nat) (hb : 0 < b) (hk : k ≤ 22)
    (hq : a / b < 2 ^ (k + 1))
    (h : ∀ s : Nat, 2 ^ (23 - k) ≤ s → a * s + b < m * s * b) :
    f32_quot_trunc a b < m := by
  have he := leading_bit_le (a / b) (a / b) k hq
  unfold f32_quot_trunc
  rw [if_neg (by omega)]
  have hs : 0 < 2 ^ (23 - leading_bit (a / b) (a / b)) := by positivity
  rw [Nat.div_lt_iff_lt_mul hs]
  have h1 := round_half_even_le (a * 2 ^ (23 - leading_bit (a / b) (a / b))) b
  have h2 := h (2 ^ (23 - leading_bit (a / b) (a / b)))
    (Nat.pow_le_pow_right (by norm_num) (by omega))
  have h3 : a * 2 ^ (23 - leading_bit (a / b) (a / b)) / b + 1 <
      m * 2 ^ (23 - leading_bit (a / b) (a / b)) := by
    rw [← Nat.add_div_right _ hb, Nat.div_lt_iff_lt_mul hb]
    exact h2
  omega

/-- Below 10000, `(i32)(scale * 1.3f)` is at most `13 * scale / 10`. -/
theorem scale_mul_factor_le (scale : Int) (h1 : 0 ≤ scale) (h2 : scale < 10000) :
    scale_mul_factor scale ≤ 13 * scale / 10 := by
  unfold scale_mul_factor
  rcases Int.eq_ofNat_of_zero_le h1 with ⟨n, rfl⟩
  have hn : n < 10000 := by omega
  rcases Nat.eq_zero_or_pos n with h0 | h0
  · subst h0; decide
  · rw [Int.sign_eq_one_of_pos (by omega), one_mul, Int.natAbs_ofNat,
      f32_of_nat_small n (by omega)]
    have hlt : f32_quot_trunc (n * scale_factor_num) scale_factor_den < 13 * n / 10 + 1 := by
      apply f32_quot_trunc_lt _ _ _ 13 (by decide) (by decide)
      · unfold scale_factor_num scale_factor_den
        omega
      · intro s hs
        unfold scale_factor_num scale_factor_den
        have hs16 : 1024 ≤ s := by simpa using hs
        have hm : 13 * n + 1 ≤ 10 * (13 * n / 10 + 1) := by omega
        have hms : (13 * n + 1) * s ≤ 10 * (13 * n / 10 + 1) * s := Nat.mul_le_mul_right s hm
        nlinarith
    have hle : (f32_quot_trunc (n * scale_factor_num) scale_factor_den : Int) ≤
        (13 * n / 10 : Nat) := by
      exact_mod_cast Nat.lt_succ_iff.mp hlt
    push_cast at hle
    exact hle

/-- From 2 to 10000, `(i32)(scale / 1.3f)` is at most `scale`. -/
theorem scale_div_factor_le (scale : Int) (h1 : 2 ≤ scale) (h2 : scale ≤ 10000) :
    scale_div_factor scale ≤ scale := by
  unfold scale_div_factor
  rcases Int.eq_ofNat_of_zero_le (by omega : 0 ≤ scale) with ⟨n, rfl⟩
  have hn : n ≤ 10000 := by omega
  rw [Int.sign_eq_one_of_pos (by omega), one_mul, Int.natAbs_ofNat,
    f32_of_nat_small n (by omega)]
  have hlt : f32_quot_trunc (n * scale_factor_den) scale_factor_num < n + 1 := by
    apply f32_quot_trunc_lt _ _ _ 13 (by decide) (by decide)
    · unfold scale_factor_num scale_factor_den
      omega
    · intro s hs
      unfold scale_factor_num scale_factor_den
      have hs16 : 1024 ≤ s := by simpa using hs
      nlinarith
  exact_mod_cast Nat.lt_succ_iff.mp hlt

/-- A zoom step from a scale in [1, 10000] ends at most at 12999, and a zoom-out
step from 10000 or more changes nothing. -/
theorem zoom_scale_le (input_scale scale : Int) (lock : Bool) :
    (1 ≤ scale → scale ≤ 10000 → (zoom_scale input_scale scale lock).1 ≤ 12999) ∧
    (input_scale < 0 → 10000 ≤ scale → zoom_scale input_scale scale lock = (scale, lock)) := by
  unfold zoom_scale view_scale_limit
  constructor
  · intro h1 h2
    by_cases c1 : lock = false ∧ 0 < input_scale ∧ 2 ≤ scale
    · rw [if_pos c1]
      have h3 := scale_div_factor_le scale c1.2.2 h2
      simp only
      omega
    · rw [if_neg c1]
      by_cases c2 : input_scale < 0 ∧ scale < 10000
      · rw [if_pos c2]
        have h3 := scale_mul_factor_le scale (by omega) c2.2
        simp only
        omega
      · rw [if_neg c2]
        simp only
        omega
  · intro h1 h2
    rw [if_neg (fun c => by omega), if_neg (fun c => by omega)]

set_option maxRecDepth 100000 in
/-- C11 as stated fails: from the sample state (scale 1024) eight zoom-out updates
lead to scale 8367, which lies in [1, 10000], and one more zoom-out update ends
with `view->scale = 10878`, above 10000. -/
theorem zoom_out_exceeds_limit :
    ∃ s1 p, milton_run sample_state (List.replicate 8 zoom_out_input) = .ok s1 ∧
      1 ≤ s1.view.scale ∧ s1.view.scale ≤ 10000 ∧
      milton_update s1 zoom_out_input = .ok p ∧
      p.1.view.scale = 10878 ∧ ¬ p.1.view.scale ≤ 10000 := by
  refine ⟨_, _, rfl, by decide, by decide, rfl, by decide, by decide⟩

/-- C11, amended: the zoom-out step is gated at 10000, not clamped. For every
`milton_update` with a nonzero input scale, the update returns unless it is an
undo with a stroke in progress, and whenever it returns: from a view scale in
[1, 10000], `view->scale` is at most 12999 after the update; and a zoom-out
update (negative input scale) on a scale of 10000 or more leaves the scale
unchanged. -/
theorem zoom_gated {E : Externals} (s : MiltonState E) (input : MiltonInput)
    (hi : input.scale ≠ 0) :
    (¬ (input.flags &&& MiltonInputFlags_UNDO ≠ 0 ∧ 0 < s.working_stroke.num_points) →
      ∃ p, milton_update s input = .ok p) ∧
    ∀ p, milton_update s input = .ok p →
      (1 ≤ s.view.scale → s.view.scale ≤ 10000 → p.1.view.scale ≤ 12999) ∧
      (input.scale < 0 → 10000 ≤ s.view.scale → p.1.view.scale = s.view.scale) := by
  refine ⟨milton_update_ok s input, fun p hp => ?_⟩
  obtain ⟨g1, -⟩ := milton_update_scale s input p hp
  rw [if_pos hi] at g1
  rw [g1]
  refine ⟨(zoom_scale_le input.scale s.view.scale s.debug_scale_lock).1, fun hn h3 => ?_⟩
  rw [(zoom_scale_le input.scale s.view.scale s.debug_scale_lock).2 hn h3]

set_option maxRecDepth 100000 in
/-- C11 amended, evaluated. A zoom-out update on the sample state (scale 1024)
returns with a scale of at most 12999; and on the sample state after nine
zoom-out updates, whose scale is 10878, a further zoom-out update returns and
leaves the scale at 10878. -/
theorem zoom_gated_witness :
    (∃ p, milton_update sample_state zoom_out_input = .ok p ∧ p.1.view.scale ≤ 12999) ∧
    zoomed_out_state.view.scale = 10878 ∧
    (∃ p, milton_update zoomed_out_state zoom_out_input = .ok p) ∧
    (∀ p, milton_update zoomed_out_state zoom_out_input = .ok p →
      p.1.view.scale = zoomed_out_state.view.scale) :=
  ⟨⟨_, rfl, ((zoom_gated sample_state zoom_out_input (by decide)).2 _ rfl).1
      (by decide) (by decide)⟩,
    by decide,
    (zoom_gated zoomed_out_state zoom_out_input (by decide)).1 (by decide),
    fun p h => ((zoom_gated zoomed_out_state zoom_out_input (by decide)).2 p h).2
      (by decide) (by decide)⟩

/-! ## Reachable states -/

/-- A resize that returns changes nothing but the view, and keeps the scale, the
tile radius and the downsampling factor of the view. -/
theorem milton_resize_frame {E : Externals} (fuel : Nat) (s s1 : MiltonState E)
    (pan_delta new_screen_size : v2i)
    (h : milton_resize fuel s pan_delta new_screen_size = .ok s1) :
    ∃ v : CanvasView, s1 = { s with view := v } ∧ v.scale = s.view.scale ∧
      v.canvas_tile_radius = s.view.canvas_tile_radius ∧
      v.downsampling_factor = s.view.downsampling_factor := by
  simp only [milton_resize] at h
  split at h
  · split at h
    · exact Except.noConfusion h
    · split at h
      · exact Except.noConfusion h
      · injection h with h
        exact ⟨_, h.symm, rfl, rfl, rfl⟩
  · exact Except.noConfusion h

/-- A property that holds at the start and is kept by every update and every
resize that return holds in every reachable state. -/
theorem milton_calls_invariant {E : Externals} (P : MiltonState E → Prop)
    (hupdate : ∀ s input p, P s → milton_update s input = .ok p → P p.1)
    (hresize : ∀ fuel s pan_delta new_screen_size s1, P s →
      milton_resize fuel s pan_delta new_screen_size = .ok s1 → P s1)
    (calls : List Call) :
    ∀ s0 s : MiltonState E, P s0 → milton_calls s0 calls = .ok s → P s := by
  induction calls with
  | nil =>
    intro s0 s h0 h
    injection h with h
    exact h ▸ h0
  | cons c rest ih =>
    intro s0 s h0 h
    unfold milton_calls at h
    cases hc : milton_call s0 c with
    | error e => rw [hc] at h; exact Except.noConfusion h
    | ok s1 =>
      rw [hc] at h
      refine ih s1 s ?_ h
      cases c with
      | update input =>
        cases hu : milton_update s0 input with
        | error e => simp only [milton_call, hu] at hc; exact Except.noConfusion hc
        | ok p =>
          simp only [milton_call, hu] at hc
          injection hc with hc
          exact hc ▸ hupdate s0 input p h0 hu
      | resize fuel pd nss => exact hresize fuel s0 pd nss s1 h0 hc

/-- The point block leaves the stroke store, the brush size, the eraser brush,
the mode and the radius of the brush as they are. -/
theorem update_point_frame {E : Externals} (input : MiltonInput)
    (p : MiltonState E × MiltonRenderFlags) :
    (update_point input p).1.num_strokes = p.1.num_strokes ∧
      (update_point input p).1.strokes = p.1.strokes ∧
      (update_point input p).1.brush_size = p.1.brush_size ∧
      (update_point input p).1.eraser_brush = p.1.eraser_brush ∧
      (update_point input p).1.current_mode = p.1.current_mode ∧
      (update_point input p).1.brush.radius = p.1.brush.radius := by
  unfold update_point
  cases input.point with
  | none => exact ⟨rfl, rfl, rfl, rfl, rfl, rfl⟩
  | some point =>
    simp only [update_wheel, pick_or_draw, draw_point]
    split_ifs <;> exact ⟨rfl, rfl, rfl, rfl, rfl, rfl⟩

/-- With a point, the point block ends with a redo count of zero. -/
theorem update_point_num_redos {E : Externals} (input : MiltonInput)
    (p : MiltonState E × MiltonRenderFlags) (pt : v2i) (h : input.point = some pt) :
    (update_point input p).1.num_redos = 0 := by
  unfold update_point
  rw [h]

/-- With a point, the working stroke and `canvas_blocked` after the point block:
the picker takes the point when no stroke is in progress and the point is inside
it, and blocks the canvas; otherwise the point is drawn if the canvas is not
blocked. -/
theorem update_point_some {E : Externals} (input : MiltonInput)
    (p : MiltonState E × MiltonRenderFlags) (pt : v2i) (h : input.point = some pt) :
    (update_point input p).1.working_stroke =
        (if is_user_drawing p.1 = false ∧ E.is_inside_picker p.1.picker pt = true then
          p.1.working_stroke
        else if p.1.canvas_blocked = false then (draw_point pt p.1).working_stroke
        else p.1.working_stroke) ∧
      (update_point input p).1.canvas_blocked =
        (if is_user_drawing p.1 = false ∧ E.is_inside_picker p.1.picker pt = true then true
        else p.1.canvas_blocked) := by
  unfold update_point
  rw [h]
  simp only [update_wheel, pick_or_draw]
  split_ifs <;> exact ⟨rfl, rfl⟩

/-! ## The redo count -/

/-- An update that carries a point and returns ends with a redo count of zero. -/
theorem point_clears_redos {E : Externals} (s : MiltonState E) (input : MiltonInput)
    (p : MiltonState E × MiltonRenderFlags) (hp : input.point ≠ none)
    (h : milton_update s input = .ok p) : p.1.num_redos = 0 := by
  by_cases hne : input.flags &&& MiltonInputFlags_UNDO ≠ 0 ∧ 0 < s.working_stroke.num_points
  · rw [milton_update_error s input hne] at h
    exact Except.noConfusion h
  · rw [milton_update_eq s input _ rfl hne] at h
    injection h with h
    subst h
    cases hpt : input.point with
    | none => exact absurd hpt hp
    | some pt => simp only [update_end_stroke_fst, update_point_num_redos _ _ pt hpt]

/-- An update keeps "a stroke in progress has no redo": if it holds before, it
holds after, and an update on a stroke in progress ends with a redo count of
zero. -/
theorem redo_invariant_step {E : Externals} (s : MiltonState E) (input : MiltonInput)
    (p : MiltonState E × MiltonRenderFlags)
    (hinv : 0 < s.working_stroke.num_points → s.num_redos = 0)
    (h : milton_update s input = .ok p) :
    (0 < p.1.working_stroke.num_points → p.1.num_redos = 0) ∧
      (0 < s.working_stroke.num_points → p.1.num_redos = 0) := by
  cases hp : input.point with
  | some pt =>
    have hz := point_clears_redos s input p (by rw [hp]; exact Option.noConfusion) h
    exact ⟨fun _ => hz, fun _ => hz⟩
  | none =>
    by_cases hne : input.flags &&& MiltonInputFlags_UNDO ≠ 0 ∧ 0 < s.working_stroke.num_points
    · rw [milton_update_error s input hne] at h
      exact Except.noConfusion h
    · rw [milton_update_eq s input _ rfl hne] at h
      injection h with h
      subst h
      simp only [update_end_stroke_fst, update_point_none _ _ hp, update_reset_fst,
        update_fast_draw_fst, update_full_refresh_fst, update_zoom_fst, update_mode_fst]
      have key : 0 < s.working_stroke.num_points →
          (if input.flags &&& MiltonInputFlags_UNDO ≠ 0 then
            if s.working_stroke.num_points = 0 ∧ 0 < s.num_strokes then s.num_redos + 1
            else s.num_redos
          else if input.flags &&& MiltonInputFlags_REDO ≠ 0 ∧ 0 < s.num_redos then
            s.num_redos - 1
          else s.num_redos) = 0 := by
        intro hw
        have hr := hinv hw
        have hu : ¬ input.flags &&& MiltonInputFlags_UNDO ≠ 0 := fun hu => hne ⟨hu, hw⟩
        rw [if_neg hu, hr]
        simp
      refine ⟨fun hw => key ?_, key⟩
      revert hw
      split_ifs <;> intro hw <;> first | exact hw | omega

/-- In every state reachable from a state where a stroke in progress has no redo,
a stroke in progress has no redo. -/
theorem redo_invariant_reachable {E : Externals} (calls : List Call) (s0 s : MiltonState E)
    (h0 : 0 < s0.working_stroke.num_points → s0.num_redos = 0)
    (hreach : milton_calls s0 calls = .ok s) :
    0 < s.working_stroke.num_points → s.num_redos = 0 := by
  refine milton_calls_invariant
    (fun x : MiltonState E => 0 < x.working_stroke.num_points → x.num_redos = 0)
    (fun x input p hx hu => (redo_invariant_step x input p hx hu).1)
    (fun fuel x pd nss x1 hx hr => ?_) calls s0 s h0 hreach
  obtain ⟨v, hv, -⟩ := milton_resize_frame fuel x x1 pd nss hr
  subst hv
  exact hx

/-- C12: redo history is linear. For every state `t`, an update whose input
carries a point ends, whenever it returns, with `num_redos = 0` (and it returns
unless it is an undo with a stroke in progress). In every state `s` reachable
from an initial state `s0` with an empty working stroke by calls that return
(none takes the fatal undo-while-drawing path), a working stroke with at least
one point coexists only with `num_redos = 0`, and every update on such a state,
in particular the one that commits the stroke, leaves `num_redos` at zero. -/
theorem redo_history_linear {E : Externals} (s0 s t : MiltonState E) (calls : List Call)
    (input : MiltonInput)
    (h0 : s0.working_stroke.num_points = 0)
    (hreach : milton_calls s0 calls = .ok s) :
    (∀ p, input.point ≠ none → milton_update t input = .ok p → p.1.num_redos = 0) ∧
    (input.point ≠ none →
      ¬ (input.flags &&& MiltonInputFlags_UNDO ≠ 0 ∧ 0 < t.working_stroke.num_points) →
      ∃ p, milton_update t input = .ok p) ∧
    (0 < s.working_stroke.num_points → s.num_redos = 0) ∧
    (0 < s.working_stroke.num_points →
      ∀ p, milton_update s input = .ok p → p.1.num_redos = 0) := by
  have hinv := redo_invariant_reachable calls s0 s (fun h => by omega) hreach
  exact ⟨fun p hp h => point_clears_redos t input p hp h,
    fun _ hne => milton_update_ok t input hne, hinv,
    fun hw p h => (redo_invariant_step s input p hinv h).2 hw⟩

/-- C12, evaluated: the state `t` has two strokes and three redos; the reachable
state is the sample state after a point, a resize and a second point (a stroke
of two points in progress); the input carries a point and END_STROKE. -/
theorem redo_history_linear_witness :
    (∀ p, (point_input 4 310 300).point ≠ none →
      milton_update { two_strokes_state with num_redos := 3 } (point_input 4 310 300) = .ok p →
      p.1.num_redos = 0) ∧
    ((point_input 4 310 300).point ≠ none →
      ¬ ((point_input 4 310 300).flags &&& MiltonInputFlags_UNDO ≠ 0 ∧
        0 < ({ two_strokes_state with num_redos := 3 } :
          MiltonState sample_externals).working_stroke.num_points) →
      ∃ p, milton_update { two_strokes_state with num_redos := 3 } (point_input 4 310 300) =
        .ok p) ∧
    (0 < (state_after sample_state
        [Call.update (point_input 0 300 300), Call.resize 0 ⟨0, 0⟩ ⟨800, 600⟩,
          Call.update (point_input 0 305 300)]).working_stroke.num_points →
      (state_after sample_state
        [Call.update (point_input 0 300 300), Call.resize 0 ⟨0, 0⟩ ⟨800, 600⟩,
          Call.update (point_input 0 305 300)]).num_redos = 0) ∧
    (0 < (state_after sample_state
        [Call.update (point_input 0 300 300), Call.resize 0 ⟨0, 0⟩ ⟨800, 600⟩,
          Call.update (point_input 0 305 300)]).working_stroke.num_points →
      ∀ p, milton_update (state_after sample_state
        [Call.update (point_input 0 300 300), Call.resize 0 ⟨0, 0⟩ ⟨800, 600⟩,
          Call.update (point_input 0 305 300)]) (point_input 4 310 300) = .ok p →
      p.1.num_redos = 0) :=
  redo_history_linear sample_state _ { two_strokes_state with num_redos := 3 }
    [Call.update (point_input 0 300 300), Call.resize 0 ⟨0, 0⟩ ⟨800, 600⟩,
      Call.update (point_input 0 305 300)] (point_input 4 310 300) (by decide) rfl

/-! ## The brush of the working stroke -/

/-- With a point that the picker does not take, on a canvas that is not blocked,
the point block draws the point and clears the redo count. -/
theorem update_point_draw {E : Externals} (input : MiltonInput)
    (p : MiltonState E × MiltonRenderFlags) (pt : v2i) (h : input.point = some pt)
    (hpick : ¬ (is_user_drawing p.1 = false ∧ E.is_inside_picker p.1.picker pt = true))
    (hb : p.1.canvas_blocked = false) :
    (update_point input p).1 = { draw_point pt p.1 with num_redos := 0 } := by
  unfold update_point
  rw [h]
  simp only [update_wheel, pick_or_draw, if_neg hpick, if_pos hb]
  have hb2 : ¬ ((draw_point pt p.1).canvas_blocked = true ∧
      E.picker_wheel_active (draw_point pt p.1).picker = true) := by
    intro hc
    have hcb : (draw_point pt p.1).canvas_blocked = p.1.canvas_blocked := rfl
    rw [hcb, hb] at hc
    exact Bool.noConfusion hc.1
  rw [if_neg hb2]

/-- Drawing a point sets the brush of the working stroke from the mode: the
drawing brush in brush mode, the eraser brush in eraser mode, no change in any
other mode. -/
theorem draw_point_brush {E : Externals} (pt : v2i) (s : MiltonState E) :
    (draw_point pt s).working_stroke.brush =
      (if s.current_mode = MiltonMode_BRUSH then s.brush
        else if s.current_mode = MiltonMode_ERASER then s.eraser_brush
        else s.working_stroke.brush) := by
  unfold draw_point
  split_ifs <;> rfl

/-- Drawing a point leaves the mode, the two brushes, the stroke count and
`canvas_blocked` as they are. -/
theorem draw_point_frame {E : Externals} (pt : v2i) (s : MiltonState E) :
    (draw_point pt s).current_mode = s.current_mode ∧
      (draw_point pt s).brush = s.brush ∧
      (draw_point pt s).eraser_brush = s.eraser_brush ∧
      (draw_point pt s).num_strokes = s.num_strokes ∧
      (draw_point pt s).canvas_blocked = s.canvas_blocked :=
  ⟨rfl, rfl, rfl, rfl, rfl⟩

/-- C13, amended: for every state whose working stroke already has at least one
point, a `milton_update` that carries a further point (canvas not blocked, no
UNDO and no RESET flag) returns and sets `working_stroke.brush` again: afterwards
it is the drawing brush of the state when `current_mode` is then `BRUSH`, the
eraser brush when it is `ERASER`, and its value before the update in any other
mode. The two brushes are those the zoom step of the same update leaves; they
are the ones before the update when the input scale is zero. -/
theorem further_point_recaptures_brush {E : Externals} (s : MiltonState E)
    (input : MiltonInput) (pt : v2i)
    (hw : 0 < s.working_stroke.num_points) (hb : s.canvas_blocked = false)
    (hp : input.point = some pt)
    (hu : input.flags &&& MiltonInputFlags_UNDO = 0)
    (hr : input.flags &&& MiltonInputFlags_RESET = 0) :
    ∃ p, milton_update s input = .ok p ∧
      p.1.working_stroke.brush =
        (if p.1.current_mode = MiltonMode_BRUSH then p.1.brush
          else if p.1.current_mode = MiltonMode_ERASER then p.1.eraser_brush
          else s.working_stroke.brush) ∧
      (input.scale = 0 → p.1.brush = s.brush ∧ p.1.eraser_brush = s.eraser_brush) := by
  refine ⟨_, milton_update_eq s input _ rfl (fun h => h.1 hu), ?_⟩
  simp only [update_end_stroke_fst]
  rw [update_point_draw input _ pt hp ?_ ?_]
  · simp only [draw_point_brush, (draw_point_frame _ _).1, (draw_point_frame _ _).2.1,
      (draw_point_frame _ _).2.2.1]
    constructor
    · simp only [update_reset_fst, update_fast_draw_fst, update_full_refresh_fst,
        update_zoom_fst, update_mode_fst]
    · intro h0
      simp only [update_reset_fst, update_fast_draw_fst, update_full_refresh_fst,
        update_zoom_fst, update_mode_fst, h0, ne_eq, not_true_eq_false, if_false, and_self]
  · simp only [update_reset_fst, update_fast_draw_fst, update_full_refresh_fst,
      update_zoom_fst, update_mode_fst, is_user_drawing, hr, ne_eq, not_true_eq_false, if_false]
    simp [hw]
  · simp only [update_reset_fst, update_fast_draw_fst, update_full_refresh_fst,
      update_zoom_fst, update_mode_fst]
    exact hb

/-- C13 as stated fails: from the sample state a first point starts a stroke with
brush radius 10240. A further point in an update that also zooms in is appended
and leaves the working stroke with another brush radius; and after an update
that only zooms in (the working stroke keeps its brush), a further point alone
is appended and leaves the working stroke with another brush radius. -/
theorem brush_recaptured_at_each_point :
    ∃ s1, milton_run sample_state [point_input 0 300 300] = .ok s1 ∧
      0 < s1.working_stroke.num_points ∧ s1.canvas_blocked = false ∧
      (∃ p, milton_update s1 ⟨MiltonInputFlags_NONE, some ⟨305, 300⟩, 1, ⟨0, 0⟩⟩ = .ok p ∧
        p.1.working_stroke.num_points = s1.working_stroke.num_points + 1 ∧
        p.1.working_stroke.brush.radius ≠ s1.working_stroke.brush.radius) ∧
      (∃ s2 p, milton_run s1 [zoom_in_input] = .ok s2 ∧
        s2.working_stroke.brush.radius = s1.working_stroke.brush.radius ∧
        milton_update s2 (point_input 0 305 300) = .ok p ∧
        p.1.working_stroke.num_points = s2.working_stroke.num_points + 1 ∧
        p.1.working_stroke.brush.radius ≠ s2.working_stroke.brush.radius) := by
  refine ⟨_, rfl, by decide, by decide, ⟨_, rfl, by decide, by decide⟩,
    ⟨_, _, rfl, by decide, rfl, by decide, by decide⟩⟩

/-- C13 amended, evaluated: the sample state after a first point, and a further
point. -/
theorem further_point_recaptures_brush_witness :
    ∃ p,
      milton_update (state_after sample_state [Call.update (point_input 0 300 300)])
        (point_input 0 305 300) = .ok p ∧
      p.1.working_stroke.brush =
        (if p.1.current_mode = MiltonMode_BRUSH then p.1.brush
          else if p.1.current_mode = MiltonMode_ERASER then p.1.eraser_brush
          else (state_after sample_state
            [Call.update (point_input 0 300 300)]).working_stroke.brush) ∧
      ((point_input 0 305 300).scale = 0 →
        p.1.brush = (state_after sample_state [Call.update (point_input 0 300 300)]).brush ∧
        p.1.eraser_brush =
          (state_after sample_state [Call.update (point_input 0 300 300)]).eraser_brush) :=
  further_point_recaptures_brush
    (state_after sample_state [Call.update (point_input 0 300 300)])
    (point_input 0 305 300) ⟨305, 300⟩
    (by decide) (by decide) rfl (by decide) (by decide)

/-! ## The quality redraw -/

/-- Setting the quality-redraw bit sets it. -/
theorem quality_bit_set (m : Nat) :
    (m ||| MiltonMode_REQUEST_QUALITY_REDRAW) &&& MiltonMode_REQUEST_QUALITY_REDRAW ≠ 0 := by
  unfold MiltonMode_REQUEST_QUALITY_REDRAW
  have h2 := Nat.and_two_pow (m ||| 4) 2
  simp at h2
  rw [h2]
  have h3 : Nat.testBit 4 2 = true := by decide
  simp [h3]

/-- The mode and the downsampling factor after an update that returns. -/
theorem milton_update_mode {E : Externals} (s : MiltonState E) (input : MiltonInput)
    (p : MiltonState E × MiltonRenderFlags) (h : milton_update s input = .ok p) :
    p.1.current_mode =
      (if input.flags &&& MiltonInputFlags_SET_MODE_ERASER ≠ 0 then MiltonMode_ERASER
        else if input.flags &&& MiltonInputFlags_SET_MODE_BRUSH ≠ 0 then MiltonMode_BRUSH
        else if input.flags &&& MiltonInputFlags_FAST_DRAW ≠ 0 then
          s.current_mode ||| MiltonMode_REQUEST_QUALITY_REDRAW
        else if s.current_mode &&& MiltonMode_REQUEST_QUALITY_REDRAW ≠ 0 then
          s.current_mode ^^^ MiltonMode_REQUEST_QUALITY_REDRAW
        else s.current_mode) ∧
      p.1.view.downsampling_factor =
        (if input.flags &&& MiltonInputFlags_FAST_DRAW ≠ 0 then 2 else 1) := by
  by_cases hne : input.flags &&& MiltonInputFlags_UNDO ≠ 0 ∧ 0 < s.working_stroke.num_points
  · rw [milton_update_error s input hne] at h
    exact Except.noConfusion h
  · rw [milton_update_eq s input _ rfl hne] at h
    injection h with h
    subst h
    simp only [update_end_stroke_fst, (update_point_frame _ _).2.2.2.2.1,
      (update_point_view _ _).1, update_reset_fst, update_fast_draw_fst,
      update_full_refresh_fst, update_zoom_fst, update_mode_fst, and_self]

/-- After an update that returns, the quality-redraw bit of the mode is set
exactly when the input has the fast-draw flag and neither mode flag. -/
theorem quality_bit_after_update {E : Externals} (s : MiltonState E) (input : MiltonInput)
    (p : MiltonState E × MiltonRenderFlags) (h : milton_update s input = .ok p) :
    p.1.current_mode &&& MiltonMode_REQUEST_QUALITY_REDRAW ≠ 0 ↔
      (input.flags &&& MiltonInputFlags_FAST_DRAW ≠ 0 ∧
        input.flags &&& MiltonInputFlags_SET_MODE_BRUSH = 0 ∧
        input.flags &&& MiltonInputFlags_SET_MODE_ERASER = 0) := by
  rw [(milton_update_mode s input p h).1]
  by_cases he : input.flags &&& MiltonInputFlags_SET_MODE_ERASER ≠ 0
  · rw [if_pos he]
    constructor
    · intro hx; exact absurd (by decide) hx
    · intro hx; exact absurd hx.2.2 he
  · rw [if_neg he]
    by_cases hb : input.flags &&& MiltonInputFlags_SET_MODE_BRUSH ≠ 0
    · rw [if_pos hb]
      constructor
      · intro hx; exact absurd (by decide) hx
      · intro hx; exact absurd hx.2.1 hb
    · rw [if_neg hb]
      by_cases hf : input.flags &&& MiltonInputFlags_FAST_DRAW ≠ 0
      · rw [if_pos hf]
        exact ⟨fun _ => ⟨hf, not_not.mp hb, not_not.mp he⟩, fun _ => quality_bit_set _⟩
      · rw [if_neg hf]
        by_cases hq : s.current_mode &&& MiltonMode_REQUEST_QUALITY_REDRAW ≠ 0
        · rw [if_pos hq]
          exact ⟨fun hx => absurd (quality_bit_cleared _ hq) hx, fun hx => absurd hx.1 hf⟩
        · rw [if_neg hq]
          exact ⟨fun hx => absurd hx hq, fun hx => absurd hx.1 hf⟩

/-- C14: the code at the failing input. On the sample state an update with
FAST_DRAW and SET_MODE_BRUSH returns with `downsampling_factor = 2` and
`current_mode = MiltonMode_BRUSH`: the REQUEST_QUALITY_REDRAW bit is clear
although the input has the FAST_DRAW flag. -/
theorem mode_switch_drops_quality_redraw :
    (flags_input 192).flags &&& MiltonInputFlags_FAST_DRAW ≠ 0 ∧
    (flags_input 192).flags &&& MiltonInputFlags_SET_MODE_BRUSH ≠ 0 ∧
    ∃ p, milton_update sample_state (flags_input 192) = .ok p ∧
      p.1.view.downsampling_factor = 2 ∧
      p.1.current_mode = MiltonMode_BRUSH ∧
      p.1.current_mode &&& MiltonMode_REQUEST_QUALITY_REDRAW = 0 := by
  refine ⟨by decide, by decide, _, rfl, by decide, by decide, by decide⟩

/-- C15: the code at the failing input. On the sample state an update with
FAST_DRAW and SET_MODE_BRUSH sets `downsampling_factor` to 2; the two following
updates with no flags, no point and zero scale both set it to 1, and neither of
them passes `full_redraw` to `milton_render`: the quality redraw never
happens. -/
theorem quality_redraw_lost_after_mode_switch :
    ∃ p q r, milton_update sample_state (flags_input 192) = .ok p ∧
      p.1.view.downsampling_factor = 2 ∧
      milton_update p.1 (flags_input 0) = .ok q ∧
      q.1.view.downsampling_factor = 1 ∧ q.2.full_redraw = false ∧
      milton_update q.1 (flags_input 0) = .ok r ∧
      r.1.view.downsampling_factor = 1 ∧ r.2.full_redraw = false := by
  refine ⟨_, _, _, rfl, by decide, rfl, by decide, by decide, rfl, by decide, by decide⟩

/-- The point block leaves the full-redraw flag as it is. -/
theorem update_point_snd {E : Externals} (input : MiltonInput)
    (p : MiltonState E × MiltonRenderFlags) :
    (update_point input p).2.full_redraw = p.2.full_redraw := by
  unfold update_point
  cases input.point with
  | none => rfl
  | some point =>
    simp only [update_wheel, pick_or_draw]
    split_ifs <;> rfl

/-- The end-of-stroke block leaves the render flags as they are. -/
theorem update_end_stroke_snd {E : Externals} (input : MiltonInput)
    (p : MiltonState E × MiltonRenderFlags) : (update_end_stroke input p).2 = p.2 := by
  unfold update_end_stroke
  split_ifs <;> rfl

/-- The full-redraw flag passed to `milton_render`: set exactly when a pending
quality redraw is consumed, or the input asks for a full refresh, a zoom or a
reset. -/
theorem milton_update_full_redraw {E : Externals} (s : MiltonState E) (input : MiltonInput)
    (p : MiltonState E × MiltonRenderFlags) (h : milton_update s input = .ok p) :
    p.2.full_redraw = true ↔
      ((input.flags &&& MiltonInputFlags_FAST_DRAW = 0 ∧
          s.current_mode &&& MiltonMode_REQUEST_QUALITY_REDRAW ≠ 0) ∨
        input.flags &&& MiltonInputFlags_FULL_REFRESH ≠ 0 ∨ input.scale ≠ 0 ∨
        input.flags &&& MiltonInputFlags_RESET ≠ 0) := by
  by_cases hne : input.flags &&& MiltonInputFlags_UNDO ≠ 0 ∧ 0 < s.working_stroke.num_points
  · rw [milton_update_error s input hne] at h
    exact Except.noConfusion h
  · rw [milton_update_eq s input _ rfl hne] at h
    injection h with h
    subst h
    rw [update_end_stroke_snd, update_point_snd]
    have hmode : ∀ q : MiltonState E × MiltonRenderFlags, (update_mode input q).2 = q.2 := by
      intro q
      unfold update_mode
      split_ifs <;> rfl
    unfold update_reset
    by_cases h5 : input.flags &&& MiltonInputFlags_RESET = 0
    · rw [if_neg (not_not.mpr h5), hmode]
      unfold update_zoom update_full_refresh update_fast_draw MiltonRenderFlags_none
      by_cases h1 : input.flags &&& MiltonInputFlags_FAST_DRAW = 0 <;>
      by_cases h2 : s.current_mode &&& MiltonMode_REQUEST_QUALITY_REDRAW = 0 <;>
      by_cases h3 : input.flags &&& MiltonInputFlags_FULL_REFRESH = 0 <;>
      by_cases h4 : input.scale = 0 <;>
      simp [h1, h2, h3, h4, h5]
    · rw [if_pos h5]
      simp [h5]

/-- The quality redraw in the absence of mode flags: after an update with
FAST_DRAW and neither mode flag, which sets `downsampling_factor` to 2, two
following updates with no flags, no point and zero scale both set
`downsampling_factor` to 1, the first passes `full_redraw` to `milton_render`
and the second does not. -/
theorem fast_draw_redraw_once {E : Externals} (s : MiltonState E) (f a b : MiltonInput)
    (hf : f.flags &&& MiltonInputFlags_FAST_DRAW ≠ 0)
    (hmb : f.flags &&& MiltonInputFlags_SET_MODE_BRUSH = 0)
    (hme : f.flags &&& MiltonInputFlags_SET_MODE_ERASER = 0)
    (hu : ¬ (f.flags &&& MiltonInputFlags_UNDO ≠ 0 ∧ 0 < s.working_stroke.num_points))
    (ha : a.flags = MiltonInputFlags_NONE ∧ a.point = none ∧ a.scale = 0)
    (hb : b.flags = MiltonInputFlags_NONE ∧ b.point = none ∧ b.scale = 0) :
    ∃ p q r, milton_update s f = .ok p ∧ p.1.view.downsampling_factor = 2 ∧
      milton_update p.1 a = .ok q ∧ q.1.view.downsampling_factor = 1 ∧
      q.2.full_redraw = true ∧
      milton_update q.1 b = .ok r ∧ r.1.view.downsampling_factor = 1 ∧
      r.2.full_redraw = false := by
  have hnone : ∀ bit : Nat, MiltonInputFlags_NONE &&& bit = 0 := fun bit => by
    simp [MiltonInputFlags_NONE]
  obtain ⟨p, hp⟩ := milton_update_ok s f hu
  obtain ⟨q, hq⟩ := milton_update_ok p.1 a (fun h => h.1 (by rw [ha.1]; exact hnone _))
  obtain ⟨r, hr⟩ := milton_update_ok q.1 b (fun h => h.1 (by rw [hb.1]; exact hnone _))
  have hpbit := (quality_bit_after_update s f p hp).2 ⟨hf, hmb, hme⟩
  have hqbit : ¬ q.1.current_mode &&& MiltonMode_REQUEST_QUALITY_REDRAW ≠ 0 := fun h =>
    ((quality_bit_after_update p.1 a q hq).1 h).1 (by rw [ha.1]; exact hnone _)
  refine ⟨p, q, r, hp, ?_, hq, ?_, ?_, hr, ?_, ?_⟩
  · rw [(milton_update_mode s f p hp).2, if_pos hf]
  · rw [(milton_update_mode p.1 a q hq).2, if_neg (by rw [ha.1]; exact not_not.mpr (hnone _))]
  · exact (milton_update_full_redraw p.1 a q hq).2
      (Or.inl ⟨by rw [ha.1]; exact hnone _, hpbit⟩)
  · rw [(milton_update_mode q.1 b r hr).2, if_neg (by rw [hb.1]; exact not_not.mpr (hnone _))]
  · cases hfr : r.2.full_redraw with
    | false => rfl
    | true =>
      rcases (milton_update_full_redraw q.1 b r hr).1 hfr with h | h | h | h
      · exact absurd h.2 hqbit
      · exact absurd (by rw [hb.1]; exact hnone _) h
      · exact absurd hb.2.2 h
      · exact absurd (by rw [hb.1]; exact hnone _) h

/-! ## The radii of the brushes -/

/-- An update that returns keeps both brush radii equal to the brush size times
the scale. -/
theorem radii_step {E : Externals} (s : MiltonState E) (input : MiltonInput)
    (p : MiltonState E × MiltonRenderFlags)
    (hinv : s.brush.radius = s.brush_size * s.view.scale ∧
      s.eraser_brush.radius = s.brush_size * s.view.scale)
    (h : milton_update s input = .ok p) :
    p.1.brush.radius = p.1.brush_size * p.1.view.scale ∧
      p.1.eraser_brush.radius = p.1.brush_size * p.1.view.scale := by
  by_cases hne : input.flags &&& MiltonInputFlags_UNDO ≠ 0 ∧ 0 < s.working_stroke.num_points
  · rw [milton_update_error s input hne] at h
    exact Except.noConfusion h
  · rw [milton_update_eq s input _ rfl hne] at h
    injection h with h
    subst h
    simp only [update_end_stroke_fst, (update_point_frame _ _).2.2.1,
      (update_point_frame _ _).2.2.2.1, (update_point_frame _ _).2.2.2.2.2,
      (update_point_view _ _).1, update_reset_fst, update_fast_draw_fst,
      update_full_refresh_fst, update_zoom_fst, update_mode_fst]
    by_cases h0 : input.scale ≠ 0
    · simp only [if_pos h0, and_self]
    · simp only [if_neg h0]
      exact hinv

/-- C16: in every state reachable from `milton_init` by `milton_update` and
`milton_resize` calls that return, the drawing brush and the eraser brush have
the same radius and it equals `brush_size * view->scale`; and after every
further update that returns, whether or not it changes `view->scale`, both radii
equal `brush_size` times the new scale. -/
theorem brush_radii_follow_scale {E : Externals} (I : InitExternals E) (m s : MiltonState E)
    (max_width max_height : Int) (calls : List Call) (input : MiltonInput)
    (hreach : milton_calls (milton_init I m max_width max_height) calls = .ok s) :
    (s.brush.radius = s.brush_size * s.view.scale ∧
      s.eraser_brush.radius = s.brush_size * s.view.scale ∧
      s.brush.radius = s.eraser_brush.radius) ∧
    ∀ p, milton_update s input = .ok p →
      p.1.brush.radius = p.1.brush_size * p.1.view.scale ∧
      p.1.eraser_brush.radius = p.1.brush_size * p.1.view.scale := by
  have hinv : s.brush.radius = s.brush_size * s.view.scale ∧
      s.eraser_brush.radius = s.brush_size * s.view.scale := by
    refine milton_calls_invariant
      (fun x : MiltonState E => x.brush.radius = x.brush_size * x.view.scale ∧
        x.eraser_brush.radius = x.brush_size * x.view.scale)
      (fun x i p hx hu => radii_step x i p hx hu)
      (fun fuel x pd nss x1 hx hr => ?_) calls _ s ⟨rfl, rfl⟩ hreach
    obtain ⟨v, hv, hsc, -⟩ := milton_resize_frame fuel x x1 pd nss hr
    subst hv
    simp only [hsc]
    exact hx
  exact ⟨⟨hinv.1, hinv.2, by rw [hinv.1, hinv.2]⟩, fun p hp => radii_step s input p hinv hp⟩

/-- C16, evaluated: `milton_init` on zeroed memory with a 4096 x 2160 raster, then
a zoom-out update, a resize and a point update; the further update zooms in. -/
theorem brush_radii_follow_scale_witness :
    ((state_after (milton_init sample_init zeroed_state 4096 2160)
        [Call.update zoom_out_input, Call.resize 0 ⟨0, 0⟩ ⟨800, 600⟩,
          Call.update (point_input 0 300 300)]).brush.radius =
      (state_after (milton_init sample_init zeroed_state 4096 2160)
        [Call.update zoom_out_input, Call.resize 0 ⟨0, 0⟩ ⟨800, 600⟩,
          Call.update (point_input 0 300 300)]).brush_size *
      (state_after (milton_init sample_init zeroed_state 4096 2160)
        [Call.update zoom_out_input, Call.resize 0 ⟨0, 0⟩ ⟨800, 600⟩,
          Call.update (point_input 0 300 300)]).view.scale ∧
     (state_after (milton_init sample_init zeroed_state 4096 2160)
        [Call.update zoom_out_input, Call.resize 0 ⟨0, 0⟩ ⟨800, 600⟩,
          Call.update (point_input 0 300 300)]).eraser_brush.radius =
      (state_after (milton_init sample_init zeroed_state 4096 2160)
        [Call.update zoom_out_input, Call.resize 0 ⟨0, 0⟩ ⟨800, 600⟩,
          Call.update (point_input 0 300 300)]).brush_size *
      (state_after (milton_init sample_init zeroed_state 4096 2160)
        [Call.update zoom_out_input, Call.resize 0 ⟨0, 0⟩ ⟨800, 600⟩,
          Call.update (point_input 0 300 300)]).view.scale ∧
     (state_after (milton_init sample_init zeroed_state 4096 2160)
        [Call.update zoom_out_input, Call.resize 0 ⟨0, 0⟩ ⟨800, 600⟩,
          Call.update (point_input 0 300 300)]).brush.radius =
      (state_after (milton_init sample_init zeroed_state 4096 2160)
        [Call.update zoom_out_input, Call.resize 0 ⟨0, 0⟩ ⟨800, 600⟩,
          Call.update (point_input 0 300 300)]).eraser_brush.radius) ∧
    ∀ p, milton_update (state_after (milton_init sample_init zeroed_state 4096 2160)
        [Call.update zoom_out_input, Call.resize 0 ⟨0, 0⟩ ⟨800, 600⟩,
          Call.update (point_input 0 300 300)]) zoom_in_input = .ok p →
      p.1.brush.radius = p.1.brush_size * p.1.view.scale ∧
      p.1.eraser_brush.radius = p.1.brush_size * p.1.view.scale :=
  brush_radii_follow_scale sample_init zeroed_state _ 4096 2160
    [Call.update zoom_out_input, Call.resize 0 ⟨0, 0⟩ ⟨800, 600⟩,
      Call.update (point_input 0 300 300)] zoom_in_input rfl

/-! ## Reset -/

/-- C17: the code at the failing input. From the sample state, two strokes of one
point each are drawn and committed and both are undone (`num_strokes = 0`,
`num_redos = 2`). The update whose only flag is RESET passes `full_redraw` and
leaves `num_strokes = 0` and an empty working stroke, but `num_redos` is still
2; two REDO updates then end with `num_strokes = 2`, and the second stroke
(`strokes[1]`) is visible again with its point. -/
theorem reset_keeps_redos :
    ∃ s1 p s2,
      milton_run sample_state
        [point_input 0 300 300, flags_input 4, point_input 0 400 300, flags_input 4,
          flags_input 8, flags_input 8] = .ok s1 ∧
      s1.num_strokes = 0 ∧ s1.num_redos = 2 ∧
      milton_update s1 (flags_input 2) = .ok p ∧
      p.2.full_redraw = true ∧ p.1.num_strokes = 0 ∧ p.1.working_stroke.num_points = 0 ∧
      p.1.num_redos = 2 ∧
      milton_run p.1 [flags_input 16, flags_input 16] = .ok s2 ∧
      s2.num_strokes = 2 ∧ (s2.strokes 1).num_points = 1 := by
  refine ⟨_, _, _, rfl, by decide, by decide, rfl, by decide, by decide, by decide, by decide,
    rfl, by decide, by decide⟩

/-- An update whose only flag is RESET: it returns, passes `full_redraw`, leaves
`num_strokes = 0` and an empty working stroke, and leaves `num_redos` as it
was. -/
theorem reset_only_update {E : Externals} (s : MiltonState E) (input : MiltonInput)
    (hin : input.flags = MiltonInputFlags_RESET ∧ input.point = none ∧ input.scale = 0) :
    ∃ p, milton_update s input = .ok p ∧ p.2.full_redraw = true ∧ p.1.num_strokes = 0 ∧
      p.1.working_stroke.num_points = 0 ∧ p.1.num_redos = s.num_redos := by
  have hu : ¬ (input.flags &&& MiltonInputFlags_UNDO ≠ 0 ∧ 0 < s.working_stroke.num_points) := by
    rw [hin.1]; exact fun h => h.1 (by decide)
  have hp := milton_update_eq s input _ rfl hu
  refine ⟨_, hp, (milton_update_full_redraw s input _ hp).2
    (Or.inr (Or.inr (Or.inr (by rw [hin.1]; decide)))), ?_⟩
  simp only [update_end_stroke_fst, update_point_none _ _ hin.2.1, update_reset_fst,
    update_fast_draw_fst, update_full_refresh_fst, update_zoom_fst, update_mode_fst]
  rw [hin.1]
  simp +decide [MiltonInputFlags_END_STROKE, MiltonInputFlags_RESET, MiltonInputFlags_UNDO,
    MiltonInputFlags_REDO]

/-! ## A rejected resize -/

/-- Drawing a point: below the limit the point count grows by one and the canvas
point goes to the old count's index; at the limit nothing changes. -/
theorem draw_point_points {E : Externals} (pt : v2i) (s : MiltonState E) :
    (draw_point pt s).working_stroke.num_points =
        (if s.working_stroke.num_points < E.LIMIT_STROKE_POINTS then
          s.working_stroke.num_points + 1
        else s.working_stroke.num_points) ∧
      (draw_point pt s).working_stroke.points =
        (if s.working_stroke.num_points < E.LIMIT_STROKE_POINTS then
          Function.update s.working_stroke.points s.working_stroke.num_points
            (raster_to_canvas s.view pt)
        else s.working_stroke.points) := by
  unfold draw_point
  split_ifs <;> exact ⟨rfl, rfl⟩

/-- The point block keeps the point count between 0 and the limit. -/
theorem update_point_np_bounds {E : Externals} (input : MiltonInput)
    (X : MiltonState E × MiltonRenderFlags) (hL : 0 ≤ E.LIMIT_STROKE_POINTS)
    (h : 0 ≤ X.1.working_stroke.num_points ∧
      X.1.working_stroke.num_points ≤ E.LIMIT_STROKE_POINTS) :
    0 ≤ (update_point input X).1.working_stroke.num_points ∧
      (update_point input X).1.working_stroke.num_points ≤ E.LIMIT_STROKE_POINTS := by
  cases hp : input.point with
  | none => rw [update_point_none _ _ hp]; exact h
  | some pt =>
    rw [(update_point_some input X pt hp).1]
    split_ifs
    · exact h
    · rw [(draw_point_points pt X.1).1]
      split_ifs <;> omega
    · exact h

/-- The end-of-stroke block keeps the point count between 0 and the limit. -/
theorem update_end_stroke_np_bounds {E : Externals} (input : MiltonInput)
    (Y : MiltonState E × MiltonRenderFlags) (hL : 0 ≤ E.LIMIT_STROKE_POINTS)
    (h : 0 ≤ Y.1.working_stroke.num_points ∧
      Y.1.working_stroke.num_points ≤ E.LIMIT_STROKE_POINTS) :
    0 ≤ (update_end_stroke input Y).1.working_stroke.num_points ∧
      (update_end_stroke input Y).1.working_stroke.num_points ≤ E.LIMIT_STROKE_POINTS := by
  unfold update_end_stroke
  split_ifs
  · exact h
  · exact ⟨le_refl 0, hL⟩
  · exact h
  · exact h

/-- An update that returns keeps the point count between 0 and the limit. -/
theorem np_bounds_step {E : Externals} (s : MiltonState E) (input : MiltonInput)
    (p : MiltonState E × MiltonRenderFlags) (hL : 0 ≤ E.LIMIT_STROKE_POINTS)
    (hinv : 0 ≤ s.working_stroke.num_points ∧
      s.working_stroke.num_points ≤ E.LIMIT_STROKE_POINTS)
    (h : milton_update s input = .ok p) :
    0 ≤ p.1.working_stroke.num_points ∧
      p.1.working_stroke.num_points ≤ E.LIMIT_STROKE_POINTS := by
  by_cases hne : input.flags &&& MiltonInputFlags_UNDO ≠ 0 ∧ 0 < s.working_stroke.num_points
  · rw [milton_update_error s input hne] at h
    exact Except.noConfusion h
  · rw [milton_update_eq s input _ rfl hne] at h
    injection h with h
    subst h
    have hX : ∀ (n r : Int) (rf : MiltonRenderFlags),
        0 ≤ (update_reset input
          ({ (update_mode input (update_zoom input (update_full_refresh input
                (update_fast_draw input (s, MiltonRenderFlags_none))))).1 with
              num_strokes := n, num_redos := r }, rf)).1.working_stroke.num_points ∧
        (update_reset input
          ({ (update_mode input (update_zoom input (update_full_refresh input
                (update_fast_draw input (s, MiltonRenderFlags_none))))).1 with
              num_strokes := n, num_redos := r }, rf)).1.working_stroke.num_points ≤
          E.LIMIT_STROKE_POINTS := by
      intro n r rf
      simp only [update_reset_fst, update_fast_draw_fst, update_full_refresh_fst,
        update_zoom_fst, update_mode_fst]
      split_ifs <;> omega
    exact update_end_stroke_np_bounds input _ hL
      (update_point_np_bounds input _ hL (hX _ _ _))

/-- A point that is not taken by the picker, on a canvas that is not blocked and a
working stroke below the limit, in an update without RESET that returns: the
canvas point is stored at the index of the old point count and every other
point is unchanged. -/
theorem point_append {E : Externals} (t : MiltonState E) (input : MiltonInput) (pt : v2i)
    (p : MiltonState E × MiltonRenderFlags)
    (hp : input.point = some pt)
    (hb : t.canvas_blocked = false)
    (hk : t.working_stroke.num_points < E.LIMIT_STROKE_POINTS)
    (hr : input.flags &&& MiltonInputFlags_RESET = 0)
    (hpick : 0 < t.working_stroke.num_points ∨ E.is_inside_picker t.picker pt = false)
    (h : milton_update t input = .ok p) :
    p.1.working_stroke.points t.working_stroke.num_points = raster_to_canvas p.1.view pt ∧
      ∀ i : Int, i ≠ t.working_stroke.num_points →
        p.1.working_stroke.points i = t.working_stroke.points i := by
  by_cases hne : input.flags &&& MiltonInputFlags_UNDO ≠ 0 ∧ 0 < t.working_stroke.num_points
  · rw [milton_update_error t input hne] at h
    exact Except.noConfusion h
  · rw [milton_update_eq t input _ rfl hne] at h
    injection h with h
    subst h
    simp only [update_end_stroke_fst, (update_point_view _ _).1]
    rw [update_point_draw input _ pt hp ?_ ?_]
    · simp only [(draw_point_points _ _).2]
      simp only [update_reset_fst, update_fast_draw_fst, update_full_refresh_fst,
        update_zoom_fst, update_mode_fst, hr, ne_eq, not_true_eq_false, if_false, hk, if_true,
        Function.update_same, true_and]
      intro i hi
      exact Function.update_noteq hi _ _
    · simp only [update_reset_fst, update_fast_draw_fst, update_full_refresh_fst,
        update_zoom_fst, update_mode_fst, is_user_drawing, hr, ne_eq, not_true_eq_false,
        if_false]
      rcases hpick with h1 | h1
      · simp [h1]
      · simp [h1]
    · simp only [update_reset_fst, update_fast_draw_fst, update_full_refresh_fst,
        update_zoom_fst, update_mode_fst]
      exact hb

/-- On a working stroke at the limit the point block leaves the points and the
point count as they are. -/
theorem update_point_full {E : Externals} (input : MiltonInput)
    (X : MiltonState E × MiltonRenderFlags) (pt : v2i) (hp : input.point = some pt)
    (hk : E.LIMIT_STROKE_POINTS ≤ X.1.working_stroke.num_points) :
    (update_point input X).1.working_stroke.points = X.1.working_stroke.points ∧
      (update_point input X).1.working_stroke.num_points = X.1.working_stroke.num_points := by
  rw [(update_point_some input X pt hp).1]
  have hfull : ¬ X.1.working_stroke.num_points < E.LIMIT_STROKE_POINTS := by omega
  by_cases h1 : is_user_drawing X.1 = false ∧ E.is_inside_picker X.1.picker pt = true
  · rw [if_pos h1]
    exact ⟨rfl, rfl⟩
  · rw [if_neg h1]
    by_cases h2 : X.1.canvas_blocked = false
    · rw [if_pos h2, (draw_point_points pt X.1).1, (draw_point_points pt X.1).2, if_neg hfull,
        if_neg hfull]
      exact ⟨rfl, rfl⟩
    · rw [if_neg h2]
      exact ⟨rfl, rfl⟩

/-- A point on a working stroke at the limit, in an update without RESET and
END_STROKE that returns: the points and the point count are unchanged. -/
theorem point_on_full_stroke {E : Externals} (t : MiltonState E) (input : MiltonInput)
    (pt : v2i) (p : MiltonState E × MiltonRenderFlags)
    (hp : input.point = some pt)
    (hk : E.LIMIT_STROKE_POINTS ≤ t.working_stroke.num_points)
    (hr : input.flags &&& MiltonInputFlags_RESET = 0)
    (he : input.flags &&& MiltonInputFlags_END_STROKE = 0)
    (h : milton_update t input = .ok p) :
    p.1.working_stroke.points = t.working_stroke.points ∧
      p.1.working_stroke.num_points = t.working_stroke.num_points := by
  by_cases hne : input.flags &&& MiltonInputFlags_UNDO ≠ 0 ∧ 0 < t.working_stroke.num_points
  · rw [milton_update_error t input hne] at h
    exact Except.noConfusion h
  · rw [milton_update_eq t input _ rfl hne] at h
    injection h with h
    subst h
    have hX : ∀ (n r : Int) (rf : MiltonRenderFlags),
        (update_reset input
          ({ (update_mode input (update_zoom input (update_full_refresh input
                (update_fast_draw input (t, MiltonRenderFlags_none))))).1 with
              num_strokes := n, num_redos := r }, rf)).1.working_stroke = t.working_stroke := by
      intro n r rf
      simp only [update_reset_fst, update_fast_draw_fst, update_full_refresh_fst,
        update_zoom_fst, update_mode_fst, hr, ne_eq, not_true_eq_false, if_false]
    simp only [update_end_stroke_fst, he, ne_eq, not_true_eq_false, false_and, if_false]
    rw [(update_point_full input _ pt hp (by rw [hX]; exact hk)).1,
      (update_point_full input _ pt hp (by rw [hX]; exact hk)).2, hX]
    exact ⟨rfl, rfl⟩

/-- In every state reachable from a state with a point count between 0 and the
limit, the point count is between 0 and the limit. -/
theorem np_bounds_reachable {E : Externals} (calls : List Call) (s0 s : MiltonState E)
    (hL : 0 ≤ E.LIMIT_STROKE_POINTS)
    (h0 : 0 ≤ s0.working_stroke.num_points ∧
      s0.working_stroke.num_points ≤ E.LIMIT_STROKE_POINTS)
    (hreach : milton_calls s0 calls = .ok s) :
    0 ≤ s.working_stroke.num_points ∧
      s.working_stroke.num_points ≤ E.LIMIT_STROKE_POINTS := by
  refine milton_calls_invariant
    (fun x : MiltonState E => 0 ≤ x.working_stroke.num_points ∧
      x.working_stroke.num_points ≤ E.LIMIT_STROKE_POINTS)
    (fun x i p hx hu => np_bounds_step x i p hL hx hu)
    (fun fuel x pd nss x1 hx hr => ?_) calls s0 s h0 hreach
  obtain ⟨v, hv, -⟩ := milton_resize_frame fuel x x1 pd nss hr
  subst hv
  exact hx

/-- C20 as stated fails. On the sample state (canvas not blocked, no point in the
working stroke) a point inside the picker is taken by the picker: it is not
stored at index 0 and the point count stays 0. After a first point (one point
in the working stroke), an update with RESET and a point does not store the
point at index 1 and overwrites point 0. On a full working stroke, an update
with a point and END_STROKE, and an update with a point and RESET, both change
the point count. -/
theorem point_not_appended :
    (sample_state.canvas_blocked = false ∧
      sample_state.working_stroke.num_points < sample_externals.LIMIT_STROKE_POINTS ∧
      ∃ p, milton_update sample_state (point_input 0 120 30) = .ok p ∧
        p.1.working_stroke.points sample_state.working_stroke.num_points ≠
          raster_to_canvas p.1.view ⟨120, 30⟩ ∧
        p.1.working_stroke.num_points = 0) ∧
    (∃ s1 p, milton_run sample_state [point_input 0 300 300] = .ok s1 ∧
      s1.canvas_blocked = false ∧ s1.working_stroke.num_points = 1 ∧
      milton_update s1 (point_input 2 310 300) = .ok p ∧
      p.1.working_stroke.points 1 ≠ raster_to_canvas p.1.view ⟨310, 300⟩ ∧
      p.1.working_stroke.points 0 ≠ s1.working_stroke.points 0) ∧
    (full_stroke_state.working_stroke.num_points = sample_externals.LIMIT_STROKE_POINTS ∧
      (∃ p, milton_update full_stroke_state (point_input 4 300 300) = .ok p ∧
        p.1.working_stroke.num_points ≠ full_stroke_state.working_stroke.num_points) ∧
      (∃ p, milton_update full_stroke_state (point_input 2 300 300) = .ok p ∧
        p.1.working_stroke.num_points ≠ full_stroke_state.working_stroke.num_points)) := by
  refine ⟨⟨by decide, by decide, _, rfl, by decide, by decide⟩,
    ⟨_, _, rfl, by decide, by decide, rfl, by decide, by decide⟩,
    ⟨by decide, ⟨_, rfl, by decide⟩, ⟨_, rfl, by decide⟩⟩⟩

/-- C20, amended: the working stroke is capped at `LIMIT_STROKE_POINTS` (taken
non-negative). In every state `s` reachable from an initial state `s0` with an
empty working stroke, `working_stroke.num_points` is between 0 and
`LIMIT_STROKE_POINTS`. For every state `t` and every input that carries a point,
the update returns unless it is an undo with a stroke in progress, and when it
returns: on a non-full, non-blocked working stroke with `k` points, if the input
has no RESET flag and the point is not taken by the picker (`k > 0`, or the
point is outside the picker), `raster_to_canvas` of the point (on the view the
update leaves) is stored at index `k` and every other point, in particular
points `0..k-1`, is unchanged; on a full working stroke, if the input has
neither the RESET nor the END_STROKE flag, the points and the point count are
unchanged. -/
theorem working_stroke_capped {E : Externals} (s0 s t : MiltonState E) (calls : List Call)
    (input : MiltonInput) (pt : v2i)
    (hL : 0 ≤ E.LIMIT_STROKE_POINTS)
    (h0 : s0.working_stroke.num_points = 0)
    (hreach : milton_calls s0 calls = .ok s)
    (hp : input.point = some pt) :
    (0 ≤ s.working_stroke.num_points ∧
      s.working_stroke.num_points ≤ E.LIMIT_STROKE_POINTS) ∧
    (¬ (input.flags &&& MiltonInputFlags_UNDO ≠ 0 ∧ 0 < t.working_stroke.num_points) →
      ∃ p, milton_update t input = .ok p) ∧
    (t.canvas_blocked = false →
      t.working_stroke.num_points < E.LIMIT_STROKE_POINTS →
      input.flags &&& MiltonInputFlags_RESET = 0 →
      (0 < t.working_stroke.num_points ∨ E.is_inside_picker t.picker pt = false) →
      ∀ p, milton_update t input = .ok p →
        p.1.working_stroke.points t.working_stroke.num_points = raster_to_canvas p.1.view pt ∧
        ∀ i : Int, i ≠ t.working_stroke.num_points →
          p.1.working_stroke.points i = t.working_stroke.points i) ∧
    (E.LIMIT_STROKE_POINTS ≤ t.working_stroke.num_points →
      input.flags &&& MiltonInputFlags_RESET = 0 →
      input.flags &&& MiltonInputFlags_END_STROKE = 0 →
      ∀ p, milton_update t input = .ok p →
        p.1.working_stroke.points = t.working_stroke.points ∧
        p.1.working_stroke.num_points = t.working_stroke.num_points) :=
  ⟨np_bounds_reachable calls s0 s hL (by omega) hreach,
    milton_update_ok t input,
    fun hb hk hr hpick p h => point_append t input pt p hp hb hk hr hpick h,
    fun hk hr he p h => point_on_full_stroke t input pt p hp hk hr he h⟩

/-- C20 amended, evaluated: the reachable state is the sample state after two
points; `t` is the sample state after one point and the input carries a further
point. -/
theorem working_stroke_capped_witness :
    (0 ≤ (state_after sample_state
        [Call.update (point_input 0 300 300),
          Call.update (point_input 0 305 300)]).working_stroke.num_points ∧
      (state_after sample_state
        [Call.update (point_input 0 300 300),
          Call.update (point_input 0 305 300)]).working_stroke.num_points ≤
        sample_externals.LIMIT_STROKE_POINTS) ∧
    (¬ ((point_input 0 310 300).flags &&& MiltonInputFlags_UNDO ≠ 0 ∧
        0 < (state_after sample_state
          [Call.update (point_input 0 300 300)]).working_stroke.num_points) →
      ∃ p, milton_update (state_after sample_state [Call.update (point_input 0 300 300)])
        (point_input 0 310 300) = .ok p) ∧
    ((state_after sample_state [Call.update (point_input 0 300 300)]).canvas_blocked = false →
      (state_after sample_state [Call.update (point_input 0 300 300)]).working_stroke.num_points <
        sample_externals.LIMIT_STROKE_POINTS →
      (point_input 0 310 300).flags &&& MiltonInputFlags_RESET = 0 →
      (0 < (state_after sample_state
          [Call.update (point_input 0 300 300)]).working_stroke.num_points ∨
        sample_externals.is_inside_picker
          (state_after sample_state [Call.update (point_input 0 300 300)]).picker
          ⟨310, 300⟩ = false) →
      ∀ p, milton_update (state_after sample_state [Call.update (point_input 0 300 300)])
          (point_input 0 310 300) = .ok p →
        p.1.working_stroke.points
            (state_after sample_state
              [Call.update (point_input 0 300 300)]).working_stroke.num_points =
          raster_to_canvas p.1.view ⟨310, 300⟩ ∧
        ∀ i : Int,
          i ≠ (state_after sample_state
            [Call.update (point_input 0 300 300)]).working_stroke.num_points →
          p.1.working_stroke.points i =
            (state_after sample_state
              [Call.update (point_input 0 300 300)]).working_stroke.points i) ∧
    (sample_externals.LIMIT_STROKE_POINTS ≤
        (state_after sample_state
          [Call.update (point_input 0 300 300)]).working_stroke.num_points →
      (point_input 0 310 300).flags &&& MiltonInputFlags_RESET = 0 →
      (point_input 0 310 300).flags &&& MiltonInputFlags_END_STROKE = 0 →
      ∀ p, milton_update (state_after sample_state [Call.update (point_input 0 300 300)])
          (point_input 0 310 300) = .ok p →
        p.1.working_stroke.points =
          (state_after sample_state
            [Call.update (point_input 0 300 300)]).working_stroke.points ∧
        p.1.working_stroke.num_points =
          (state_after sample_state
            [Call.update (point_input 0 300 300)]).working_stroke.num_points) :=
  working_stroke_capped sample_state _
    (state_after sample_state [Call.update (point_input 0 300 300)])
    [Call.update (point_input 0 300 300), Call.update (point_input 0 305 300)]
    (point_input 0 310 300) ⟨310, 300⟩ (by decide) (by decide) rfl rfl

/-! ## The capacity of the stroke store -/

/-- A run over two lists of inputs, one after the other. -/
theorem milton_run_append {E : Externals} (a b : List MiltonInput) :
    ∀ s : MiltonState E, milton_run s (a ++ b) =
      match milton_run s a with
      | .error e => .error e
      | .ok s1 => milton_run s1 b := by
  induction a with
  | nil => intro s; rfl
  | cons x rest ih =>
    intro s
    simp only [List.cons_append, milton_run]
    cases milton_update s x with
    | error e => rfl
    | ok p => exact ih p.1

/-- An update with only the END_STROKE flag, on a canvas that is not blocked and
a store with a free slot: it returns, the working stroke becomes one more
visible stroke, the redo count stays and the working stroke is left empty. -/
theorem end_stroke_only_update {E : Externals} (s : MiltonState E) (input : MiltonInput)
    (hb : s.canvas_blocked = false) (hn : s.num_strokes < 4096)
    (hin : input.flags = MiltonInputFlags_END_STROKE ∧ input.point = none ∧ input.scale = 0) :
    ∃ p, milton_update s input = .ok p ∧ p.1.num_strokes = s.num_strokes + 1 ∧
      p.1.num_redos = s.num_redos ∧ p.1.canvas_blocked = false ∧
      p.1.working_stroke.num_points = 0 := by
  obtain ⟨hf, hp, hs⟩ := hin
  have hne : ¬ (input.flags &&& MiltonInputFlags_UNDO ≠ 0 ∧ 0 < s.working_stroke.num_points) := by
    rw [hf]
    exact fun h => h.1 (by decide)
  refine ⟨_, milton_update_eq s input _ rfl hne, ?_⟩
  simp only [update_end_stroke_fst, update_point_none _ _ hp, update_reset_fst,
    update_fast_draw_fst, update_full_refresh_fst, update_zoom_fst, update_mode_fst, hf]
  simp +decide [MiltonInputFlags_END_STROKE, MiltonInputFlags_UNDO, MiltonInputFlags_REDO,
    MiltonInputFlags_RESET, hb, hn]

/-- A run of `k` updates with only the END_STROKE flag, on a canvas that is not
blocked and a store with `k` free slots: the run returns with `k` more visible
strokes, the same redo count and an empty working stroke if it was empty. -/
theorem end_stroke_only_run {E : Externals} (k : Nat) :
    ∀ s : MiltonState E, s.canvas_blocked = false → s.num_strokes + (k : Int) ≤ 4096 →
      ∃ s1, milton_run s (List.replicate k (flags_input MiltonInputFlags_END_STROKE)) = .ok s1 ∧
        s1.num_strokes = s.num_strokes + (k : Int) ∧ s1.num_redos = s.num_redos ∧
        s1.canvas_blocked = false ∧
        (s.working_stroke.num_points = 0 → s1.working_stroke.num_points = 0) := by
  induction k with
  | zero =>
    intro s hb _
    exact ⟨s, rfl, by simp, rfl, hb, fun h => h⟩
  | succ k ih =>
    intro s hb hk
    obtain ⟨p, hp, hpn, hpr, hpb, hpw⟩ :=
      end_stroke_only_update s (flags_input MiltonInputFlags_END_STROKE) hb
        (by push_cast at hk; omega) ⟨rfl, rfl, rfl⟩
    obtain ⟨s1, hs1, hn1, hr1, hb1, hw1⟩ := ih p.1 hpb (by push_cast at hk; omega)
    refine ⟨s1, ?_, ?_, ?_, hb1, fun _ => hw1 hpw⟩
    · simp only [List.replicate_succ, milton_run, hp]
      exact hs1
    · rw [hn1, hpn]; push_cast; ring
    · rw [hr1, hpr]

/-- An update with only the UNDO flag, on an empty working stroke and a visible
stroke: it returns with one visible stroke fewer and one more stroke to redo;
`canvas_blocked` and the working stroke stay. -/
theorem undo_only_counts {E : Externals} (s : MiltonState E) (input : MiltonInput)
    (hw : s.working_stroke.num_points = 0) (hn : 0 < s.num_strokes)
    (hin : input.flags = MiltonInputFlags_UNDO ∧ input.point = none ∧ input.scale = 0) :
    ∃ p, milton_update s input = .ok p ∧ p.1.num_strokes = s.num_strokes - 1 ∧
      p.1.num_redos = s.num_redos + 1 ∧ p.1.canvas_blocked = s.canvas_blocked ∧
      p.1.working_stroke = s.working_stroke := by
  obtain ⟨rf, h⟩ := undo_only_update s input hw hn hin
  exact ⟨_, h, rfl, rfl, rfl, rfl⟩

/-- An update with only the REDO flag, with a stroke to redo: it returns with one
more visible stroke and one stroke fewer to redo, whatever the visible count
is. -/
theorem redo_only_counts {E : Externals} (s : MiltonState E) (input : MiltonInput)
    (hr : 0 < s.num_redos)
    (hin : input.flags = MiltonInputFlags_REDO ∧ input.point = none ∧ input.scale = 0) :
    ∃ p, milton_update s input = .ok p ∧ p.1.num_strokes = s.num_strokes + 1 ∧
      p.1.num_redos = s.num_redos - 1 := by
  obtain ⟨rf, h⟩ := redo_only_update s input hr hin
  exact ⟨_, h, rfl, rfl⟩

/-- The end-of-stroke block does not lower the visible stroke count. -/
theorem update_end_stroke_num_strokes_ge {E : Externals} (input : MiltonInput)
    (Y : MiltonState E × MiltonRenderFlags) :
    Y.1.num_strokes ≤ (update_end_stroke input Y).1.num_strokes := by
  unfold update_end_stroke
  split_ifs
  · exact le_refl _
  · exact (lt_add_one Y.1.num_strokes).le
  · exact le_refl _
  · exact le_refl _

/-- The visible stroke count never goes below zero: an update that returns keeps
`0 ≤ num_strokes`. -/
theorem num_strokes_nonneg_step {E : Externals} (s : MiltonState E) (input : MiltonInput)
    (p : MiltonState E × MiltonRenderFlags) (h0 : 0 ≤ s.num_strokes)
    (h : milton_update s input = .ok p) : 0 ≤ p.1.num_strokes := by
  by_cases hne : input.flags &&& MiltonInputFlags_UNDO ≠ 0 ∧ 0 < s.working_stroke.num_points
  · rw [milton_update_error s input hne] at h
    exact Except.noConfusion h
  · rw [milton_update_eq s input _ rfl hne] at h
    injection h with h
    subst h
    refine le_trans ?_ (update_end_stroke_num_strokes_ge input _)
    rw [(update_point_frame input _).1]
    simp only [update_reset_fst, update_fast_draw_fst, update_full_refresh_fst,
      update_zoom_fst, update_mode_fst]
    split_ifs <;> omega

/-- A property that holds at the start and is kept by every update that returns
holds in every state a run of updates reaches. -/
theorem milton_run_invariant {E : Externals} (P : MiltonState E → Prop)
    (hupdate : ∀ s input p, P s → milton_update s input = .ok p → P p.1)
    (inputs : List MiltonInput) :
    ∀ s0 s : MiltonState E, P s0 → milton_run s0 inputs = .ok s → P s := by
  induction inputs with
  | nil =>
    intro s0 s h0 h
    injection h with h
    exact h ▸ h0
  | cons x rest ih =>
    intro s0 s h0 h
    unfold milton_run at h
    cases hu : milton_update s0 x with
    | error e => rw [hu] at h; exact Except.noConfusion h
    | ok p =>
      rw [hu] at h
      exact ih p.1 s (hupdate s0 x p h0 hu) h

/-- In every state a run of updates reaches from a state with `0 ≤ num_strokes`,
`0 ≤ num_strokes`. -/
theorem num_strokes_nonneg_run {E : Externals} (inputs : List MiltonInput)
    (s0 s : MiltonState E) (h0 : 0 ≤ s0.num_strokes) (hreach : milton_run s0 inputs = .ok s) :
    0 ≤ s.num_strokes :=
  milton_run_invariant (fun x : MiltonState E => 0 ≤ x.num_strokes)
    (fun x i p hx hu => num_strokes_nonneg_step x i p hx hu) inputs s0 s h0 hreach

/-- C21 fails in the code. From the sample state (`num_strokes = 0`,
`num_redos = 0`, empty working stroke, canvas not blocked) the run of 4096
updates with only END_STROKE, then one with only UNDO, one with only END_STROKE
and one with only REDO returns, and it ends with `num_strokes = 4097`, above the
4096 slots of the stroke store: the END_STROKE after the undo fills the store
again without clearing `num_redos`, and the redo adds one to `num_strokes`
without looking at the capacity. -/
theorem redo_exceeds_stroke_store :
    sample_state.num_strokes = 0 ∧ sample_state.num_redos = 0 ∧
    sample_state.working_stroke.num_points = 0 ∧
    ∃ s, milton_run sample_state
        (List.replicate 4096 (flags_input MiltonInputFlags_END_STROKE) ++
          [flags_input MiltonInputFlags_UNDO, flags_input MiltonInputFlags_END_STROKE,
            flags_input MiltonInputFlags_REDO]) = .ok s ∧
      s.num_strokes = 4097 ∧ ¬ (0 ≤ s.num_strokes ∧ s.num_strokes ≤ 4096) := by
  refine ⟨by decide, by decide, by decide, ?_⟩
  obtain ⟨s1, h1, hn1, hr1, hb1, hw1⟩ :=
    end_stroke_only_run 4096 sample_state (by decide) (by decide)
  have hn1 : s1.num_strokes = 4096 := by rw [hn1]; decide
  have hr1 : s1.num_redos = 0 := by rw [hr1]; decide
  have hw1 : s1.working_stroke.num_points = 0 := hw1 (by decide)
  obtain ⟨p2, h2, hn2, hr2, hb2, hw2⟩ :=
    undo_only_counts s1 (flags_input MiltonInputFlags_UNDO) hw1 (by omega) ⟨rfl, rfl, rfl⟩
  obtain ⟨p3, h3, hn3, hr3, hb3, hw3⟩ :=
    end_stroke_only_update p2.1 (flags_input MiltonInputFlags_END_STROKE)
      (by rw [hb2, hb1]) (by omega) ⟨rfl, rfl, rfl⟩
  obtain ⟨p4, h4, hn4, hr4⟩ :=
    redo_only_counts p3.1 (flags_input MiltonInputFlags_REDO) (by omega) ⟨rfl, rfl, rfl⟩
  have hrun : milton_run sample_state
      (List.replicate 4096 (flags_input MiltonInputFlags_END_STROKE) ++
        [flags_input MiltonInputFlags_UNDO, flags_input MiltonInputFlags_END_STROKE,
          flags_input MiltonInputFlags_REDO]) = .ok p4.1 := by
    rw [milton_run_append, h1]
    simp only [milton_run, h2, h3, h4]
  exact ⟨p4.1, hrun, by omega, by omega⟩

/-! ## The blocked canvas -/

/-- The point block keeps the point count of the working stroke at 0 or above, and
at 0 on a blocked canvas. -/
theorem update_point_blocked {E : Externals} (input : MiltonInput)
    (X : MiltonState E × MiltonRenderFlags)
    (h : 0 ≤ X.1.working_stroke.num_points ∧
      (X.1.canvas_blocked = true → X.1.working_stroke.num_points = 0)) :
    0 ≤ (update_point input X).1.working_stroke.num_points ∧
      ((update_point input X).1.canvas_blocked = true →
        (update_point input X).1.working_stroke.num_points = 0) := by
  cases hp : input.point with
  | none => rw [update_point_none _ _ hp]; exact h
  | some pt =>
    rw [(update_point_some input X pt hp).1, (update_point_some input X pt hp).2]
    by_cases hpick : is_user_drawing X.1 = false ∧ E.is_inside_picker X.1.picker pt = true
    · rw [if_pos hpick, if_pos hpick]
      have hd : ¬ 0 < X.1.working_stroke.num_points := by
        simpa [is_user_drawing] using hpick.1
      exact ⟨h.1, fun _ => by omega⟩
    · rw [if_neg hpick, if_neg hpick]
      by_cases hb : X.1.canvas_blocked = false
      · rw [if_pos hb, (draw_point_points pt X.1).1]
        refine ⟨by split_ifs <;> omega, fun hc => ?_⟩
        rw [hb] at hc
        exact Bool.noConfusion hc
      · rw [if_neg hb]
        exact h

/-- The end-of-stroke block keeps the point count of the working stroke at 0 or
above, and at 0 on a blocked canvas. -/
theorem update_end_stroke_blocked {E : Externals} (input : MiltonInput)
    (Y : MiltonState E × MiltonRenderFlags)
    (h : 0 ≤ Y.1.working_stroke.num_points ∧
      (Y.1.canvas_blocked = true → Y.1.working_stroke.num_points = 0)) :
    0 ≤ (update_end_stroke input Y).1.working_stroke.num_points ∧
      ((update_end_stroke input Y).1.canvas_blocked = true →
        (update_end_stroke input Y).1.working_stroke.num_points = 0) := by
  unfold update_end_stroke
  split_ifs with h1 h2 h3
  · exact ⟨h.1, fun hc => by cases hc⟩
  · exact ⟨le_refl 0, fun _ => rfl⟩
  · exact h
  · exact h

/-- An update that returns keeps the point count of the working stroke at 0 or
above, and at 0 on a blocked canvas. -/
theorem blocked_step {E : Externals} (s : MiltonState E) (input : MiltonInput)
    (p : MiltonState E × MiltonRenderFlags)
    (hinv : 0 ≤ s.working_stroke.num_points ∧
      (s.canvas_blocked = true → s.working_stroke.num_points = 0))
    (h : milton_update s input = .ok p) :
    0 ≤ p.1.working_stroke.num_points ∧
      (p.1.canvas_blocked = true → p.1.working_stroke.num_points = 0) := by
  by_cases hne : input.flags &&& MiltonInputFlags_UNDO ≠ 0 ∧ 0 < s.working_stroke.num_points
  · rw [milton_update_error s input hne] at h
    exact Except.noConfusion h
  · rw [milton_update_eq s input _ rfl hne] at h
    injection h with h
    subst h
    refine update_end_stroke_blocked input _ (update_point_blocked input _ ?_)
    obtain ⟨hb, -, hw⟩ := update_reset_blocked s input _ _ _
    rw [hb, hw]
    refine ⟨?_, fun hc => ?_⟩
    · show 0 ≤ (if input.flags &&& MiltonInputFlags_RESET ≠ 0 then 0
        else s.working_stroke.num_points)
      split_ifs
      · exact le_refl 0
      · exact hinv.1
    · show (if input.flags &&& MiltonInputFlags_RESET ≠ 0 then 0
        else s.working_stroke.num_points) = 0
      split_ifs
      · rfl
      · exact hinv.2 hc

/-- In every state a run of updates reaches from a state with an empty working
stroke, the point count of the working stroke
is 0 or above, and 0 on a blocked canvas. -/
theorem blocked_run {E : Externals} (inputs : List MiltonInput) (s0 s : MiltonState E)
    (h0w : s0.working_stroke.num_points = 0)
    (hreach : milton_run s0 inputs = .ok s) :
    0 ≤ s.working_stroke.num_points ∧
      (s.canvas_blocked = true → s.working_stroke.num_points = 0) :=
  milton_run_invariant
    (fun x : MiltonState E => 0 ≤ x.working_stroke.num_points ∧
      (x.canvas_blocked = true → x.working_stroke.num_points = 0))
    (fun x i p hx hu => blocked_step x i p hx hu) inputs s0 s
    ⟨by omega, fun _ => h0w⟩ hreach

/-- On a blocked canvas the point block and the end-of-stroke block leave the
working stroke as it is. -/
theorem blocked_keeps_working_stroke {E : Externals} (input : MiltonInput)
    (X : MiltonState E × MiltonRenderFlags) (hb : X.1.canvas_blocked = true) :
    (update_end_stroke input (update_point input X)).1.working_stroke =
      X.1.working_stroke := by
  have hpt : (update_point input X).1.working_stroke = X.1.working_stroke ∧
      (update_point input X).1.canvas_blocked = true := by
    cases hp : input.point with
    | none => rw [update_point_none _ _ hp]; exact ⟨rfl, hb⟩
    | some pt =>
      rw [(update_point_some input X pt hp).1, (update_point_some input X pt hp).2]
      have hnb : ¬ X.1.canvas_blocked = false := by rw [hb]; exact Bool.noConfusion
      refine ⟨?_, ?_⟩
      · split_ifs <;> rfl
      · split_ifs
        · rfl
        · exact hb
  have hend : ∀ Y : MiltonState E × MiltonRenderFlags, Y.1.canvas_blocked = true →
      (update_end_stroke input Y).1.working_stroke = Y.1.working_stroke := by
    intro Y hY
    unfold update_end_stroke
    split_ifs <;> rfl
  rw [hend _ hpt.2, hpt.1]

/-- An update on a blocked canvas with an empty working stroke returns and leaves
the working stroke as it is: its brush, its points and its point count. -/
theorem blocked_update_keeps_stroke {E : Externals} (s : MiltonState E) (input : MiltonInput)
    (hb : s.canvas_blocked = true) (hw : s.working_stroke.num_points = 0) :
    ∃ p, milton_update s input = .ok p ∧ p.1.working_stroke = s.working_stroke := by
  have hne : ¬ (input.flags &&& MiltonInputFlags_UNDO ≠ 0 ∧
      0 < s.working_stroke.num_points) := by
    rw [hw]
    exact fun h => lt_irrefl 0 h.2
  refine ⟨_, milton_update_eq s input _ rfl hne, ?_⟩
  have heta : ∀ w : Stroke E, w.num_points = 0 →
      ({ w with num_points := 0 } : Stroke E) = w := by
    rintro ⟨b, pts, n⟩ h
    simp only at h
    subst h
    rfl
  rw [blocked_keeps_working_stroke input _ ((update_reset_blocked s input _ _ _).1.trans hb),
    (update_reset_blocked s input _ _ _).2.2, hw, ite_self]
  exact heta _ hw

/-- The point block and the end-of-stroke block leave a canvas that was not
blocked blocked only if the input carries a point inside the picker and the
working stroke has no point. -/
theorem update_point_blocks {E : Externals} (input : MiltonInput)
    (X : MiltonState E × MiltonRenderFlags)
    (h : (update_end_stroke input (update_point input X)).1.canvas_blocked = true)
    (hb : X.1.canvas_blocked = false) :
    ¬ 0 < X.1.working_stroke.num_points ∧
      ∃ pt, input.point = some pt ∧ E.is_inside_picker X.1.picker pt = true := by
  have hend : ∀ Y : MiltonState E × MiltonRenderFlags,
      (update_end_stroke input Y).1.canvas_blocked = true → Y.1.canvas_blocked = true := by
    intro Y hY
    unfold update_end_stroke at hY
    split_ifs at hY <;> exact hY
  have hX := hend _ h
  cases hp : input.point with
  | none =>
    rw [update_point_none _ _ hp, hb] at hX
    exact Bool.noConfusion hX
  | some pt =>
    rw [(update_point_some input X pt hp).2] at hX
    by_cases hpick : is_user_drawing X.1 = false ∧ E.is_inside_picker X.1.picker pt = true
    · exact ⟨by simpa [is_user_drawing] using hpick.1, pt, rfl, hpick.2⟩
    · rw [if_neg hpick, hb] at hX
      exact Bool.noConfusion hX

/-- An update that returns and blocks a canvas that was not blocked: the input
carries a point inside the picker, and the working stroke was empty or the
RESET flag of the input has emptied it. -/
theorem picker_blocks_idle_canvas {E : Externals} (s : MiltonState E) (input : MiltonInput)
    (p : MiltonState E × MiltonRenderFlags) (hnp : 0 ≤ s.working_stroke.num_points)
    (hb : s.canvas_blocked = false) (h : milton_update s input = .ok p)
    (hpb : p.1.canvas_blocked = true) :
    (s.working_stroke.num_points = 0 ∨ input.flags &&& MiltonInputFlags_RESET ≠ 0) ∧
      ∃ pt, input.point = some pt ∧ E.is_inside_picker s.picker pt = true := by
  by_cases hne : input.flags &&& MiltonInputFlags_UNDO ≠ 0 ∧ 0 < s.working_stroke.num_points
  · rw [milton_update_error s input hne] at h
    exact Except.noConfusion h
  · rw [milton_update_eq s input _ rfl hne] at h
    injection h with h
    subst h
    obtain ⟨hd, pt, hpt, hin⟩ := update_point_blocks input _ hpb
      ((update_reset_blocked s input _ _ _).1.trans hb)
    rw [(update_reset_blocked s input _ _ _).2.1] at hin
    rw [(update_reset_blocked s input _ _ _).2.2] at hd
    refine ⟨?_, pt, hpt, hin⟩
    by_cases hr : input.flags &&& MiltonInputFlags_RESET ≠ 0
    · exact Or.inr hr
    · left
      have hd2 : ¬ 0 < (if input.flags &&& MiltonInputFlags_RESET ≠ 0 then 0
          else s.working_stroke.num_points) := hd
      rw [if_neg hr] at hd2
      omega

/-- C22: in every state `s` that a run of `milton_update` calls reaches from an
initial state with `canvas_blocked` false and an empty working stroke, if
`canvas_blocked` is true then the working stroke has zero points. The picker
blocks the canvas only when no stroke is in progress: an update from `s` that
turns `canvas_blocked` from false to true carries a point inside the picker, and
the working stroke of `s` is empty or the RESET flag of the same input has
emptied it before the point is looked at. No point is appended while the canvas
is blocked: when `canvas_blocked` is true in `s`, every update returns and
leaves the working stroke (brush, points, point count) as it is. -/
theorem blocked_canvas_has_empty_stroke {E : Externals} (s0 s : MiltonState E)
    (inputs : List MiltonInput) (input : MiltonInput)
    (h0 : s0.canvas_blocked = false ∧ s0.working_stroke.num_points = 0)
    (hreach : milton_run s0 inputs = .ok s) :
    (s.canvas_blocked = true → s.working_stroke.num_points = 0) ∧
    (s.canvas_blocked = false → ∀ p, milton_update s input = .ok p →
      p.1.canvas_blocked = true →
      (s.working_stroke.num_points = 0 ∨ input.flags &&& MiltonInputFlags_RESET ≠ 0) ∧
      ∃ pt, input.point = some pt ∧ E.is_inside_picker s.picker pt = true) ∧
    (s.canvas_blocked = true →
      ∃ p, milton_update s input = .ok p ∧ p.1.working_stroke = s.working_stroke) :=
  ⟨(blocked_run inputs s0 s h0.2 hreach).2,
    fun hb p h hpb =>
      picker_blocks_idle_canvas s input p (blocked_run inputs s0 s h0.2 hreach).1 hb h hpb,
    fun hb => blocked_update_keeps_stroke s input hb
      ((blocked_run inputs s0 s h0.2 hreach).2 hb)⟩

/-- C22, evaluated on the sample state. A first point inside the picker blocks
the canvas, and the working stroke of the state reached has zero points; a
further point outside the picker, on the blocked canvas, leaves the working
stroke as it is; and the update that blocked the canvas carried a point inside
the picker while the working stroke was empty. -/
theorem blocked_canvas_has_empty_stroke_witness :
    (blocked_state.canvas_blocked = true ∧ blocked_state.working_stroke.num_points = 0) ∧
    (∃ p, milton_update blocked_state (point_input 0 300 300) = .ok p ∧
      p.1.working_stroke = blocked_state.working_stroke) ∧
    ((sample_state.working_stroke.num_points = 0 ∨
        (point_input 0 120 30).flags &&& MiltonInputFlags_RESET ≠ 0) ∧
      ∃ pt, (point_input 0 120 30).point = some pt ∧
        sample_externals.is_inside_picker sample_state.picker pt = true) :=
  ⟨⟨by decide,
      (blocked_canvas_has_empty_stroke sample_state blocked_state [point_input 0 120 30]
        (point_input 0 300 300) (by decide) rfl).1 (by decide)⟩,
    (blocked_canvas_has_empty_stroke sample_state blocked_state [point_input 0 120 30]
      (point_input 0 300 300) (by decide) rfl).2.2 (by decide),
    (blocked_canvas_has_empty_stroke sample_state sample_state []
      (point_input 0 120 30) (by decide) rfl).2.1 (by decide) _ rfl (by decide)⟩

/-! ## The working stroke at the end of a stroke -/

/-- C19 as stated fails: with a full stroke store (`num_strokes = 4096`), canvas
not blocked and a working stroke of one point, an update with only END_STROKE
leaves the working stroke with its point: it is neither committed nor cleared.
And on a working stroke whose point count is -1, an update with END_STROKE and a
point inside the picker leaves the point count at -1. -/
theorem end_stroke_on_full_store :
    (full_store_state.canvas_blocked = false ∧
      ∃ p, milton_update full_store_state (flags_input 4) = .ok p ∧
        p.1.working_stroke.num_points = 1 ∧ p.1.num_strokes = 4096) ∧
    (∃ p,
      milton_update { sample_state with working_stroke := { empty_stroke with num_points := -1 } }
        (point_input 4 120 30) = .ok p ∧
      p.1.working_stroke.num_points = -1) := by
  refine ⟨⟨by decide, _, rfl, by decide, by decide⟩, ⟨_, rfl, by decide⟩⟩

/-- The point block followed by the end-of-stroke block, from a canvas that is not
blocked and a point count that is not negative, with END_STROKE set: the working
stroke ends empty or the store is full, and it ends empty if the store had room
before the two blocks. -/
theorem end_after_point {E : Externals} (input : MiltonInput)
    (X : MiltonState E × MiltonRenderFlags)
    (hb : X.1.canvas_blocked = false)
    (he : input.flags &&& MiltonInputFlags_END_STROKE ≠ 0)
    (hnp : 0 ≤ X.1.working_stroke.num_points) :
    ((update_end_stroke input (update_point input X)).1.working_stroke.num_points = 0 ∨
        4096 ≤ (update_end_stroke input (update_point input X)).1.num_strokes) ∧
      (X.1.num_strokes < 4096 →
        (update_end_stroke input (update_point input X)).1.working_stroke.num_points = 0) := by
  simp only [update_end_stroke_fst, (update_point_frame _ _).1, he, ne_eq,
    not_false_eq_true, true_and]
  cases hp : input.point with
  | none =>
    rw [update_point_none _ _ hp]
    by_cases hn : X.1.num_strokes < 4096
    · simp [hb, hn]
    · simp only [hb, hn, and_false, if_false]
      exact ⟨Or.inr (by omega), fun h => h.elim⟩
  | some pt =>
    obtain ⟨hws, hcb⟩ := update_point_some input X pt hp
    rw [hws, hcb]
    by_cases hpick : is_user_drawing X.1 = false ∧ E.is_inside_picker X.1.picker pt = true
    · have hz : X.1.working_stroke.num_points = 0 := by
        have h1 := hpick.1
        simp only [is_user_drawing, decide_eq_false_iff_not] at h1
        omega
      simp [hpick, hz]
    · simp only [if_neg hpick, hb, if_true]
      by_cases hn : X.1.num_strokes < 4096
      · simp [hn]
      · simp only [hn, and_false, if_false]
        exact ⟨Or.inr (by omega), fun h => h.elim⟩

/-- With a full store the end-of-stroke block leaves the working stroke, the
stroke count and the strokes as they are. -/
theorem update_end_stroke_full {E : Externals} (input : MiltonInput)
    (Y : MiltonState E × MiltonRenderFlags) (hfull : 4096 ≤ Y.1.num_strokes) :
    (update_end_stroke input Y).1.working_stroke = Y.1.working_stroke ∧
      (update_end_stroke input Y).1.num_strokes = Y.1.num_strokes ∧
      (update_end_stroke input Y).1.strokes = Y.1.strokes := by
  unfold update_end_stroke
  split_ifs with h1 h2 h3
  · exact ⟨rfl, rfl, rfl⟩
  · exact absurd h3 (by omega)
  · exact ⟨rfl, rfl, rfl⟩
  · exact ⟨rfl, rfl, rfl⟩

/-- The point block does not lower the point count of a working stroke whose
point count is not negative, and without a point it leaves the working stroke
as it is. -/
theorem update_point_keeps_points {E : Externals} (input : MiltonInput)
    (X : MiltonState E × MiltonRenderFlags) :
    X.1.working_stroke.num_points ≤ (update_point input X).1.working_stroke.num_points ∧
      (input.point = none → (update_point input X).1.working_stroke = X.1.working_stroke) := by
  cases hp : input.point with
  | none => rw [update_point_none _ _ hp]; exact ⟨le_refl _, fun _ => rfl⟩
  | some pt =>
    rw [(update_point_some input X pt hp).1]
    refine ⟨?_, fun h => Option.noConfusion h⟩
    split_ifs
    · exact le_refl _
    · rw [(draw_point_points pt X.1).1]
      split_ifs <;> omega
    · exact le_refl _

/-- The point block followed by the end-of-stroke block on a full store: the
working stroke is neither committed nor cleared. -/
theorem end_after_point_full {E : Externals} (input : MiltonInput)
    (X : MiltonState E × MiltonRenderFlags) (hfull : 4096 ≤ X.1.num_strokes) :
    (update_end_stroke input (update_point input X)).1.num_strokes = X.1.num_strokes ∧
      (update_end_stroke input (update_point input X)).1.strokes = X.1.strokes ∧
      X.1.working_stroke.num_points ≤
        (update_end_stroke input (update_point input X)).1.working_stroke.num_points ∧
      (input.point = none →
        (update_end_stroke input (update_point input X)).1.working_stroke =
          X.1.working_stroke) := by
  obtain ⟨f1, f2, -⟩ := update_point_frame input X
  obtain ⟨e1, e2, e3⟩ := update_end_stroke_full input (update_point input X) (by rw [f1]; exact hfull)
  obtain ⟨k1, k2⟩ := update_point_keeps_points input X
  rw [e1, e2, e3, f1, f2]
  exact ⟨rfl, rfl, k1, k2⟩

/-- C19, amended: the working stroke is cleared on stroke-end unless the store is
full. For every state with `canvas_blocked` false (and a point count that is not
negative), a `milton_update` with the END_STROKE flag returns unless it is an
undo with a stroke in progress, and after it either the working stroke has zero
points, or the store was full when the end-of-stroke block ran and the working
stroke is neither committed nor cleared: `num_strokes` is at least 4096, the
input has no RESET flag, every entry of `strokes` is as before the update, the
point count is at least the one before the update, and without a point in the
input the working stroke is unchanged. In particular the working stroke has zero
points when `num_strokes < 4096` before the update and the input has no REDO
flag; and when `num_strokes >= 4096` before the update and the input has none of
UNDO, REDO and RESET, the working stroke is neither committed nor cleared and
`num_strokes` is unchanged. -/
theorem end_stroke_clears_or_store_full {E : Externals} (s : MiltonState E)
    (input : MiltonInput)
    (hb : s.canvas_blocked = false)
    (he : input.flags &&& MiltonInputFlags_END_STROKE ≠ 0)
    (hnp : 0 ≤ s.working_stroke.num_points) :
    (¬ (input.flags &&& MiltonInputFlags_UNDO ≠ 0 ∧ 0 < s.working_stroke.num_points) →
      ∃ p, milton_update s input = .ok p) ∧
    ∀ p, milton_update s input = .ok p →
      (p.1.working_stroke.num_points = 0 ∨
        (4096 ≤ p.1.num_strokes ∧ input.flags &&& MiltonInputFlags_RESET = 0 ∧
          p.1.strokes = s.strokes ∧
          s.working_stroke.num_points ≤ p.1.working_stroke.num_points ∧
          (input.point = none → p.1.working_stroke = s.working_stroke))) ∧
      (input.flags &&& MiltonInputFlags_REDO = 0 → s.num_strokes < 4096 →
        p.1.working_stroke.num_points = 0) ∧
      (4096 ≤ s.num_strokes → input.flags &&& MiltonInputFlags_UNDO = 0 →
        input.flags &&& MiltonInputFlags_REDO = 0 →
        input.flags &&& MiltonInputFlags_RESET = 0 →
        p.1.num_strokes = s.num_strokes ∧ p.1.strokes = s.strokes ∧
          s.working_stroke.num_points ≤ p.1.working_stroke.num_points ∧
          (input.point = none → p.1.working_stroke = s.working_stroke)) := by
  refine ⟨milton_update_ok s input, fun p h => ?_⟩
  by_cases hne : input.flags &&& MiltonInputFlags_UNDO ≠ 0 ∧ 0 < s.working_stroke.num_points
  · rw [milton_update_error s input hne] at h
    exact Except.noConfusion h
  · obtain ⟨n, r, rf, hshape, hn⟩ := milton_update_blocks s input hne
    rw [hshape] at h
    injection h with h
    subst h
    obtain ⟨hcb, -, hws⟩ := update_reset_blocked s input n r rf
    obtain ⟨hnum, hstr⟩ := update_reset_store s input n r rf
    have hnp2 : 0 ≤ (update_reset input
        ({ (update_mode input (update_zoom input (update_full_refresh input
              (update_fast_draw input (s, MiltonRenderFlags_none))))).1 with
            num_strokes := n, num_redos := r }, rf)).1.working_stroke.num_points := by
      rw [hws]
      show 0 ≤ (if input.flags &&& MiltonInputFlags_RESET ≠ 0 then 0
        else s.working_stroke.num_points)
      split_ifs <;> omega
    have hnoreset : ∀ w : Stroke E, input.flags &&& MiltonInputFlags_RESET = 0 →
        ({ w with num_points :=
            if input.flags &&& MiltonInputFlags_RESET ≠ 0 then 0 else w.num_points } :
          Stroke E) = w := by
      intro w hr
      rw [if_neg (fun hc => hc hr)]
    obtain ⟨k1, k2⟩ := end_after_point input _ (hcb.trans hb) he hnp2
    refine ⟨?_, fun hr hlt => k2 ?_, ?_⟩
    · by_cases hfull : 4096 ≤ (update_reset input
          ({ (update_mode input (update_zoom input (update_full_refresh input
                (update_fast_draw input (s, MiltonRenderFlags_none))))).1 with
              num_strokes := n, num_redos := r }, rf)).1.num_strokes
      · right
        obtain ⟨a1, a2, a3, a4⟩ := end_after_point_full input _ hfull
        have hr : input.flags &&& MiltonInputFlags_RESET = 0 := by
          by_contra hc
          rw [hnum, if_pos hc] at hfull
          omega
        rw [hws, hnoreset _ hr] at a3 a4
        rw [hstr, if_neg (fun hc => hc hr)] at a2
        exact ⟨by rw [a1]; exact hfull, hr, a2, a3, a4⟩
      · left
        exact k2 (by omega)
    · rw [hnum, hn]
      have hr2 : ¬ (input.flags &&& MiltonInputFlags_REDO ≠ 0 ∧ 0 < s.num_redos) :=
        fun hc => hc.1 hr
      rw [if_neg hr2]
      split_ifs <;> omega
    · intro hfull hu hr hx
      have hn2 : n = s.num_strokes := by
        rw [hn, if_neg (fun hc => hc hu), if_neg (fun hc => hc.1 hr)]
      have hm : 4096 ≤ (update_reset input
          ({ (update_mode input (update_zoom input (update_full_refresh input
                (update_fast_draw input (s, MiltonRenderFlags_none))))).1 with
              num_strokes := n, num_redos := r }, rf)).1.num_strokes := by
        rw [hnum, if_neg (fun hc => hc hx), hn2]
        exact hfull
      obtain ⟨a1, a2, a3, a4⟩ := end_after_point_full input _ hm
      rw [hws, hnoreset _ hx] at a3 a4
      rw [hstr, if_neg (fun hc => hc hx)] at a2
      rw [hnum, if_neg (fun hc => hc hx)] at a1
      exact ⟨a1.trans hn2, a2, a3, a4⟩

/-- C19 amended, evaluated. On the sample state after one point, an update with
only END_STROKE returns with an empty working stroke. On the state with a full
store (4096 strokes) and a working stroke of one point, an update with only
END_STROKE returns with 4096 strokes, the strokes and the working stroke
unchanged. -/
theorem end_stroke_clears_or_store_full_witness :
    (∃ p, milton_update (state_after sample_state [Call.update (point_input 0 300 300)])
        (flags_input 4) = .ok p ∧ p.1.working_stroke.num_points = 0) ∧
    (∃ p, milton_update full_store_state (flags_input 4) = .ok p ∧
      p.1.num_strokes = full_store_state.num_strokes ∧
      p.1.strokes = full_store_state.strokes ∧
      full_store_state.working_stroke.num_points ≤ p.1.working_stroke.num_points ∧
      ((flags_input 4).point = none → p.1.working_stroke = full_store_state.working_stroke)) :=
  ⟨⟨_, rfl, ((end_stroke_clears_or_store_full
      (state_after sample_state [Call.update (point_input 0 300 300)]) (flags_input 4)
      (by decide) (by decide) (by decide)).2 _ rfl).2.1 (by decide) (by decide)⟩,
    ⟨_, rfl, ((end_stroke_clears_or_store_full full_store_state (flags_input 4)
      (by decide) (by decide) (by decide)).2 _ rfl).2.2
        (by decide) (by decide) (by decide) (by decide)⟩⟩

/-! ## The commit of the working stroke -/

/-- The end-of-stroke block on a canvas that is not blocked and a store with a
free slot: the working stroke goes to the slot of the stroke count, the count
grows by one, and the view, the mode and the brushes stay. -/
theorem update_end_stroke_commit {E : Externals} (input : MiltonInput)
    (Y : MiltonState E × MiltonRenderFlags)
    (he : input.flags &&& MiltonInputFlags_END_STROKE ≠ 0)
    (hb : Y.1.canvas_blocked = false) (hn : Y.1.num_strokes < 4096) :
    (update_end_stroke input Y).1 =
      { Y.1 with
        strokes := Function.update Y.1.strokes Y.1.num_strokes Y.1.working_stroke
        num_strokes := Y.1.num_strokes + 1
        working_stroke := { Y.1.working_stroke with num_points := 0 } } := by
  unfold update_end_stroke
  have hnb : ¬ Y.1.canvas_blocked = true := by rw [hb]; exact Bool.noConfusion
  rw [if_pos he, if_neg hnb, if_pos hn]

/-- The end-of-stroke block on a blocked canvas leaves the stroke count and the
strokes as they are. -/
theorem update_end_stroke_on_blocked {E : Externals} (input : MiltonInput)
    (Y : MiltonState E × MiltonRenderFlags) (hb : Y.1.canvas_blocked = true) :
    (update_end_stroke input Y).1.num_strokes = Y.1.num_strokes ∧
      (update_end_stroke input Y).1.strokes = Y.1.strokes := by
  unfold update_end_stroke
  split_ifs <;> exact ⟨rfl, rfl⟩

/-- The point block and the end-of-stroke block with END_STROKE set, on a canvas
that is not blocked and a store with a free slot. Without a point the working
stroke is committed as it is; with a point that the picker does not take, the
working stroke with the point drawn on it is committed. -/
theorem commit_after_point {E : Externals} (input : MiltonInput)
    (X : MiltonState E × MiltonRenderFlags)
    (he : input.flags &&& MiltonInputFlags_END_STROKE ≠ 0)
    (hb : X.1.canvas_blocked = false) (hn : X.1.num_strokes < 4096) :
    (input.point = none →
      (update_end_stroke input (update_point input X)).1.num_strokes = X.1.num_strokes + 1 ∧
      (update_end_stroke input (update_point input X)).1.strokes =
        Function.update X.1.strokes X.1.num_strokes X.1.working_stroke) ∧
    (∀ pt, input.point = some pt →
      ¬ (is_user_drawing X.1 = false ∧ E.is_inside_picker X.1.picker pt = true) →
      (update_end_stroke input (update_point input X)).1.num_strokes = X.1.num_strokes + 1 ∧
      (update_end_stroke input (update_point input X)).1.strokes =
        Function.update X.1.strokes X.1.num_strokes
          (draw_point pt
            { (update_end_stroke input (update_point input X)).1 with
              working_stroke := X.1.working_stroke }).working_stroke) := by
  refine ⟨fun hp => ?_, fun pt hp hpick => ?_⟩
  · rw [update_point_none _ _ hp, update_end_stroke_commit input X he hb hn]
    exact ⟨rfl, rfl⟩
  · have hY : (update_point input X).1 = { draw_point pt X.1 with num_redos := 0 } :=
      update_point_draw input X pt hp hpick hb
    have hYb : (update_point input X).1.canvas_blocked = false := by rw [hY]; exact hb
    have hYn : (update_point input X).1.num_strokes < 4096 := by rw [hY]; exact hn
    rw [update_end_stroke_commit input _ he hYb hYn, hY]
    exact ⟨rfl, rfl⟩

/-- The point block and the end-of-stroke block when the picker takes the point:
the stroke count and the strokes stay. -/
theorem no_commit_on_picked_point {E : Externals} (input : MiltonInput)
    (X : MiltonState E × MiltonRenderFlags) (pt : v2i) (hp : input.point = some pt)
    (hpick : is_user_drawing X.1 = false ∧ E.is_inside_picker X.1.picker pt = true) :
    (update_end_stroke input (update_point input X)).1.num_strokes = X.1.num_strokes ∧
      (update_end_stroke input (update_point input X)).1.strokes = X.1.strokes := by
  have hYb : (update_point input X).1.canvas_blocked = true := by
    rw [(update_point_some input X pt hp).2, if_pos hpick]
  obtain ⟨f1, f2, -⟩ := update_point_frame input X
  obtain ⟨e1, e2⟩ := update_end_stroke_on_blocked input _ hYb
  rw [e1, e2, f1, f2]
  exact ⟨rfl, rfl⟩

/-- C8 as stated fails. On the sample state (canvas not blocked, no stroke, no
point in the working stroke) an update whose only flag is END_STROKE and whose
point lies inside the picker commits nothing: `num_strokes` stays 0. And on the
sample state after one drawn point, an update whose only flag is END_STROKE and
which carries a further point commits a stroke of two points, which is not the
working stroke of the state, whose point count is 1. -/
theorem end_stroke_with_point :
    (sample_state.canvas_blocked = false ∧ sample_state.num_strokes = 0 ∧
      (point_input 4 120 30).flags = MiltonInputFlags_END_STROKE ∧
      ∃ p, milton_update sample_state (point_input 4 120 30) = .ok p ∧
        p.1.num_strokes = 0 ∧ p.1.num_strokes ≠ sample_state.num_strokes + 1) ∧
    (one_point_state.canvas_blocked = false ∧ one_point_state.num_strokes = 0 ∧
      one_point_state.working_stroke.num_points = 1 ∧
      ∃ p, milton_update one_point_state (point_input 4 310 300) = .ok p ∧
        (p.1.strokes one_point_state.num_strokes).num_points = 2 ∧
        p.1.strokes one_point_state.num_strokes ≠ one_point_state.working_stroke) := by
  refine ⟨⟨by decide, by decide, by decide, _, rfl, by decide, by decide⟩,
    ⟨by decide, by decide, by decide, _, rfl, by decide, fun h => ?_⟩⟩
  have h2 := congrArg Stroke.num_points h
  revert h2
  decide

/-- C8, amended: for every state with `canvas_blocked` false and
`0 <= num_strokes = n`, a `milton_update` with only the END_STROKE flag returns,
and: if `n >= 4096` (store full) it leaves `num_strokes` and every entry of
`strokes` unchanged; if `n < 4096` and the input has no point it sets
`strokes[n]` equal to the working stroke (points, point count and brush), sets
`num_strokes` to `n + 1` and leaves every other entry of `strokes`, in
particular `strokes[0..n-1]`, unchanged; if `n < 4096` and the input has a point
that the picker does not take (a stroke is in progress or the point lies outside
the picker) it does the same with the working stroke on which the point has
been drawn (`draw_point`, under the view, the mode and the brushes that the
update leaves); and if the picker takes the point (no stroke in progress and the
point inside the picker) it leaves `num_strokes` and every entry of `strokes`
unchanged. -/
theorem end_stroke_only_commits {E : Externals} (s : MiltonState E) (input : MiltonInput)
    (hb : s.canvas_blocked = false) (_hn : 0 ≤ s.num_strokes)
    (hf : input.flags = MiltonInputFlags_END_STROKE) :
    ∃ p, milton_update s input = .ok p ∧
      (4096 ≤ s.num_strokes →
        p.1.num_strokes = s.num_strokes ∧ p.1.strokes = s.strokes) ∧
      (s.num_strokes < 4096 → input.point = none →
        p.1.strokes s.num_strokes = s.working_stroke ∧
        p.1.num_strokes = s.num_strokes + 1 ∧
        ∀ i : Int, i ≠ s.num_strokes → p.1.strokes i = s.strokes i) ∧
      (s.num_strokes < 4096 → ∀ pt, input.point = some pt →
        (0 < s.working_stroke.num_points ∨ E.is_inside_picker s.picker pt = false) →
        p.1.strokes s.num_strokes =
          (draw_point pt { p.1 with working_stroke := s.working_stroke }).working_stroke ∧
        p.1.num_strokes = s.num_strokes + 1 ∧
        ∀ i : Int, i ≠ s.num_strokes → p.1.strokes i = s.strokes i) ∧
      (∀ pt, input.point = some pt → ¬ 0 < s.working_stroke.num_points →
        E.is_inside_picker s.picker pt = true →
        p.1.num_strokes = s.num_strokes ∧ p.1.strokes = s.strokes) := by
  have hu : input.flags &&& MiltonInputFlags_UNDO = 0 := by rw [hf]; decide
  have hr : input.flags &&& MiltonInputFlags_REDO = 0 := by rw [hf]; decide
  have hx : input.flags &&& MiltonInputFlags_RESET = 0 := by rw [hf]; decide
  have he : input.flags &&& MiltonInputFlags_END_STROKE ≠ 0 := by rw [hf]; decide
  have hne : ¬ (input.flags &&& MiltonInputFlags_UNDO ≠ 0 ∧
      0 < s.working_stroke.num_points) := fun h => h.1 hu
  obtain ⟨n, r, rf, hshape, hn⟩ := milton_update_blocks s input hne
  rw [if_neg (fun hc => hc hu), if_neg (fun hc => hc.1 hr)] at hn
  subst hn
  obtain ⟨hcb, hpk, hws⟩ := update_reset_blocked s input s.num_strokes r rf
  obtain ⟨hnum, hstr⟩ := update_reset_store s input s.num_strokes r rf
  rw [if_neg (fun hc => hc hx)] at hnum hstr
  have hws2 : (update_reset input
      ({ (update_mode input (update_zoom input (update_full_refresh input
            (update_fast_draw input (s, MiltonRenderFlags_none))))).1 with
          num_strokes := s.num_strokes, num_redos := r }, rf)).1.working_stroke =
      s.working_stroke := by
    rw [hws, if_neg (fun hc => hc hx)]
  have hdraw : (is_user_drawing (update_reset input
      ({ (update_mode input (update_zoom input (update_full_refresh input
            (update_fast_draw input (s, MiltonRenderFlags_none))))).1 with
          num_strokes := s.num_strokes, num_redos := r }, rf)).1 = false) ↔
      ¬ 0 < s.working_stroke.num_points := by
    simp only [is_user_drawing, decide_eq_false_iff_not, hws2]
  refine ⟨_, hshape, fun hfull => ?_, fun hlt hp => ?_, fun hlt pt hp hnot => ?_,
    fun pt hp hnd hin => ?_⟩
  · obtain ⟨a1, a2, -⟩ := end_after_point_full input _ (by rw [hnum]; exact hfull)
    rw [a1, a2, hnum, hstr]
    exact ⟨rfl, rfl⟩
  · obtain ⟨a1, a2⟩ := (commit_after_point input _ he (hcb.trans hb)
      (by rw [hnum]; exact hlt)).1 hp
    rw [a1, a2, hnum, hstr, hws2]
    exact ⟨Function.update_same _ _ _, rfl, fun i hi => Function.update_noteq hi _ _⟩
  · have hpick : ¬ (is_user_drawing (update_reset input
        ({ (update_mode input (update_zoom input (update_full_refresh input
              (update_fast_draw input (s, MiltonRenderFlags_none))))).1 with
            num_strokes := s.num_strokes, num_redos := r }, rf)).1 = false ∧
        E.is_inside_picker (update_reset input
          ({ (update_mode input (update_zoom input (update_full_refresh input
                (update_fast_draw input (s, MiltonRenderFlags_none))))).1 with
              num_strokes := s.num_strokes, num_redos := r }, rf)).1.picker pt = true) := by
      rw [hdraw, hpk]
      intro hc
      rcases hnot with h1 | h1
      · exact hc.1 h1
      · rw [h1] at hc
        exact Bool.noConfusion hc.2
    obtain ⟨a1, a2⟩ := (commit_after_point input _ he (hcb.trans hb)
      (by rw [hnum]; exact hlt)).2 pt hp hpick
    rw [hnum] at a1 a2
    rw [hstr, hws2] at a2
    refine ⟨?_, a1, fun i hi => ?_⟩
    · conv_lhs => rw [a2]
      exact Function.update_same _ _ _
    · rw [a2]
      exact Function.update_noteq hi _ _
  · obtain ⟨a1, a2⟩ := no_commit_on_picked_point input _ pt hp
      ⟨hdraw.2 hnd, by rw [hpk]; exact hin⟩
    rw [a1, a2, hnum, hstr]
    exact ⟨rfl, rfl⟩

/-- C8 amended, evaluated on the sample state after one drawn point, whose
working stroke has one point and whose first slot is empty. An update with only
END_STROKE and no point commits that stroke: slot 0 becomes the working stroke,
with its one point, and `num_strokes` becomes 1. An update with only END_STROKE
and a further point commits the stroke with the point drawn on it, of two
points. -/
theorem end_stroke_only_commits_witness :
    (one_point_state.strokes 0).num_points = 0 ∧
    one_point_state.working_stroke.num_points = 1 ∧
    (∃ p, milton_update one_point_state (flags_input 4) = .ok p ∧
      p.1.strokes one_point_state.num_strokes = one_point_state.working_stroke ∧
      p.1.num_strokes = one_point_state.num_strokes + 1 ∧
      ∀ i : Int, i ≠ one_point_state.num_strokes →
        p.1.strokes i = one_point_state.strokes i) ∧
    (∃ p, milton_update one_point_state (point_input 4 310 300) = .ok p ∧
      p.1.strokes one_point_state.num_strokes =
        (draw_point ⟨310, 300⟩
          { p.1 with working_stroke := one_point_state.working_stroke }).working_stroke ∧
      p.1.num_strokes = one_point_state.num_strokes + 1 ∧
      ∀ i : Int, i ≠ one_point_state.num_strokes →
        p.1.strokes i = one_point_state.strokes i) := by
  refine ⟨by decide, by decide, ?_, ?_⟩
  · obtain ⟨p, hp, -, h2, -, -⟩ :=
      end_stroke_only_commits one_point_state (flags_input 4) (by decide) (by decide) rfl
    exact ⟨p, hp, h2 (by decide) rfl⟩
  · obtain ⟨p, hp, -, -, h3, -⟩ :=
      end_stroke_only_commits one_point_state (point_input 4 310 300) (by decide) (by decide)
        rfl
    exact ⟨p, hp, h3 (by decide) ⟨310, 300⟩ rfl (Or.inl (by decide))⟩

end Milton
